import Mathlib

/-!
# kiln: release sources and lock reconciliation

A shallow embedding of the parts of `dalvarado/kiln` that the release-source and
lock-reconciliation properties are about.

* Go strings are rendered as `String`.
* Collaborators the code reaches through the network or through an interface
  (HTTP GET, the release source, the Kilnfile loader) are function parameters;
  every effect a property talks about is recorded in an explicit trace.
* A Go `map` is rendered as an association list whose order is the order in which
  `range` happens to visit the keys; theorems quantify over every such order.
-/

set_option autoImplicit false

namespace Kiln

/-! ## Generic helpers -/

/-- Substring test used for the `ContainSubstring` expectations: `sub` occurs in `s`. -/
def Contains (s sub : String) : Prop := sub.data <:+: s.data

instance (s sub : String) : Decidable (Contains s sub) := by
  unfold Contains; infer_instance

/-- What a call can do to its caller: hand back a value, or end the process (`os.Exit`). -/
inductive Outcome (α : Type) where
  | exited (code : Nat)
  | returned (value : α)
  deriving DecidableEq, Repr

/-! ## package cargo (declarations used by the fetcher) -/

namespace cargo

/-- Key type of `cargo.CompiledReleaseSet`; `GetMatchedReleases` reads `Name` and `Version`. -/
structure CompiledRelease where
  Name : String
  Version : String
  StemcellOS : String
  StemcellVersion : String
  deriving DecidableEq, Repr

/-- The Go type `map[CompiledRelease]string`, as the list of its key/value pairs. -/
abbrev CompiledReleaseSet := List (CompiledRelease × String)

/-- Map read `m[k]` (with the `ok` flag as `Option`). -/
def CompiledReleaseSet.get (m : CompiledReleaseSet) (k : CompiledRelease) : Option String :=
  (m.find? (fun kv => decide (kv.1 = k))).map (fun kv => kv.2)

/-- Map write `m[k] = v`: the binding for `k` is replaced, every other binding is kept. -/
def CompiledReleaseSet.set (m : CompiledReleaseSet) (k : CompiledRelease) (v : String) :
    CompiledReleaseSet :=
  (k, v) :: m.filter (fun kv => decide (kv.1 ≠ k))

end cargo

/-! ## package fetcher: bosh_io_release_source.go -/

namespace fetcher

open cargo

/-- Result of `http.Get` followed by `ioutil.ReadAll(resp.Body)`: the request failed
(`err != nil`), or a response arrived with a status code and the body bytes that were read. -/
inductive HttpResult where
  | failed (err : String)
  | response (statusCode : Nat) (body : String)
  deriving DecidableEq, Repr

def repos : List String := [
  "cloudfoundry",
  "pivotal-cf",
  "cloudfoundry-incubator",
  "pivotal-cf-experimental",
  "bosh-packages",
  "cppforlife",
  "vito",
  "flavorjones",
  "xoebus",
  "dpb587",
  "jamlo",
  "concourse",
  "cf-platform-eng",
  "starkandwayne",
  "cloudfoundry-community",
  "vmware",
  "DataDog",
  "Dynatrace",
  "SAP",
  "hybris",
  "minio",
  "rakutentech",
  "frodenas"
]

def suffixes : List String := [
  "-release",
  "-boshrelease",
  "-bosh-release",
  ""
]

/-- URL that `ReleaseExistOnBoshio` requests for `name`. -/
def probeURL (name : String) : String :=
  "https://bosh.io/api/v1/releases/github.com/" ++ name

/-- `ReleaseExistOnBoshio`: one GET (recorded in the trace); a failed request ends the
process with status 1, otherwise the answer is `false` exactly for the body `null`.
The status code and the error of `ReadAll` are not looked at. -/
def ReleaseExistOnBoshio (http : String → HttpResult) (name : String) :
    List String × Outcome Bool :=
  match http (probeURL name) with
  | .failed _ => ([probeURL name], .exited 1)
  | .response _ body =>
    if body = "null" then ([probeURL name], .returned false)
    else ([probeURL name], .returned true)

/-- How the labelled `found:` loop nest ends for one release. -/
inductive Scan where
  | exhausted
  | hit (downloadURL : String)
  | exited (code : Nat)
  deriving DecidableEq, Repr

/-- Inner loop `for _, suf := range suffixes` for one `repo`. -/
def suffixLoop (http : String → HttpResult) (compRelease : CompiledRelease) (repo : String) :
    List String → List String × Scan
  | [] => ([], .exhausted)
  | suf :: rest =>
    let fullName := repo ++ "/" ++ compRelease.Name ++ suf
    match ReleaseExistOnBoshio http fullName with
    | (t, .exited c) => (t, .exited c)
    | (t, .returned true) =>
      (t, .hit ("https://bosh.io/d/github.com/" ++ fullName ++ "?v=" ++ compRelease.Version))
    | (t, .returned false) =>
      let r := suffixLoop http compRelease repo rest
      (t ++ r.1, r.2)

/-- Outer loop `for _, repo := range repos`, left by `break found`. -/
def repoLoop (http : String → HttpResult) (compRelease : CompiledRelease)
    (sufs : List String) : List String → List String × Scan
  | [] => ([], .exhausted)
  | repo :: rest =>
    match suffixLoop http compRelease repo sufs with
    | (t, .exited c) => (t, .exited c)
    | (t, .hit url) => (t, .hit url)
    | (t, .exhausted) =>
      let r := repoLoop http compRelease sufs rest
      (t ++ r.1, r.2)

/-- Loop `for compRelease := range desiredReleaseSet`, carrying the result map. -/
def releaseLoop (http : String → HttpResult) :
    List CompiledRelease → CompiledReleaseSet → List String × Outcome CompiledReleaseSet
  | [], matched => ([], .returned matched)
  | compRelease :: rest, matched =>
    match repoLoop http compRelease suffixes repos with
    | (t, .exited c) => (t, .exited c)
    | (t, .hit url) =>
      let r := releaseLoop http rest (matched.set compRelease url)
      (t ++ r.1, r.2)
    | (t, .exhausted) =>
      let r := releaseLoop http rest matched
      (t ++ r.1, r.2)

/-- `BOSHIOReleaseSource.GetMatchedReleases`: the GET requests issued, in order, and either
the process exit or the returned pair (map, error). -/
def GetMatchedReleases (http : String → HttpResult) (desiredReleaseSet : CompiledReleaseSet) :
    List String × Outcome (CompiledReleaseSet × Option String) :=
  match releaseLoop http (desiredReleaseSet.map (fun kv => kv.1)) [] with
  | (t, .exited c) => (t, .exited c)
  | (t, .returned matched) => (t, .returned (matched, none))

/-! ### Specification of the search: first hit in the ordered cross product -/

/-- Whether the probe of `name` reports existence (a response whose body is not `null`). -/
def probeHits (http : String → HttpResult) (name : String) : Bool :=
  match http (probeURL name) with
  | .failed _ => false
  | .response _ body => decide (body ≠ "null")

/-- No probe fails at transport level: the network acts as an existence oracle. -/
def NoHardFailure (http : String → HttpResult) : Prop :=
  ∀ url, ∃ st body, http url = .response st body

/-- Organization/suffix pairs in declared order, organizations outer, suffixes inner. -/
def orderedPairs : List (String × String) :=
  repos.flatMap (fun org => suffixes.map (fun suf => (org, suf)))

/-- Full name probed for a pair. -/
def fullNameOf (name : String) (p : String × String) : String :=
  p.1 ++ "/" ++ name ++ p.2

/-- First pair of `orderedPairs` whose probe reports existence. -/
def firstHit (http : String → HttpResult) (name : String) : Option (String × String) :=
  orderedPairs.find? (fun p => probeHits http (fullNameOf name p))

/-- Download URL of a release matched at pair `p`. -/
def downloadURLOf (rel : CompiledRelease) (p : String × String) : String :=
  "https://bosh.io/d/github.com/" ++ p.1 ++ "/" ++ rel.Name ++ p.2 ++ "?v=" ++ rel.Version

/-- Probes up to and including the first hit, or all of them when nothing hits. -/
def probesUntilHit (http : String → HttpResult) (name : String) : List String :=
  let names := orderedPairs.map (fullNameOf name)
  (names.take (names.findIdx (probeHits http) + 1)).map probeURL

end fetcher

end Kiln

namespace Kiln.fetcher
open Kiln.cargo

/-- The loop nest of one release, flattened (a proof device, shown equal to `repoLoop`):
probe the given pairs in order, stop at the first hit or at the first failed request. -/
def scanPairs (http : String → HttpResult) (rel : CompiledRelease) :
    List (String × String) → List String × Scan
  | [] => ([], .exhausted)
  | p :: rest =>
    match http (probeURL (fullNameOf rel.Name p)) with
    | .failed _ => ([probeURL (fullNameOf rel.Name p)], .exited 1)
    | .response _ body =>
      if body = "null" then
        (probeURL (fullNameOf rel.Name p) :: (scanPairs http rel rest).1,
          (scanPairs http rel rest).2)
      else ([probeURL (fullNameOf rel.Name p)], .hit (downloadURLOf rel p))

end Kiln.fetcher

namespace Kiln.fetcher
open Kiln.cargo

/-! ### Sample inputs -/

/-- An index that knows `cloudfoundry/capi` and `pivotal-cf/capi-release` and answers
`null` for everything else. -/
def exampleIndex : String → HttpResult := fun url =>
  if url = probeURL "cloudfoundry/capi" ∨ url = probeURL "pivotal-cf/capi-release" then
    .response 200 "[]"
  else .response 404 "null"

/-- An index that cannot be reached. -/
def unreachableIndex : String → HttpResult := fun _ => .failed "dial tcp: no route to host"

/-- An index answering every request with status 404 and an empty body. -/
def emptyBodyIndex : String → HttpResult := fun _ => .response 404 ""

def capi : CompiledRelease :=
  { Name := "capi", Version := "1.2", StemcellOS := "ubuntu-xenial", StemcellVersion := "621" }

def exampleDesired : CompiledReleaseSet := [(capi, "")]

end Kiln.fetcher

namespace Kiln

/-! ## package release -/

namespace release

/-- `release.ID`. -/
structure ID where
  Name : String
  Version : String
  deriving DecidableEq, Repr

/-- `release.Requirement`. -/
structure Requirement where
  Name : String
  Version : String
  StemcellOS : String
  StemcellVersion : String
  deriving DecidableEq, Repr

/-- `release.Remote`. -/
structure Remote where
  ID : ID
  RemotePath : String
  SourceID : String
  deriving DecidableEq, Repr

/-- `release.Local`. -/
structure Local where
  ID : ID
  LocalPath : String
  SHA1 : String
  deriving DecidableEq, Repr

end release

/-! ## package cargo: the lock aggregate -/

namespace cargo

/-- `cargo.ReleaseLock`, one pinned entry of `Kilnfile.lock`. -/
structure ReleaseLock where
  Name : String
  SHA1 : String
  Version : String
  RemoteSource : String
  RemotePath : String
  deriving DecidableEq, Repr

/-- `cargo.Stemcell`. -/
structure Stemcell where
  OS : String
  Version : String
  deriving DecidableEq, Repr

/-- `cargo.KilnfileLock`. -/
structure KilnfileLock where
  Releases : List ReleaseLock
  Stemcell : Stemcell
  deriving DecidableEq, Repr

end cargo

/-! ## package commands: lock reconciliation -/

namespace commands

open release cargo

/-- The orchestrator as the commands see it (`fetcher.MultiReleaseSource`): Go's
`(Remote, found, error)` and `(Local, error)` results. -/
structure MultiReleaseSource where
  GetMatchedRelease : Requirement → Remote × Bool × Option String
  DownloadRelease : String → Remote → Nat → Except String Local

/-- Calls a command makes on its collaborators, in order. -/
inductive Call where
  | GetMatchedRelease (requirement : Requirement)
  | DownloadRelease (releasesDir : String) (remote : Remote) (downloadThreads : Nat)
  | RemotePath (requirement : Requirement)
  | SaveKilnfileLock (path : String) (lock : KilnfileLock)
  | Log (line : String)
  deriving DecidableEq, Repr

/-- Locks handed to `SaveKilnfileLock`, in call order. -/
def savedLocks : List Call → List KilnfileLock
  | [] => []
  | .SaveKilnfileLock _ lock :: rest => lock :: savedLocks rest
  | _ :: rest => savedLocks rest

/-- Number of `GetMatchedRelease` calls. -/
def matchCalls : List Call → Nat
  | [] => 0
  | .GetMatchedRelease _ :: rest => matchCalls rest + 1
  | _ :: rest => matchCalls rest

/-- Number of `DownloadRelease` calls. -/
def downloadCalls : List Call → Nat
  | [] => 0
  | .DownloadRelease _ _ _ :: rest => downloadCalls rest + 1
  | _ :: rest => downloadCalls rest

/-- Everything written to the logger, line after line. -/
def logOutput : List Call → String
  | [] => ""
  | .Log line :: rest => line ++ "\n" ++ logOutput rest
  | _ :: rest => logOutput rest

/-- Flags of `update-release` that the algorithm reads. -/
structure UpdateReleaseOptions where
  Kilnfile : String
  Name : String
  Version : String
  ReleasesDir : String
  deriving DecidableEq, Repr

/-- Error of update-one for a name the lock does not track; `quote` is Go's `%q`. -/
def noReleaseNamed (quote : String → String) (name : String) : String :=
  "no release named " ++ quote name ++
    " exists in your Kilnfile.lock - try removing the -release, -boshrelease, or -bosh-release suffix if present"

/-- Error of update-one when every source answers not-found. -/
def releaseNotFound (quote : String → String) (name version : String) : String :=
  "couldn't find " ++ quote name ++ " " ++ version ++ " in any release source"

/-- The Requirement of update-one: requested name and version, the lock's stemcell. -/
def updateRequirement (opts : UpdateReleaseOptions) (lock : KilnfileLock) : Requirement :=
  { Name := opts.Name, Version := opts.Version,
    StemcellOS := lock.Stemcell.OS, StemcellVersion := lock.Stemcell.Version }

/-- The entry update-one writes for the release it resolved and downloaded. -/
def resolvedEntry (name : String) (remote : Remote) (localRelease : Local) : ReleaseLock :=
  { Name := name, SHA1 := localRelease.SHA1, Version := localRelease.ID.Version,
    RemoteSource := remote.SourceID, RemotePath := remote.RemotePath }

/-- The four-field comparison of update-one's no-op test. -/
def sameRelease (existing updated : ReleaseLock) : Bool :=
  decide (existing.Version = updated.Version ∧ existing.SHA1 = updated.SHA1 ∧
    existing.RemoteSource = updated.RemoteSource ∧ existing.RemotePath = updated.RemotePath)

/-- Modelled from the spec: `UpdateRelease.Execute` after flag parsing and Kilnfile loading
(`commands/update_release.go` is not among the sources; its test is). Spec 4.4 (a):
(1) the name must be in the current lock, else fail with "no release named ..." before any
other call; (2) build the Requirement from the name, the requested version and the lock's
stemcell; (3) resolve through the orchestrator, an error fails verbatim and not-found fails;
(4) download into the releases directory; (5) if version, sha1, source and path of the
result equal the existing entry, log "No changes made" and skip persistence; (6) otherwise
replace that entry in place and persist once. The result is the calls made and the error
returned (`none` is Go's nil). The wording of the errors beyond the quoted fragments, the
use of the first entry with the name and the download thread count are not fixed by the
spec. -/
def UpdateRelease.Execute (quote : String → String) (source : MultiReleaseSource)
    (save : String → KilnfileLock → Option String) (downloadThreads : Nat)
    (opts : UpdateReleaseOptions) (lock : KilnfileLock) : List Call × Option String :=
  match lock.Releases.find? (fun r => decide (r.Name = opts.Name)) with
  | none => ([], some (noReleaseNamed quote opts.Name))
  | some existing =>
    let requirement := updateRequirement opts lock
    match source.GetMatchedRelease requirement with
    | (_, _, some err) => ([.GetMatchedRelease requirement], some err)
    | (_, false, none) =>
      ([.GetMatchedRelease requirement], some (releaseNotFound quote opts.Name opts.Version))
    | (remote, true, none) =>
      match source.DownloadRelease opts.ReleasesDir remote downloadThreads with
      | .error err =>
        ([.GetMatchedRelease requirement,
          .DownloadRelease opts.ReleasesDir remote downloadThreads], some err)
      | .ok localRelease =>
        let updated := resolvedEntry existing.Name remote localRelease
        if sameRelease existing updated then
          ([.GetMatchedRelease requirement,
            .DownloadRelease opts.ReleasesDir remote downloadThreads,
            .Log "No changes made"], none)
        else
          let index := lock.Releases.findIdx (fun r => decide (r.Name = opts.Name))
          let newLock : KilnfileLock :=
            { Releases := lock.Releases.set index updated, Stemcell := lock.Stemcell }
          ([.GetMatchedRelease requirement,
            .DownloadRelease opts.ReleasesDir remote downloadThreads,
            .SaveKilnfileLock opts.Kilnfile newLock], save opts.Kilnfile newLock)

/-- `SyncWithLocal`: the fields of the command that the algorithm reads. -/
structure SyncWithLocal where
  ReleaseSourceID : String
  KilnfileLockPath : String
  KilnfileLock : KilnfileLock
  deriving DecidableEq, Repr

/-- A lock entry and a local release name the same release: equal Name and Version. -/
def lockMatches (entry : ReleaseLock) (localRelease : Local) : Bool :=
  decide (entry.Name = localRelease.ID.Name ∧ entry.Version = localRelease.ID.Version)

/-- Whether the lock has an entry for the local release. -/
def inLock (lock : KilnfileLock) (localRelease : Local) : Bool :=
  lock.Releases.any (fun entry => lockMatches entry localRelease)

/-- Error of sync-with-local for a local release the lock does not track. -/
def notInLock (name : String) : String :=
  "the local release " ++ name ++ " does not exist in the Kilnfile.lock"

/-- Error of sync-with-local when the remote path of a release cannot be computed. -/
def remotePathFailed (name err : String) : String :=
  "couldn't generate a remote path for release " ++ name ++ ": " ++ err

/-- The Requirement of sync-with-local: the local release under the lock's stemcell. -/
def syncRequirement (lock : KilnfileLock) (localRelease : Local) : Requirement :=
  { Name := localRelease.ID.Name, Version := localRelease.ID.Version,
    StemcellOS := lock.Stemcell.OS, StemcellVersion := lock.Stemcell.Version }

/-- Step 2 of sync-with-local: the remote path of every local release, in discovery order;
the first failure aborts. Returns the `RemotePath` calls made and either the error or
the releases paired with their paths. -/
def computeRemotePaths (remotePath : Requirement → Except String String)
    (lock : KilnfileLock) : List Local → List Call × Except String (List (Local × String))
  | [] => ([], .ok [])
  | localRelease :: rest =>
    let requirement := syncRequirement lock localRelease
    match remotePath requirement with
    | .error err =>
      ([.RemotePath requirement], .error (remotePathFailed localRelease.ID.Name err))
    | .ok path =>
      match computeRemotePaths remotePath lock rest with
      | (calls, .error err) => (.RemotePath requirement :: calls, .error err)
      | (calls, .ok paths) =>
        (.RemotePath requirement :: calls, .ok ((localRelease, path) :: paths))

/-- Step 3 of sync-with-local for one entry: source, path and sha1 are replaced by the
values of the local release that matches it, Name and Version stay. -/
def syncEntry (sourceID : String) (paths : List (Local × String)) (entry : ReleaseLock) :
    ReleaseLock :=
  match paths.find? (fun lp => lockMatches entry lp.1) with
  | none => entry
  | some lp =>
    { Name := entry.Name, SHA1 := lp.1.SHA1, Version := entry.Version,
      RemoteSource := sourceID, RemotePath := lp.2 }

/-- Modelled from the spec: `SyncWithLocal.Run` once the local releases are discovered and
the remote pather of the configured source is found (`commands/sync_with_local.go` is not
among the sources; its test is). Spec 4.4 (b): (1) every discovered local release must
match a lock entry by Name and Version, else fail naming it ("does not exist"); (2) compute
each one's remote path under the lock's stemcell, the first failure aborts naming the
release; (3) replace source, path and sha1 of the lock entries by the fresh values, keeping
Name, Version and order, and persist unconditionally. The result is the calls made and the
error returned. The wording of the errors beyond the quoted fragments is not fixed by the
spec. -/
def SyncWithLocal.Run (cmd : SyncWithLocal) (localReleases : List Local)
    (remotePath : Requirement → Except String String)
    (save : String → cargo.KilnfileLock → Option String) : List Call × Option String :=
  match localReleases.find? (fun l => !inLock cmd.KilnfileLock l) with
  | some missing => ([], some (notInLock missing.ID.Name))
  | none =>
    match computeRemotePaths remotePath cmd.KilnfileLock localReleases with
    | (calls, .error err) => (calls, some err)
    | (calls, .ok paths) =>
      let newLock : cargo.KilnfileLock :=
        { Releases := cmd.KilnfileLock.Releases.map (syncEntry cmd.ReleaseSourceID paths),
          Stemcell := cmd.KilnfileLock.Stemcell }
      (calls ++ [.SaveKilnfileLock cmd.KilnfileLockPath newLock],
        save cmd.KilnfileLockPath newLock)

end commands

end Kiln

namespace Kiln.commands
open Kiln.release Kiln.cargo

/-! ### Sample inputs (the fixtures of the command tests) -/

/-- Quoting of a name without characters that need escaping. -/
def plainQuote (s : String) : String := "\"" ++ s ++ "\""

def exampleLock : KilnfileLock :=
  { Releases := [
      { Name := "minecraft", SHA1 := "developersdevelopersdevelopersdevelopers",
        Version := "2.0.1", RemoteSource := "bosh.io", RemotePath := "not-used" },
      { Name := "capi", SHA1 := "old-sha1", Version := "1.8.0", RemoteSource := "bosh.io",
        RemotePath := "https://bosh.io/releases/some-release" }]
    Stemcell := { OS := "some-os", Version := "4.5.6" } }

def capiEntry : ReleaseLock :=
  { Name := "capi", SHA1 := "old-sha1", Version := "1.8.0", RemoteSource := "bosh.io",
    RemotePath := "https://bosh.io/releases/some-release" }

def newRemote : Remote :=
  { ID := { Name := "capi", Version := "1.8.7" }, RemotePath := "some/s3/path",
    SourceID := "final-pcf-bosh-releases" }

def newLocal : Local :=
  { ID := { Name := "capi", Version := "1.8.7" }, LocalPath := "releases/capi-1.8.7.tgz",
    SHA1 := "new-sha1" }

def oldRemote : Remote :=
  { ID := { Name := "capi", Version := "1.8.0" },
    RemotePath := "https://bosh.io/releases/some-release", SourceID := "bosh.io" }

def oldLocal : Local :=
  { ID := { Name := "capi", Version := "1.8.0" }, LocalPath := "not-used", SHA1 := "old-sha1" }

/-- A source that resolves and downloads the new release. -/
def newSource : MultiReleaseSource :=
  { GetMatchedRelease := fun _ => (newRemote, true, none)
    DownloadRelease := fun _ _ _ => .ok newLocal }

/-- A source that resolves and downloads exactly what the lock already pins. -/
def oldSource : MultiReleaseSource :=
  { GetMatchedRelease := fun _ => (oldRemote, true, none)
    DownloadRelease := fun _ _ _ => .ok oldLocal }

/-- Go zero value of `release.Remote`. -/
def emptyRemote : Remote :=
  { ID := { Name := "", Version := "" }, RemotePath := "", SourceID := "" }

/-- A source whose lookup fails. -/
def brokenSource : MultiReleaseSource :=
  { GetMatchedRelease := fun _ => (emptyRemote, false, some "bad stuff")
    DownloadRelease := fun _ _ _ => .ok newLocal }

def saveOK : String → KilnfileLock → Option String := fun _ _ => none

def capiOptions : UpdateReleaseOptions :=
  { Kilnfile := "Kilnfile", Name := "capi", Version := "1.8.7", ReleasesDir := "releases" }

def capiOldOptions : UpdateReleaseOptions :=
  { Kilnfile := "Kilnfile", Name := "capi", Version := "1.8.0", ReleasesDir := "releases" }

def unknownOptions : UpdateReleaseOptions :=
  { Kilnfile := "Kilnfile", Name := "no-such-release", Version := "1.8.7",
    ReleasesDir := "releases" }

def syncLock : KilnfileLock :=
  { Releases := [
      { Name := "some-release", SHA1 := "old-sha", Version := "1",
        RemoteSource := "old-source", RemotePath := "old-path" },
      { Name := "some-release-2", SHA1 := "old-sha-2", Version := "2",
        RemoteSource := "old-source-2", RemotePath := "old-path-2" }]
    Stemcell := { OS := "linux-os", Version := "2.2" } }

def syncCommand : SyncWithLocal :=
  { ReleaseSourceID := "some-source", KilnfileLockPath := "Kilnfile.lock",
    KilnfileLock := syncLock }

def shortLockCommand : SyncWithLocal :=
  { ReleaseSourceID := "some-source", KilnfileLockPath := "Kilnfile.lock",
    KilnfileLock :=
      { Releases := [
          { Name := "some-release", SHA1 := "old-sha", Version := "1",
            RemoteSource := "old-source", RemotePath := "old-path" }]
        Stemcell := { OS := "", Version := "" } } }

def local1 : Local :=
  { ID := { Name := "some-release", Version := "1" }, LocalPath := "local-path",
    SHA1 := "new-sha" }

def local2 : Local :=
  { ID := { Name := "some-release-2", Version := "2" }, LocalPath := "local-path-2",
    SHA1 := "new-sha-2" }

/-- A remote pather answering with one path per release name. -/
def examplePather : Requirement → Except String String := fun requirement =>
  if requirement.Name = "some-release" then .ok "new-path"
  else if requirement.Name = "some-release-2" then .ok "new-path-2"
  else .ok "other-path"

end Kiln.commands

namespace Kiln.fetcher
open Kiln.release

/-! ## package fetcher: the orchestrator -/

/-- Modelled from the spec: the `ReleaseSource` capability as the orchestrator uses it
(spec 4.1), an identifier and `GetMatchedRelease` with Go's `(Remote, found, error)`. -/
structure ReleaseSource where
  ID : String
  GetMatchedRelease : Requirement → Remote × Bool × Option String

/-- Modelled from the spec: `MultiReleaseSource.GetMatchedRelease`
(`fetcher/multi_release_source.go` is not among the sources). Spec 4.2: the sources are
tried in configuration order; the first `found=true` match is returned; an error from a
source aborts at once and is propagated; only a clean not-found falls through to the next
source; no match in any source gives `found=false` without error. The result is the ids of
the sources queried, in order, and Go's `(Remote, found, error)`. -/
def MultiReleaseSource.GetMatchedRelease :
    List ReleaseSource → Requirement → List String × (Remote × Bool × Option String)
  | [], _ => ([], (commands.emptyRemote, false, none))
  | src :: rest, requirement =>
    match src.GetMatchedRelease requirement with
    | (_, _, some err) => ([src.ID], (commands.emptyRemote, false, some err))
    | (remote, true, none) => ([src.ID], (remote, true, none))
    | (_, false, none) =>
      let r := MultiReleaseSource.GetMatchedRelease rest requirement
      (src.ID :: r.1, r.2)

/-! ## package fetcher: the object-store source -/

/-- One piece of a parsed path template: literal text, a field action such as
`.Name`, or the helper applied to a field, `trimSuffix .Name "-release"`. -/
inductive TemplatePart where
  | text (s : String)
  | field (name : String)
  | trimSuffix (name : String) (suffix : String)
  deriving DecidableEq, Repr

/-- The fields of `release.Requirement` a template can name. -/
def fieldValue (requirement : Requirement) (name : String) : Option String :=
  if name = "Name" then some requirement.Name
  else if name = "Version" then some requirement.Version
  else if name = "StemcellOS" then some requirement.StemcellOS
  else if name = "StemcellVersion" then some requirement.StemcellVersion
  else none

/-- Go's `strings.TrimSuffix`: `s` without the trailing `suffix`, if it ends with it. -/
def trimSuffix (s suffix : String) : String :=
  if suffix.data.isSuffixOf s.data then
    String.mk (s.data.take (s.data.length - suffix.data.length))
  else s

/-- Error detail of the template engine for a field the Requirement does not have. -/
def noSuchField (name : String) : String :=
  "can't evaluate field " ++ name ++ " in type release.Requirement"

/-- Expansion of one template part. -/
def evalPart (requirement : Requirement) : TemplatePart → Except String String
  | .text s => .ok s
  | .field name =>
    match fieldValue requirement name with
    | some v => .ok v
    | none => .error (noSuchField name)
  | .trimSuffix name suffix =>
    match fieldValue requirement name with
    | some v => .ok (trimSuffix v suffix)
    | none => .error (noSuchField name)

/-- Expansion of a template, left to right; the first part that fails ends it. -/
def evalTemplate (requirement : Requirement) : List TemplatePart → Except String String
  | [] => .ok ""
  | part :: rest =>
    match evalPart requirement part with
    | .error err => .error err
    | .ok s =>
      match evalTemplate requirement rest with
      | .error err => .error err
      | .ok t => .ok (s ++ t)

/-- The fields of `S3ReleaseSource` the operations read; the path template is held parsed,
the S3 clients are the function arguments of the operations. -/
structure S3ReleaseSource where
  ID : String
  Bucket : String
  PathTemplate : List TemplatePart
  Publishable : Bool
  deriving DecidableEq, Repr

/-- Answer of the existence probe `HeadObject`: the object is there, the service answered
with a request failure carrying a status code, or the call failed otherwise. -/
inductive HeadObjectResult where
  | found
  | requestFailure (statusCode : Nat) (message : String)
  | failed (message : String)
  deriving DecidableEq, Repr

/-- Calls on the S3 clients, in order. -/
inductive S3Call where
  | HeadObject (bucket key : String)
  | Upload (bucket key body : String)
  deriving DecidableEq, Repr

/-- Modelled from the spec: `S3ReleaseSource.RemotePath` (`fetcher/s3_release_source.go` is
not among the sources; its test is). Spec 4.1: pure expansion of the path template against
the Requirement; a failure is an error naming the field, which the test pins to contain
"unable to evaluate path_template". -/
def S3ReleaseSource.RemotePath (src : S3ReleaseSource) (requirement : Requirement) :
    Except String String :=
  match evalTemplate requirement src.PathTemplate with
  | .error err => .error ("unable to evaluate path_template: " ++ err)
  | .ok path => .ok path

/-- Modelled from the spec: `S3ReleaseSource.GetMatchedRelease`. Spec 4.1: expand the
template (a failure returns the error and makes no call), probe the bucket at the resolved
key once; a not-found response (status 404) is `found=false` without error, any other
failure is an error. The result is the calls made and Go's `(Remote, found, error)`. -/
def S3ReleaseSource.GetMatchedRelease (src : S3ReleaseSource)
    (headObject : String → String → HeadObjectResult) (requirement : Requirement) :
    List S3Call × (Remote × Bool × Option String) :=
  match src.RemotePath requirement with
  | .error err => ([], (commands.emptyRemote, false, some err))
  | .ok remotePath =>
    match headObject src.Bucket remotePath with
    | .found =>
      ([.HeadObject src.Bucket remotePath],
        ({ ID := { Name := requirement.Name, Version := requirement.Version },
           RemotePath := remotePath, SourceID := src.ID }, true, none))
    | .requestFailure statusCode message =>
      if statusCode = 404 then
        ([.HeadObject src.Bucket remotePath], (commands.emptyRemote, false, none))
      else ([.HeadObject src.Bucket remotePath], (commands.emptyRemote, false, some message))
    | .failed message =>
      ([.HeadObject src.Bucket remotePath], (commands.emptyRemote, false, some message))

/-- Modelled from the spec: `S3ReleaseSource.UploadRelease`. Spec 4.1: write the content to
the templated path and return the remote release; a template failure returns the error and
makes no call. The result is the calls made and Go's `(Remote, error)`. -/
def S3ReleaseSource.UploadRelease (src : S3ReleaseSource)
    (upload : String → String → String → Option String) (requirement : Requirement)
    (file : String) : List S3Call × Except String Remote :=
  match src.RemotePath requirement with
  | .error err => ([], .error err)
  | .ok remotePath =>
    match upload src.Bucket remotePath file with
    | some err => ([.Upload src.Bucket remotePath file], .error err)
    | none =>
      ([.Upload src.Bucket remotePath file],
        .ok { ID := { Name := requirement.Name, Version := requirement.Version },
              RemotePath := remotePath, SourceID := src.ID })

/-- The text a template part stands for once every field it names is known. -/
def substitute (requirement : Requirement) : TemplatePart → String
  | .text s => s
  | .field name => (fieldValue requirement name).getD ""
  | .trimSuffix name suffix => trimSuffix ((fieldValue requirement name).getD "") suffix

/-- The field a template part names, if any. -/
def TemplatePart.fieldName : TemplatePart → Option String
  | .text _ => none
  | .field name => some name
  | .trimSuffix name _ => some name

/-- Whether `name` is one of the four fields of a Requirement. -/
def knownField (name : String) : Bool :=
  decide (name = "Name" ∨ name = "Version" ∨ name = "StemcellOS" ∨ name = "StemcellVersion")

/-! ### Sample inputs (the fixtures of the S3 source tests) -/

/-- Go template `{{.Name}}/{{.Name}}-{{.Version}}-{{.StemcellOS}}-{{.StemcellVersion}}.tgz`. -/
def bobTemplate : List TemplatePart :=
  [.field "Name", .text "/", .field "Name", .text "-", .field "Version", .text "-",
    .field "StemcellOS", .text "-", .field "StemcellVersion", .text ".tgz"]

/-- Go template
`2.5/{{trimSuffix .Name "-release"}}/{{.Name}}-{{.Version}}-{{.StemcellOS}}-{{.StemcellVersion}}.tgz`. -/
def bpmTemplate : List TemplatePart :=
  [.text "2.5/", .trimSuffix "Name" "-release", .text "/", .field "Name", .text "-",
    .field "Version", .text "-", .field "StemcellOS", .text "-", .field "StemcellVersion",
    .text ".tgz"]

/-- Go template `{{.NoSuchField}}`. -/
def noSuchFieldTemplate : List TemplatePart := [.field "NoSuchField"]

def orangeSource : S3ReleaseSource :=
  { ID := "s3-source", Bucket := "orange-bucket", PathTemplate := bobTemplate,
    Publishable := false }

def otherOrangeSource : S3ReleaseSource :=
  { ID := "other-source", Bucket := "lemon-bucket", PathTemplate := bobTemplate,
    Publishable := true }

def builtSource : S3ReleaseSource :=
  { ID := "s3-source", Bucket := "built-bucket", PathTemplate := bpmTemplate,
    Publishable := false }

def brokenTemplateSource : S3ReleaseSource :=
  { ID := "s3-source", Bucket := "built-bucket", PathTemplate := noSuchFieldTemplate,
    Publishable := false }

def bobRequirement : Requirement :=
  { Name := "bob", Version := "2.0", StemcellOS := "plan9", StemcellVersion := "42" }

def bpmRequirement : Requirement :=
  { Name := "bpm-release", Version := "1.2.3", StemcellOS := "ubuntu-xenial",
    StemcellVersion := "190.0.0" }

/-- A bucket in which every key exists. -/
def headFound : String → String → HeadObjectResult := fun _ _ => .found

/-- A bucket answering every probe with status 404. -/
def headNotFound : String → String → HeadObjectResult :=
  fun _ _ => .requestFailure 404 "NotFound: Not Found"

/-- An uploader that accepts everything. -/
def uploadOK : String → String → String → Option String := fun _ _ _ => none

/-- Two sources that both hold the release. -/
def sourceA : ReleaseSource :=
  { ID := "A"
    GetMatchedRelease := fun requirement =>
      ({ ID := { Name := requirement.Name, Version := requirement.Version },
         RemotePath := "a-path", SourceID := "A" }, true, none) }

def sourceB : ReleaseSource :=
  { ID := "B"
    GetMatchedRelease := fun requirement =>
      ({ ID := { Name := requirement.Name, Version := requirement.Version },
         RemotePath := "b-path", SourceID := "B" }, true, none) }

/-- A source that does not hold the release. -/
def sourceEmpty : ReleaseSource :=
  { ID := "empty", GetMatchedRelease := fun _ => (commands.emptyRemote, false, none) }

/-- A source whose backend is down. -/
def sourceDown : ReleaseSource :=
  { ID := "down"
    GetMatchedRelease := fun _ => (commands.emptyRemote, false, some "503 Service Unavailable") }

end Kiln.fetcher

namespace Kiln

/-! ## package cargo: the Kilnfile -/

namespace cargo

/-- `cargo.ReleaseSourceConfig` with the fields the commands and their tests use; the Go
field `Type` is spelled `Type_` here. -/
structure ReleaseSourceConfig where
  Type_ : String
  Bucket : String
  Region : String
  AccessKeyId : String
  SecretAccessKey : String
  PathTemplate : String
  deriving DecidableEq, Repr

/-- `cargo.Kilnfile`, of which `PushRelease` reads the release sources. -/
structure Kilnfile where
  ReleaseSources : List ReleaseSourceConfig
  deriving DecidableEq, Repr

end cargo

namespace fetcher

/-- Modelled from the spec: the constant `fetcher.ReleaseSourceTypeS3`, declared outside
the sources; the object-store type is written `s3` in the Kilnfile fixtures of the command
tests and in the error text of `PushRelease.Execute`. -/
def ReleaseSourceTypeS3 : String := "s3"

end fetcher

/-! ## Go library functions used by `PushRelease.Execute` -/

/-- Go's `filepath.Base` with `/` as separator: the last element of the path, trailing
slashes removed first; `.` for the empty path, `/` for a path of slashes only. -/
def filepathBase (path : String) : String :=
  if path = "" then "."
  else
    let stripped := path.data.rdropWhile (fun c => decide (c = '/'))
    let last := stripped.rtakeWhile (fun c => decide (c ≠ '/'))
    if last = [] then "/" else String.mk last

/-- The elements of a list separated by single blanks. -/
def joinWithBlanks : List String → String
  | [] => ""
  | [a] => a
  | a :: b :: rest => a ++ " " ++ joinWithBlanks (b :: rest)

/-- Go's `%v` rendering of a `[]string`: the elements separated by blanks, in brackets. -/
def formatStrings (items : List String) : String :=
  "[" ++ joinWithBlanks items ++ "]"

/-! ## package commands: push_release.go -/

namespace commands

open cargo

/-- The flags of `PushRelease.Options`, as `jhanda.Parse` fills them. -/
structure PushReleaseOptions where
  Kilnfile : String
  Variables : List String
  VariablesFiles : List String
  Name : String
  Remote : String
  Path : String
  deriving DecidableEq, Repr

/-- The `s3manager.UploadInput` fields that `Execute` sets; `Body` is the opened file,
given by its content. -/
structure UploadInput where
  Bucket : String
  Key : String
  Body : String
  deriving DecidableEq, Repr

/-- Calls `PushRelease.Execute` makes on its collaborators, in order. `Upload` records the
number of option functions passed after the input. -/
inductive PushCall where
  | LoadKilnfiles (kilnfile : String) (variablesFiles : List String) (vars : List String)
  | Open (path : String)
  | UploaderConfig (index : Nat) (rc : ReleaseSourceConfig)
  | Upload (input : UploadInput) (options : Nat)
  deriving DecidableEq, Repr

/-- The `UploaderConfig` calls of a trace. -/
def uploaderConfigCalls : List PushCall → List (Nat × ReleaseSourceConfig)
  | [] => []
  | .UploaderConfig index rc :: rest => (index, rc) :: uploaderConfigCalls rest
  | _ :: rest => uploaderConfigCalls rest

/-- The `Upload` calls of a trace. -/
def uploadCalls : List PushCall → List (UploadInput × Nat)
  | [] => []
  | .Upload input options :: rest => (input, options) :: uploadCalls rest
  | _ :: rest => uploadCalls rest

/-- The loop `for index, rel := range kilnfile.ReleaseSources` of `Execute`, from position
`index` on: every s3 source passed adds its bucket to `validSourcesForErrOutput`; the first
s3 source whose bucket is the remote is taken (`rc`, with its index) and ends the loop. -/
def selectSource (remote : String) :
    List ReleaseSourceConfig → Nat → List String →
      Option (Nat × ReleaseSourceConfig) × List String
  | [], _, validSourcesForErrOutput => (none, validSourcesForErrOutput)
  | rel :: rest, index, validSourcesForErrOutput =>
    if rel.Type_ = fetcher.ReleaseSourceTypeS3 then
      if rel.Bucket = remote then
        (some (index, rel), validSourcesForErrOutput ++ [rel.Bucket])
      else selectSource remote rest (index + 1) (validSourcesForErrOutput ++ [rel.Bucket])
    else selectSource remote rest (index + 1) validSourcesForErrOutput

/-- The constant `msg` of `Execute`. -/
def remoteNotFoundMsg : String :=
  "remote release source could not be found in Kilnfile (only release sources of type s3 are supported)"

/-- `PushRelease.Execute`. The collaborators are arguments: `parse` is `jhanda.Parse` on
the options, `loadKilnfiles` the Kilnfile loader (the lock it also returns is dropped by
the code), `fsOpen` is `FS.Open`, and `uploaderConfig` gives the uploader, whose `Upload`
returns its error. The result is the calls made and the error returned (`none` is nil). -/
def PushRelease.Execute (parse : List String → Except String PushReleaseOptions)
    (loadKilnfiles : String → List String → List String → Except String Kilnfile)
    (fsOpen : String → Except String String)
    (uploaderConfig : ReleaseSourceConfig → Except String (UploadInput → Option String))
    (args : List String) : List PushCall × Option String :=
  match parse args with
  | .error err => ([], some err)
  | .ok options =>
    match loadKilnfiles options.Kilnfile options.VariablesFiles options.Variables with
    | .error err =>
      ([.LoadKilnfiles options.Kilnfile options.VariablesFiles options.Variables],
        some ("error loading Kilnfiles: " ++ err))
    | .ok kilnfile =>
      match fsOpen options.Path with
      | .error err =>
        ([.LoadKilnfiles options.Kilnfile options.VariablesFiles options.Variables,
          .Open options.Path], some ("could not open release: " ++ err))
      | .ok file =>
        match selectSource options.Remote kilnfile.ReleaseSources 0 [] with
        | (none, validSourcesForErrOutput) =>
          if validSourcesForErrOutput.length > 0 then
            ([.LoadKilnfiles options.Kilnfile options.VariablesFiles options.Variables,
              .Open options.Path],
              some (remoteNotFoundMsg ++ ", some acceptable sources are: " ++
                formatStrings validSourcesForErrOutput))
          else
            ([.LoadKilnfiles options.Kilnfile options.VariablesFiles options.Variables,
              .Open options.Path], some remoteNotFoundMsg)
        | (some (index, rc), _) =>
          match uploaderConfig rc with
          | .error err =>
            ([.LoadKilnfiles options.Kilnfile options.VariablesFiles options.Variables,
              .Open options.Path, .UploaderConfig index rc],
              some ("could not configure s3 uploader client: " ++ err))
          | .ok uploader =>
            let input : UploadInput :=
              { Bucket := rc.Bucket, Key := filepathBase options.Path, Body := file }
            match uploader input with
            | some err =>
              ([.LoadKilnfiles options.Kilnfile options.VariablesFiles options.Variables,
                .Open options.Path, .UploaderConfig index rc, .Upload input 0],
                some ("upload failed: " ++ err))
            | none =>
              ([.LoadKilnfiles options.Kilnfile options.VariablesFiles options.Variables,
                .Open options.Path, .UploaderConfig index rc, .Upload input 0], none)

/-! ### Sample inputs (the fixtures of the push-release test) -/

def orangeConfig : ReleaseSourceConfig :=
  { Type_ := "s3", Bucket := "orange-bucket", Region := "mars-2", AccessKeyId := "id",
    SecretAccessKey := "secret", PathTemplate := "" }

def boshioConfig : ReleaseSourceConfig :=
  { Type_ := "boshio", Bucket := "", Region := "", AccessKeyId := "", SecretAccessKey := "",
    PathTemplate := "" }

def lemonConfig : ReleaseSourceConfig :=
  { Type_ := "s3", Bucket := "lemon-bucket", Region := "mars-2", AccessKeyId := "id",
    SecretAccessKey := "secret", PathTemplate := "" }

def exampleReleaseSourceList : List ReleaseSourceConfig :=
  [orangeConfig, boshioConfig, lemonConfig]

/-- Flags of the test: `--remote orange-bucket --path banana-release.tgz`. -/
def orangeOptions : PushReleaseOptions :=
  { Kilnfile := "not-read-see-struct/Kilnfile", Variables := [],
    VariablesFiles := ["my-secrets"], Name := "banana-release", Remote := "orange-bucket",
    Path := "banana-release.tgz" }

/-- Flags of the test: `--remote dog-bucket --path banana-release.tgz`. -/
def dogOptions : PushReleaseOptions :=
  { Kilnfile := "not-read-see-struct/Kilnfile", Variables := [],
    VariablesFiles := ["my-secrets"], Name := "banana-release", Remote := "dog-bucket",
    Path := "banana-release.tgz" }

/-- Flags selecting the second s3 source, with a tarball inside a directory. -/
def lemonOptions : PushReleaseOptions :=
  { Kilnfile := "Kilnfile", Variables := [], VariablesFiles := [], Name := "banana-release",
    Remote := "lemon-bucket", Path := "releases/banana-release.tgz" }

def parseOrange : List String → Except String PushReleaseOptions := fun _ => .ok orangeOptions

def parseDog : List String → Except String PushReleaseOptions := fun _ => .ok dogOptions

def parseLemon : List String → Except String PushReleaseOptions := fun _ => .ok lemonOptions

def loadExample : String → List String → List String → Except String Kilnfile :=
  fun _ _ _ => .ok { ReleaseSources := exampleReleaseSourceList }

def loadEmpty : String → List String → List String → Except String Kilnfile :=
  fun _ _ _ => .ok { ReleaseSources := [] }

/-- A filesystem in which every path opens to the content `banana`. -/
def openBanana : String → Except String String := fun _ => .ok "banana"

/-- A filesystem in which no path opens. -/
def openMissing : String → Except String String := fun _ => .error "file does not exist"

/-- An uploader configuration that succeeds with an uploader that accepts everything. -/
def configOK : ReleaseSourceConfig → Except String (UploadInput → Option String) :=
  fun _ => .ok (fun _ => none)

/-- An uploader configuration that fails. -/
def configFails : ReleaseSourceConfig → Except String (UploadInput → Option String) :=
  fun _ => .error "missing credentials"

end commands

end Kiln

namespace Kiln.fetcher
open Kiln.release

/-! ## package fetcher: the local release directory -/

/-- Modelled from the spec: the deletion loop of `DeleteExtraReleases`
(`fetcher/local_release_directory.go` is not among the sources; its test is). Spec 4.3:
each listed release's file is removed, in order; the first removal that fails ends the
loop and is reported naming the release, which the test pins to the text "failed to delete
release" followed by the name. `remove` is the filesystem's removal on states `σ`. The
result is the final state, the paths whose removal was attempted, and the error. -/
def deleteReleases {σ : Type} (remove : σ → String → Except String σ) :
    σ → List Local → σ × List String × Option String
  | fs, [] => (fs, [], none)
  | fs, extra :: rest =>
    match remove fs extra.LocalPath with
    | .error _ =>
      (fs, [extra.LocalPath], some ("failed to delete release " ++ extra.ID.Name))
    | .ok fs' =>
      let r := deleteReleases remove fs' rest
      (r.1, extra.LocalPath :: r.2.1, r.2.2)

/-- Modelled from the spec: `LocalReleaseDirectory.DeleteExtraReleases`. Spec 4.3: the
listed files are removed; unless `noConfirm` is set the deletion is gated behind an
interactive confirmation, whose answer is `confirmed`. What a refusal returns is not fixed
by the spec: here nothing is removed and no error is returned. -/
def DeleteExtraReleases {σ : Type} (remove : σ → String → Except String σ) (confirmed : Bool)
    (fs : σ) (extraReleaseSet : List Local) (noConfirm : Bool) :
    σ × List String × Option String :=
  if noConfirm || confirmed then deleteReleases remove fs extraReleaseSet
  else (fs, [], none)

/-- Removal of a list of paths, one after the other, as long as each removal succeeds. -/
def removeAll {σ : Type} (remove : σ → String → Except String σ) : σ → List String → Option σ
  | fs, [] => some fs
  | fs, path :: rest =>
    match remove fs path with
    | .error _ => none
    | .ok fs' => removeAll remove fs' rest

/-- A directory given by the paths of its files; removing a path that is not there fails. -/
def removeFile (files : List String) (path : String) : Except String (List String) :=
  if path ∈ files then .ok (files.filter (fun p => decide (p ≠ path)))
  else .error ("remove " ++ path ++ ": no such file or directory")

/-! ### Sample inputs (the fixtures of the local directory test) -/

def extraRelease : Local :=
  { ID := { Name := "extra-release", Version := "0.0" },
    LocalPath := "releases/extra-release-0.0-os-0-0.0.0.tgz", SHA1 := "" }

def missingRelease : Local :=
  { ID := { Name := "extra-release-that-cannot-be-deleted", Version := "0.0" },
    LocalPath := "file-does-not-exist", SHA1 := "" }

def otherRelease : Local :=
  { ID := { Name := "other-release", Version := "1.0" },
    LocalPath := "releases/other-release-1.0.tgz", SHA1 := "" }

def releasesDirFiles : List String :=
  ["releases/extra-release-0.0-os-0-0.0.0.tgz", "releases/other-release-1.0.tgz"]

end Kiln.fetcher

namespace Kiln.builder

/-! ## package builder: metadata_parts_directory_reader.go -/

/-- A value decoded by `yaml.Unmarshal` into `interface{}`. -/
inductive Value where
  | null
  | bool (b : Bool)
  | int (n : Int)
  | str (s : String)
  | list (items : List Value)
  | map (entries : List (Value × Value))

/-- `builder.Part`. -/
structure Part where
  File : String
  Name : String
  Metadata : Value

/-- The bytes of a Go string: the UTF-8 encoding of its characters. -/
def goBytes (s : String) : List Nat :=
  s.data.flatMap (fun c => (String.utf8EncodeChar c).map (fun b => b.toNat))

/-- Lexicographic `<=` on byte sequences. -/
def leBytes : List Nat → List Nat → Bool
  | [], _ => true
  | _ :: _, [] => false
  | c :: cs, d :: ds =>
    if c < d then true
    else if d < c then false
    else leBytes cs ds

/-- The order `a <= b` of Go strings: byte-wise lexicographic. -/
def StringLE (a b : String) : Prop := leBytes (goBytes a) (goBytes b) = true

instance (a b : String) : Decidable (StringLE a b) := by
  unfold StringLE; infer_instance

/-- Go's `sort.Strings`: the strings in increasing order. -/
def sortStrings (keys : List String) : List String :=
  keys.insertionSort StringLE

/-- The inner loop of the ordering functions: every part named `name` is appended to
`outputs`, in the order of `parts`. -/
def appendNamed (name : String) : List Part → List Part → List Part
  | [], outputs => outputs
  | part :: rest, outputs =>
    if part.Name = name then appendNamed name rest (outputs ++ [part])
    else appendNamed name rest outputs

/-- The loop `for _, name := range orderedKeys` of `orderAlphabeticallyByName`. -/
def alphabeticalLoop (parts : List Part) : List String → List Part → List Part
  | [], outputs => outputs
  | name :: rest, outputs => alphabeticalLoop parts rest (appendNamed name parts outputs)

/-- `MetadataPartsDirectoryReader.orderAlphabeticallyByName`: the ordered parts and the
error (always nil). -/
def orderAlphabeticallyByName (_path : String) (parts : List Part) :
    List Part × Option String :=
  let orderedKeys := sortStrings (parts.map (fun part => part.Name))
  (alphabeticalLoop parts orderedKeys [], none)

end Kiln.builder

namespace Kiln.builder

/-! ## package builder: reading the parts of a directory -/

/-- The reader's fields other than the filesystem, which the operations take as an
argument. -/
structure MetadataPartsDirectoryReader where
  topLevelKey : String
  orderKey : String
  deriving DecidableEq, Repr

/-- What `filesystem.Walk` hands to the walk function for one entry: the path, whether
`info.IsDir()`, and the error of the walk for that entry (`none` is nil). -/
structure WalkEntry where
  filePath : String
  isDir : Bool
  err : Option String
  deriving DecidableEq, Repr

/-- The `filesystem` interface as the reader uses it: `Walk` gives the entries in the order
in which the walk function is called, `Open` gives the file or an error, a file being what
`ioutil.ReadAll` returns for it. -/
structure Filesystem where
  Walk : String → List WalkEntry
  Open : String → Except String (Except String String)

/-- Go library functions the reader calls: `%q` on a string and on an `interface{}`, `%v`
on an `interface{}`, `filepath.Join`, and `yaml.Unmarshal` into `map[string]interface{}`
and into `map[string][]interface{}` (a map being the list of its bindings). -/
structure GoLib where
  quote : String → String
  quoteValue : Value → String
  fmtValue : Value → String
  filepathJoin : String → String → String
  unmarshalVars : String → Except String (List (String × Value))
  unmarshalOrder : String → Except String (List (String × List Value))

/-- Map read `m[key]` on a map with string keys. -/
def lookupKey {α : Type} (key : String) : List (String × α) → Option α
  | [] => none
  | (k, v) :: rest => if k = key then some v else lookupKey key rest

/-- Map read `m["name"]` on a `map[interface{}]interface{}`. -/
def lookupName : List (Value × Value) → Option Value
  | [] => none
  | (.str k, v) :: rest => if k = "name" then some v else lookupName rest
  | _ :: rest => lookupName rest

/-- The expression `m["name"].(string)`: the name and `ok`. -/
def nameOf (entries : List (Value × Value)) : Option String :=
  match lookupName entries with
  | some (.str s) => some s
  | _ => none

/-- The scan of `filepath.Ext`, from the end of the path towards its start (the path is
given reversed): it ends at a separator, and at a dot with the extension. -/
def extScan : List Char → List Char → List Char
  | [], _ => []
  | c :: rest, acc =>
    if c = '/' then []
    else if c = '.' then '.' :: acc
    else extScan rest (c :: acc)

/-- Go's `filepath.Ext`: the suffix of the last path element from its final dot on, empty
if there is none. -/
def filepathExt (path : String) : String :=
  String.mk (extScan path.data.reverse [])

/-- Go's `path.Base`, which for the separator `/` is `filepath.Base`. -/
def pathBase (path : String) : String := filepathBase path

/-- The name a metadata item carries: the string under `name` if the item is a map. -/
def itemName : Value → Option String
  | .map i => nameOf i
  | _ => none

/-- Whether a value is a map (`map[interface{}]interface{}`). -/
def Value.isMap : Value → Bool
  | .map _ => true
  | _ => false

/-- Whether a value is a list (`[]interface{}`). -/
def Value.isList : Value → Bool
  | .list _ => true
  | _ => false

/-- The loop over the items of a list value in `readMetadataIntoParts`. -/
def readItems (lib : GoLib) (fileName : String) : List Value → List Part →
    List Part × Option String
  | [], parts => (parts, none)
  | item :: rest, parts =>
    match item with
    | .map i =>
      match nameOf i with
      | none =>
        ([], some ("metadata item '" ++ lib.fmtValue item ++ "' does not have a `name` field"))
      | some name =>
        readItems lib fileName rest
          (parts ++ [{ File := fileName, Name := name, Metadata := item }])
    | _ => ([], some ("metadata item '" ++ lib.fmtValue item ++ "' must be a map"))

/-- `MetadataPartsDirectoryReader.readMetadataIntoParts`: the parts and the error. -/
def readMetadataIntoParts (lib : GoLib) (fileName : String) (vars : Value)
    (parts : List Part) : List Part × Option String :=
  match vars with
  | .list v => readItems lib fileName v parts
  | .map v =>
    match nameOf v with
    | none =>
      ([], some ("metadata item '" ++ lib.fmtValue vars ++ "' does not have a `name` field"))
    | some name => (parts ++ [{ File := fileName, Name := name, Metadata := vars }], none)
  | _ => ([], some "expected either slice or map value")

/-- The comparison `part.Name == name` of a string with an `interface{}`. -/
def nameEq (partName : String) (name : Value) : Bool :=
  match name with
  | .str s => decide (partName = s)
  | _ => false

/-- The inner loop of `orderWithOrderFile`: every part whose name is `name` is appended to
`outputs` and sets `found`. -/
def collectNamed (name : Value) : List Part → Bool → List Part → Bool × List Part
  | [], found, outputs => (found, outputs)
  | part :: rest, found, outputs =>
    if nameEq part.Name name then collectNamed name rest true (outputs ++ [part])
    else collectNamed name rest found outputs

/-- The loop `for _, name := range orderedNames` of `orderWithOrderFile`. -/
def orderLoop (lib : GoLib) (path : String) (parts : List Part) :
    List Value → List Part → List Part × Option String
  | [], outputs => (outputs, none)
  | name :: rest, outputs =>
    match collectNamed name parts false outputs with
    | (false, _) =>
      ([], some ("file specified in _order.yml " ++ lib.quoteValue name ++
        " does not exist in " ++ lib.quote path))
    | (true, outputs') => orderLoop lib path parts rest outputs'

/-- `MetadataPartsDirectoryReader.orderWithOrderFile`: the paths opened, the parts and the
error. -/
def orderWithOrderFile (r : MetadataPartsDirectoryReader) (fs : Filesystem) (lib : GoLib)
    (path : String) (parts : List Part) : List String × List Part × Option String :=
  let orderPath := lib.filepathJoin path "_order.yml"
  match fs.Open orderPath with
  | .error err => ([orderPath], [], some err)
  | .ok f =>
    match f with
    | .error err => ([orderPath], [], some err)
    | .ok data =>
      match lib.unmarshalOrder data with
      | .error err =>
        ([orderPath], [], some ("Invalid format for '" ++ orderPath ++ "': " ++ err))
      | .ok files =>
        match lookupKey r.orderKey files with
        | none =>
          ([orderPath], [], some ("Could not find top-level order key '" ++ r.orderKey ++
            "' in '" ++ orderPath ++ "'"))
        | some orderedNames =>
          ([orderPath], (orderLoop lib path parts orderedNames []).1,
            (orderLoop lib path parts orderedNames []).2)

/-- Whether the walk function passes over an entry: a directory, an extension other than
`.yml`, or the base name `_order.yml`. -/
def skipped (entry : WalkEntry) : Bool :=
  entry.isDir || decide (filepathExt entry.filePath ≠ ".yml") ||
    decide (pathBase entry.filePath = "_order.yml")

/-- The walk function of `readMetadataRecursivelyFromDir` for one entry: the paths opened,
the value of `parts` afterwards and the error returned to `Walk`. -/
def walkFn (r : MetadataPartsDirectoryReader) (fs : Filesystem) (lib : GoLib)
    (entry : WalkEntry) (parts : List Part) : List String × List Part × Option String :=
  match entry.err with
  | some err => ([], parts, some err)
  | none =>
    if skipped entry then ([], parts, none)
    else
      match fs.Open entry.filePath with
      | .error err => ([entry.filePath], parts, some err)
      | .ok f =>
        match f with
        | .error err => ([entry.filePath], parts, some err)
        | .ok data =>
          match lib.unmarshalVars data with
          | .error err => ([entry.filePath], parts, some err)
          | .ok fileVars =>
            match lookupKey r.topLevelKey fileVars with
            | none =>
              ([entry.filePath], parts,
                some ("not a " ++ r.topLevelKey ++ " file: " ++ lib.quote entry.filePath))
            | some vars =>
              match readMetadataIntoParts lib (pathBase entry.filePath) vars parts with
              | (parts', some err) =>
                ([entry.filePath], parts',
                  some ("file '" ++ entry.filePath ++ "' with top-level key '" ++
                    r.topLevelKey ++ "' has an invalid format: " ++ err))
              | (parts', none) => ([entry.filePath], parts', none)

/-- `Walk` calling the walk function entry after entry; the first error ends the walk. -/
def walkLoop (r : MetadataPartsDirectoryReader) (fs : Filesystem) (lib : GoLib) :
    List WalkEntry → List Part → List String × List Part × Option String
  | [], parts => ([], parts, none)
  | entry :: rest, parts =>
    match walkFn r fs lib entry parts with
    | (opened, parts', some err) => (opened, parts', some err)
    | (opened, parts', none) =>
      let out := walkLoop r fs lib rest parts'
      (opened ++ out.1, out.2.1, out.2.2)

/-- `MetadataPartsDirectoryReader.readMetadataRecursivelyFromDir`. -/
def readMetadataRecursivelyFromDir (r : MetadataPartsDirectoryReader) (fs : Filesystem)
    (lib : GoLib) (path : String) : List String × List Part × Option String :=
  walkLoop r fs lib (fs.Walk path) []

/-- `MetadataPartsDirectoryReader.Read`: the paths opened, the parts and the error. -/
def Read (r : MetadataPartsDirectoryReader) (fs : Filesystem) (lib : GoLib)
    (path : String) : List String × List Part × Option String :=
  match readMetadataRecursivelyFromDir r fs lib path with
  | (opened, _, some err) => (opened, [], some err)
  | (opened, parts, none) =>
    if r.orderKey ≠ "" then
      let out := orderWithOrderFile r fs lib path parts
      (opened ++ out.1, out.2.1, out.2.2)
    else
      (opened, (orderAlphabeticallyByName path parts).1,
        (orderAlphabeticallyByName path parts).2)

/-! ### Specification of the walk: what an entry contributes -/

/-- The metadata items of a top-level value: the elements of a list, a map itself. -/
def varsItems : Value → List Value
  | .list items => items
  | .map v => [.map v]
  | _ => []

/-- The metadata items a file holds under the reader's top-level key; none when the file
does not open, cannot be read or parsed, or lacks the key. -/
def fileItems (r : MetadataPartsDirectoryReader) (fs : Filesystem) (lib : GoLib)
    (filePath : String) : List Value :=
  match fs.Open filePath with
  | .ok (.ok data) =>
    match lib.unmarshalVars data with
    | .ok fileVars =>
      match lookupKey r.topLevelKey fileVars with
      | some vars => varsItems vars
      | none => []
    | .error _ => []
  | _ => []

/-- The part made of a metadata item of the file named `fileName`. -/
def itemPart (fileName : String) (item : Value) : Part :=
  { File := fileName, Name := (itemName item).getD "", Metadata := item }

/-- The parts an entry contributes, in the words of the specification: one part per
metadata item of an entry that is not a directory, has the extension `.yml` and is not
named `_order.yml`, each with the base name of the entry as its file; none for any other
entry. -/
def contributedParts (r : MetadataPartsDirectoryReader) (fs : Filesystem) (lib : GoLib)
    (entry : WalkEntry) : List Part :=
  if entry.isDir = false ∧ filepathExt entry.filePath = ".yml" ∧
      pathBase entry.filePath ≠ "_order.yml" then
    (fileItems r fs lib entry.filePath).map (itemPart (pathBase entry.filePath))
  else []

end Kiln.builder

namespace Kiln.builder

/-! ### Sample inputs: a directory of job files -/

def webItem : Value := .map [(.str "name", .str "web"), (.str "instances", .int 2)]

def dbItem : Value := .map [(.str "name", .str "db")]

def cacheItem : Value := .map [(.str "name", .str "cache")]

def webPart : Part := { File := "web.yml", Name := "web", Metadata := webItem }

def dbPart : Part := { File := "db.yml", Name := "db", Metadata := dbItem }

def cachePart : Part := { File := "db.yml", Name := "cache", Metadata := cacheItem }

/-- A second part named `db`, from another file. -/
def otherDbPart : Part := { File := "more.yml", Name := "db", Metadata := dbItem }

/-- Library functions for the samples: quoting of plain strings, a YAML decoder that knows
the contents of the sample files. -/
def sampleLib : GoLib :=
  { quote := fun s => "\"" ++ s ++ "\""
    quoteValue := fun v =>
      match v with
      | .str s => "\"" ++ s ++ "\""
      | _ => "%!q(value)"
    fmtValue := fun v =>
      match v with
      | .str s => s
      | _ => "map[...]"
    filepathJoin := fun dir name => dir ++ "/" ++ name
    unmarshalVars := fun data =>
      if data = "web file" then .ok [("job", webItem)]
      else if data = "db file" then .ok [("job", .list [dbItem, cacheItem])]
      else if data = "other file" then .ok [("stuff", .list [])]
      else .error "yaml: did not find expected key"
    unmarshalOrder := fun data =>
      if data = "order file" then
        .ok [("job_order", [.str "db", .str "web"]),
             ("broken_order", [.str "db", .str "nope", .str "web"])]
      else .error "yaml: did not find expected key" }

/-- The directory `jobs` holds a note, the order file and two job files; the directory
`bad` holds a job file and a file without the top-level key. -/
def sampleFS : Filesystem :=
  { Walk := fun path =>
      if path = "jobs" then
        [{ filePath := "jobs", isDir := true, err := none },
         { filePath := "jobs/README.md", isDir := false, err := none },
         { filePath := "jobs/_order.yml", isDir := false, err := none },
         { filePath := "jobs/db.yml", isDir := false, err := none },
         { filePath := "jobs/web.yml", isDir := false, err := none }]
      else if path = "bad" then
        [{ filePath := "bad", isDir := true, err := none },
         { filePath := "bad/db.yml", isDir := false, err := none },
         { filePath := "bad/other.yml", isDir := false, err := none },
         { filePath := "bad/web.yml", isDir := false, err := none }]
      else [{ filePath := path, isDir := false, err := some "no such file or directory" }]
    Open := fun path =>
      if path = "jobs/web.yml" ∨ path = "bad/web.yml" then .ok (.ok "web file")
      else if path = "jobs/db.yml" ∨ path = "bad/db.yml" then .ok (.ok "db file")
      else if path = "bad/other.yml" then .ok (.ok "other file")
      else if path = "jobs/_order.yml" then .ok (.ok "order file")
      else .error "file does not exist" }

/-- The directory `jobs/secret`, handed to the walk function with the error of reading
it. -/
def secretEntry : WalkEntry :=
  { filePath := "jobs/secret", isDir := true,
    err := some "open jobs/secret: permission denied" }

/-- The file `jobs/gone.yml`, handed to the walk function with the error of its lookup. -/
def goneEntry : WalkEntry :=
  { filePath := "jobs/gone.yml", isDir := false,
    err := some "lstat jobs/gone.yml: no such file or directory" }

/-- The files of `sampleFS` with a walk of `jobs` that cannot read the directory
`jobs/secret`. -/
def lockedFS : Filesystem :=
  { Walk := fun _ =>
      [{ filePath := "jobs", isDir := true, err := none },
       { filePath := "jobs/db.yml", isDir := false, err := none },
       secretEntry,
       { filePath := "jobs/web.yml", isDir := false, err := none }]
    Open := sampleFS.Open }

def alphabeticalReader : MetadataPartsDirectoryReader :=
  { topLevelKey := "job", orderKey := "" }

def orderedReader : MetadataPartsDirectoryReader :=
  { topLevelKey := "job", orderKey := "job_order" }

def brokenOrderReader : MetadataPartsDirectoryReader :=
  { topLevelKey := "job", orderKey := "broken_order" }

end Kiln.builder

/-! # Theorems -/

namespace Kiln.fetcher
open Kiln.cargo

/-! ## Community-index matching -/

theorem suffixLoop_eq_scanPairs (http : String → HttpResult) (rel : CompiledRelease)
    (repo : String) (sufs : List String) :
    suffixLoop http rel repo sufs = scanPairs http rel (sufs.map (fun suf => (repo, suf))) := by
  induction sufs with
  | nil => rfl
  | cons suf rest ih =>
    simp only [suffixLoop, scanPairs, List.map_cons, ReleaseExistOnBoshio, fullNameOf,
      downloadURLOf]
    cases h : http (probeURL (repo ++ "/" ++ rel.Name ++ suf)) with
    | failed e => simp
    | response st body =>
      by_cases hb : body = "null"
      · simp [hb, ih, fullNameOf]
      · simp [hb, String.append_assoc]

theorem scanPairs_append (http : String → HttpResult) (rel : CompiledRelease)
    (l₁ l₂ : List (String × String)) :
    scanPairs http rel (l₁ ++ l₂) =
      match scanPairs http rel l₁ with
      | (t, .exited c) => (t, .exited c)
      | (t, .hit url) => (t, .hit url)
      | (t, .exhausted) => (t ++ (scanPairs http rel l₂).1, (scanPairs http rel l₂).2) := by
  induction l₁ with
  | nil => simp [scanPairs]
  | cons p rest ih =>
    simp only [List.cons_append, scanPairs]
    cases h : http (probeURL (fullNameOf rel.Name p)) with
    | failed e => simp
    | response st body =>
      by_cases hb : body = "null"
      · simp only [List.append_eq, hb, if_true]
        rw [ih]
        cases h2 : scanPairs http rel rest with
        | mk t s => cases s <;> simp
      · simp [hb]

theorem repoLoop_eq_scanPairs (http : String → HttpResult) (rel : CompiledRelease)
    (sufs rs : List String) :
    repoLoop http rel sufs rs =
      scanPairs http rel (rs.flatMap (fun org => sufs.map (fun suf => (org, suf)))) := by
  induction rs with
  | nil => rfl
  | cons repo rest ih =>
    simp only [repoLoop, List.flatMap_cons, scanPairs_append, suffixLoop_eq_scanPairs, ih]

theorem repoLoop_orderedPairs (http : String → HttpResult) (rel : CompiledRelease) :
    repoLoop http rel suffixes repos = scanPairs http rel orderedPairs :=
  repoLoop_eq_scanPairs http rel suffixes repos

end Kiln.fetcher

namespace Kiln.fetcher
open Kiln.cargo

theorem probeHits_of_response {http : String → HttpResult} {name : String} {st : Nat}
    {body : String} (h : http (probeURL name) = .response st body) :
    probeHits http name = decide (body ≠ "null") := by
  simp [probeHits, h]

/-- With an existence oracle, the flattened scan probes up to the first hit and reports it. -/
theorem scanPairs_oracle (http : String → HttpResult) (hnet : NoHardFailure http)
    (rel : CompiledRelease) (ps : List (String × String)) :
    scanPairs http rel ps =
      (((ps.map (fullNameOf rel.Name)).take
          ((ps.map (fullNameOf rel.Name)).findIdx (probeHits http) + 1)).map probeURL,
        match ps.find? (fun p => probeHits http (fullNameOf rel.Name p)) with
        | some p => .hit (downloadURLOf rel p)
        | none => .exhausted) := by
  induction ps with
  | nil => rfl
  | cons p rest ih =>
    obtain ⟨st, body, h⟩ := hnet (probeURL (fullNameOf rel.Name p))
    have hp := probeHits_of_response h
    simp only [scanPairs, h, List.map_cons, List.findIdx_cons, List.find?_cons]
    by_cases hb : body = "null"
    · have hp' : probeHits http (fullNameOf rel.Name p) = false := by simp [hp, hb]
      simp [hb, hp', ih]
    · have hp' : probeHits http (fullNameOf rel.Name p) = true := by simp [hp, hb]
      simp [hb, hp']

/-- A scan ends in a process exit exactly when one of its requests failed, with status 1. -/
theorem scanPairs_exit (http : String → HttpResult) (rel : CompiledRelease)
    (ps : List (String × String)) :
    ((∃ url ∈ (scanPairs http rel ps).1, ∃ e, http url = .failed e) ↔
        (scanPairs http rel ps).2 = .exited 1) ∧
      ∀ c, (scanPairs http rel ps).2 = .exited c → c = 1 := by
  induction ps with
  | nil => simp [scanPairs]
  | cons p rest ih =>
    simp only [scanPairs]
    cases h : http (probeURL (fullNameOf rel.Name p)) with
    | failed e => simp [h]
    | response st body =>
      by_cases hb : body = "null"
      · simp only [hb, if_true, List.mem_cons]
        refine ⟨⟨?_, ?_⟩, ih.2⟩
        · rintro ⟨url, hu | hu, e, he⟩
          · rw [hu, h] at he; cases he
          · exact ih.1.1 ⟨url, hu, e, he⟩
        · intro hx
          obtain ⟨url, hu, e, he⟩ := ih.1.2 hx
          exact ⟨url, Or.inr hu, e, he⟩
      · simp [hb, h]

end Kiln.fetcher

namespace Kiln.cargo

theorem CompiledReleaseSet.get_set (m : CompiledReleaseSet) (k k' : CompiledRelease)
    (v : String) :
    (m.set k v).get k' = if k' = k then some v else m.get k' := by
  unfold CompiledReleaseSet.get CompiledReleaseSet.set
  by_cases h : k' = k
  · subst h; simp
  · have h' : ¬ k = k' := fun e => h e.symm
    simp only [List.find?_cons, h', decide_False, if_neg h, List.find?_filter]
    congr 2
    funext kv
    by_cases hk : kv.1 = k'
    · simp [hk, h]
    · simp [hk]

end Kiln.cargo

namespace Kiln.fetcher
open Kiln.cargo

theorem repoLoop_oracle (http : String → HttpResult) (hnet : NoHardFailure http)
    (rel : CompiledRelease) :
    repoLoop http rel suffixes repos =
      (probesUntilHit http rel.Name,
        match firstHit http rel.Name with
        | some p => .hit (downloadURLOf rel p)
        | none => .exhausted) := by
  rw [repoLoop_orderedPairs, scanPairs_oracle http hnet]
  rfl

theorem releaseLoop_oracle (http : String → HttpResult) (hnet : NoHardFailure http)
    (rels : List CompiledRelease) (matched : CompiledReleaseSet) :
    ∃ m, releaseLoop http rels matched =
        (rels.flatMap (fun rel => probesUntilHit http rel.Name), .returned m) ∧
      ∀ rel, m.get rel =
        if rel ∈ rels then
          (match firstHit http rel.Name with
            | some p => some (downloadURLOf rel p)
            | none => matched.get rel)
        else matched.get rel := by
  induction rels generalizing matched with
  | nil => exact ⟨matched, rfl, fun rel => by simp⟩
  | cons r rest ih =>
    simp only [releaseLoop, repoLoop_oracle http hnet, List.flatMap_cons]
    cases hf : firstHit http r.Name with
    | none =>
      obtain ⟨m, hm, hget⟩ := ih matched
      refine ⟨m, by simp [hm], fun rel => ?_⟩
      rw [hget rel]
      by_cases hr : rel = r
      · subst hr; simp [hf]
      · simp [hr]
    | some p =>
      obtain ⟨m, hm, hget⟩ := ih (matched.set r (downloadURLOf r p))
      refine ⟨m, by simp [hm], fun rel => ?_⟩
      rw [hget rel, CompiledReleaseSet.get_set]
      by_cases hr : rel = r
      · subst hr; simp [hf]
      · simp [hr]

/-- Over any organisation and suffix lists: the first hit of the cross product lies in an
organisation no later than any organisation that has a hit. -/
theorem find_cross_org_le (hit : String × String → Bool) (sufs : List String) :
    ∀ (rs : List String) (org suf : String), org ∈ rs → suf ∈ sufs → hit (org, suf) = true →
      ∃ p, (rs.flatMap (fun o => sufs.map (fun s => (o, s)))).find? hit = some p ∧
        rs.indexOf p.1 ≤ rs.indexOf org := by
  intro rs
  induction rs with
  | nil => intro org suf h; cases h
  | cons r rest ih =>
    intro org suf horg hsuf hhit
    rw [List.flatMap_cons, List.find?_append]
    cases hfirst : (sufs.map (fun s => (r, s))).find? hit with
    | some p =>
      refine ⟨p, rfl, ?_⟩
      have hmem := List.mem_of_find?_eq_some hfirst
      obtain ⟨s, _, hs⟩ := List.mem_map.1 hmem
      subst hs
      simp [List.indexOf_cons]
    | none =>
      have hne : org ≠ r := by
        intro e
        subst e
        have := List.find?_eq_none.1 hfirst (org, suf) (List.mem_map.2 ⟨suf, hsuf, rfl⟩)
        exact this hhit
      have horg' : org ∈ rest := by
        rcases List.mem_cons.1 horg with h | h
        · exact absurd h hne
        · exact h
      obtain ⟨p, hp, hle⟩ := ih org suf horg' hsuf hhit
      refine ⟨p, by simpa using hp, ?_⟩
      have h1 : (r == org) = false := by simpa using fun e => hne e.symm
      rw [List.indexOf_cons, List.indexOf_cons, h1]
      cases (r == p.1) <;> simp [hle]

theorem take_findIdx_of_none {α β : Type} (f : α → β) (p : β → Bool) (l : List α)
    (h : ∀ q ∈ l, p (f q) = false) :
    (l.map f).take ((l.map f).findIdx p + 1) = l.map f := by
  have : (l.map f).findIdx p = (l.map f).length := by
    rw [List.findIdx_eq_length]
    intro x hx
    obtain ⟨q, hq, rfl⟩ := List.mem_map.1 hx
    exact h q hq
  rw [this]
  exact List.take_of_length_le (Nat.le_succ _)

theorem take_findIdx_of_split {α β : Type} (f : α → β) (p : β → Bool)
    (before after : List α) (x : α) (hb : ∀ q ∈ before, p (f q) = false)
    (hx : p (f x) = true) :
    ((before ++ x :: after).map f).take (((before ++ x :: after).map f).findIdx p + 1) =
      (before ++ [x]).map f := by
  induction before with
  | nil => simp [List.findIdx_cons, hx]
  | cons b rest ih =>
    have hb0 : p (f b) = false := hb b (List.mem_cons_self _ _)
    have ih' := ih (fun q hq => hb q (List.mem_cons_of_mem _ hq))
    simp only [List.cons_append, List.map_cons, List.findIdx_cons, hb0, cond_false,
      List.take_succ_cons]
    rw [ih']

end Kiln.fetcher

namespace Kiln.fetcher
open Kiln.cargo

theorem exampleIndex_noHardFailure : NoHardFailure exampleIndex := by
  intro url
  unfold exampleIndex
  by_cases h : url = probeURL "cloudfoundry/capi" ∨ url = probeURL "pivotal-cf/capi-release"
  · exact ⟨200, "[]", by rw [if_pos h]⟩
  · exact ⟨404, "null", by rw [if_neg h]⟩

/-- C1: with the network acting as an existence oracle, `GetMatchedReleases` returns a map
and a nil error; every desired release is mapped to the download URL built from the first
organisation/suffix pair (organisations outer, suffixes inner, declared order) whose probe
reports existence, and is absent when no pair hits; the organisation chosen is never later
than an organisation that has a hit under any suffix. -/
theorem getMatchedReleases_first_hit (http : String → HttpResult) (hnet : NoHardFailure http)
    (desiredReleaseSet : CompiledReleaseSet) :
    ∃ matched, (GetMatchedReleases http desiredReleaseSet).2 = .returned (matched, none) ∧
      (∀ rel, rel ∈ desiredReleaseSet.map (fun kv => kv.1) →
        matched.get rel = (firstHit http rel.Name).map (downloadURLOf rel)) ∧
      (∀ rel org suf, rel ∈ desiredReleaseSet.map (fun kv => kv.1) → org ∈ repos →
        suf ∈ suffixes → probeHits http (fullNameOf rel.Name (org, suf)) = true →
        ∃ p, firstHit http rel.Name = some p ∧ matched.get rel = some (downloadURLOf rel p) ∧
          repos.indexOf p.1 ≤ repos.indexOf org) := by
  obtain ⟨m, hm, hget⟩ :=
    releaseLoop_oracle http hnet (desiredReleaseSet.map (fun kv => kv.1)) []
  have hmain : ∀ rel, rel ∈ desiredReleaseSet.map (fun kv => kv.1) →
      m.get rel = (firstHit http rel.Name).map (downloadURLOf rel) := by
    intro rel hrel
    rw [hget rel, if_pos hrel]
    cases firstHit http rel.Name <;> rfl
  refine ⟨m, by simp [GetMatchedReleases, hm], hmain, ?_⟩
  intro rel org suf hrel horg hsuf hhit
  obtain ⟨p, hp, hle⟩ :=
    find_cross_org_le (fun p => probeHits http (fullNameOf rel.Name p)) suffixes repos org suf
      horg hsuf hhit
  have hp' : firstHit http rel.Name = some p := hp
  exact ⟨p, hp', by rw [hmain rel hrel, hp']; rfl, hle⟩

/-- Witness for C1: `capi` is known as `cloudfoundry/capi` (last suffix of the first
organisation) and as `pivotal-cf/capi-release` (first suffix of the second); the first
organisation wins. -/
theorem getMatchedReleases_first_hit_witness :
    NoHardFailure exampleIndex ∧
      ∃ matched, (GetMatchedReleases exampleIndex exampleDesired).2 = .returned (matched, none) ∧
        matched.get capi = some "https://bosh.io/d/github.com/cloudfoundry/capi?v=1.2" := by
  obtain ⟨m, hm, hget, _⟩ :=
    getMatchedReleases_first_hit exampleIndex exampleIndex_noHardFailure exampleDesired
  refine ⟨exampleIndex_noHardFailure, m, hm, ?_⟩
  rw [hget capi (by decide)]
  decide

/-- C2: with the network acting as an existence oracle, the requests issued are, release
after release, the probes of the ordered organisation/suffix list up to and including the
first hit; for each name that list is a prefix of the 92 ordered probes, it is all 92 of
them when nothing hits, and when a pair hits it ends with that pair and every pair before
it missed. -/
theorem getMatchedReleases_probe_sequence (http : String → HttpResult)
    (hnet : NoHardFailure http) (desiredReleaseSet : CompiledReleaseSet) :
    (GetMatchedReleases http desiredReleaseSet).1 =
        (desiredReleaseSet.map (fun kv => kv.1)).flatMap
          (fun rel => probesUntilHit http rel.Name) ∧
      ∀ name,
        probesUntilHit http name <+:
            orderedPairs.map (fun p => probeURL (fullNameOf name p)) ∧
          (firstHit http name = none →
            probesUntilHit http name =
                orderedPairs.map (fun p => probeURL (fullNameOf name p)) ∧
              (probesUntilHit http name).length = 92) ∧
          (∀ p, firstHit http name = some p →
            ∃ before after, orderedPairs = before ++ p :: after ∧
              (∀ q ∈ before, probeHits http (fullNameOf name q) = false) ∧
              probeHits http (fullNameOf name p) = true ∧
              probesUntilHit http name =
                (before ++ [p]).map (fun q => probeURL (fullNameOf name q))) := by
  obtain ⟨m, hm, -⟩ :=
    releaseLoop_oracle http hnet (desiredReleaseSet.map (fun kv => kv.1)) []
  refine ⟨by simp [GetMatchedReleases, hm], fun name => ⟨?_, ?_, ?_⟩⟩
  · have h := List.take_prefix
      ((orderedPairs.map (fullNameOf name)).findIdx (probeHits http) + 1)
      (orderedPairs.map (fullNameOf name))
    have h2 := List.IsPrefix.map probeURL h
    simpa [probesUntilHit, List.map_map, Function.comp_def] using h2
  · intro hnone
    have hall : ∀ q ∈ orderedPairs, probeHits http (fullNameOf name q) = false := by
      intro q hq
      have := List.find?_eq_none.1 hnone q hq
      simpa using this
    have htake := take_findIdx_of_none (fullNameOf name) (probeHits http) orderedPairs hall
    have heq : probesUntilHit http name =
        orderedPairs.map (fun p => probeURL (fullNameOf name p)) := by
      simp only [probesUntilHit, htake, List.map_map, Function.comp_def]
    refine ⟨heq, ?_⟩
    rw [heq, List.length_map]
    rfl
  · intro p hp
    obtain ⟨hhit, before, after, hsplit, hbefore⟩ := List.find?_eq_some.1 hp
    have hb : ∀ q ∈ before, probeHits http (fullNameOf name q) = false := by
      intro q hq
      simpa using hbefore q hq
    refine ⟨before, after, hsplit, hb, hhit, ?_⟩
    have htake := take_findIdx_of_split (fullNameOf name) (probeHits http) before after p hb hhit
    simp only [probesUntilHit, hsplit, htake, List.map_map, Function.comp_def]

/-- Witness for C2: for `capi` the four `cloudfoundry` probes are issued and nothing else. -/
theorem getMatchedReleases_probe_sequence_witness :
    NoHardFailure exampleIndex ∧
      (GetMatchedReleases exampleIndex exampleDesired).1 =
        [probeURL "cloudfoundry/capi-release", probeURL "cloudfoundry/capi-boshrelease",
          probeURL "cloudfoundry/capi-bosh-release", probeURL "cloudfoundry/capi"] := by
  refine ⟨exampleIndex_noHardFailure, ?_⟩
  rw [(getMatchedReleases_probe_sequence exampleIndex exampleIndex_noHardFailure
    exampleDesired).1]
  decide

end Kiln.fetcher

namespace Kiln.fetcher
open Kiln.cargo

/-- The release loop ends in a process exit (with status 1) exactly when a request failed. -/
theorem releaseLoop_exit (http : String → HttpResult) (rels : List CompiledRelease)
    (matched : CompiledReleaseSet) :
    ((∃ url ∈ (releaseLoop http rels matched).1, ∃ e, http url = .failed e) ↔
        (releaseLoop http rels matched).2 = .exited 1) ∧
      ∀ c, (releaseLoop http rels matched).2 = .exited c → c = 1 := by
  induction rels generalizing matched with
  | nil => simp [releaseLoop]
  | cons r rest ih =>
    have hs := scanPairs_exit http r orderedPairs
    simp only [releaseLoop, repoLoop_orderedPairs]
    cases hscan : scanPairs http r orderedPairs with
    | mk t s =>
      rw [hscan] at hs
      cases s with
      | exited c =>
        have hc : c = 1 := hs.2 c rfl
        subst hc
        simpa using hs.1
      | hit url =>
        have hno : ¬ ∃ url ∈ t, ∃ e, http url = .failed e := fun h => by
          have := hs.1.1 h; cases this
        have ih' := ih (matched.set r url)
        refine ⟨⟨?_, ?_⟩, ih'.2⟩
        · rintro ⟨u, hu, e, he⟩
          rcases List.mem_append.1 hu with h | h
          · exact absurd ⟨u, h, e, he⟩ hno
          · exact ih'.1.1 ⟨u, h, e, he⟩
        · intro hx
          obtain ⟨u, hu, e, he⟩ := ih'.1.2 hx
          exact ⟨u, List.mem_append.2 (Or.inr hu), e, he⟩
      | exhausted =>
        have hno : ¬ ∃ url ∈ t, ∃ e, http url = .failed e := fun h => by
          have := hs.1.1 h; cases this
        have ih' := ih matched
        refine ⟨⟨?_, ?_⟩, ih'.2⟩
        · rintro ⟨u, hu, e, he⟩
          rcases List.mem_append.1 hu with h | h
          · exact absurd ⟨u, h, e, he⟩ hno
          · exact ih'.1.1 ⟨u, h, e, he⟩
        · intro hx
          obtain ⟨u, hu, e, he⟩ := ih'.1.2 hx
          exact ⟨u, List.mem_append.2 (Or.inr hu), e, he⟩

/-- C3 (as stated, refuted): with an unreachable index the one request issued fails, and
`GetMatchedReleases` does not return an error: the process ends with status 1. -/
theorem getMatchedReleases_hard_failure_counterexample :
    (∃ url ∈ (GetMatchedReleases unreachableIndex exampleDesired).1,
        ∃ e, unreachableIndex url = .failed e) ∧
      (GetMatchedReleases unreachableIndex exampleDesired).2 = .exited 1 ∧
      ¬ ∃ matched err,
        (GetMatchedReleases unreachableIndex exampleDesired).2 = .returned (matched, some err) := by
  refine ⟨⟨probeURL "cloudfoundry/capi-release", by decide, _, rfl⟩, by decide, ?_⟩
  rintro ⟨m, err, h⟩
  have h2 : (GetMatchedReleases unreachableIndex exampleDesired).2 = .exited 1 := by decide
  rw [h2] at h
  cases h

/-- C3 (amended): a request of `GetMatchedReleases` fails at transport level exactly when
the call ends the process, and it does so with exit status 1; whenever the call returns,
the returned error is nil. -/
theorem getMatchedReleases_hard_failure_exits (http : String → HttpResult)
    (desiredReleaseSet : CompiledReleaseSet) :
    ((∃ url ∈ (GetMatchedReleases http desiredReleaseSet).1, ∃ e, http url = .failed e) ↔
        (GetMatchedReleases http desiredReleaseSet).2 = .exited 1) ∧
      (∀ c, (GetMatchedReleases http desiredReleaseSet).2 = .exited c → c = 1) ∧
      ∀ matched err,
        (GetMatchedReleases http desiredReleaseSet).2 = .returned (matched, err) →
          err = none := by
  have h := releaseLoop_exit http (desiredReleaseSet.map (fun kv => kv.1)) []
  unfold GetMatchedReleases
  cases hl : releaseLoop http (desiredReleaseSet.map (fun kv => kv.1)) [] with
  | mk t o =>
    rw [hl] at h
    cases o with
    | exited c =>
      refine ⟨by simpa using h.1, ?_, ?_⟩
      · intro c' hc'
        simp only [Outcome.exited.injEq] at hc'
        subst hc'
        exact h.2 c rfl
      · intro m err hm
        cases hm
    | returned m =>
      refine ⟨by simpa using h.1, ?_, ?_⟩
      · intro c hc
        cases hc
      · intro m' err hm
        simp only [Outcome.returned.injEq, Prod.mk.injEq] at hm
        exact hm.2.symm

/-- C4: when the request is answered, `ReleaseExistOnBoshio` issues that one request and
returns a boolean that is `false` exactly when the body is `null`, whatever the status
code; every other body, the empty one included, gives `true`. -/
theorem releaseExistOnBoshio_null_iff (http : String → HttpResult) (name : String)
    (st : Nat) (body : String) (h : http (probeURL name) = .response st body) :
    ∃ b, ReleaseExistOnBoshio http name = ([probeURL name], .returned b) ∧
      (b = false ↔ body = "null") ∧ (body ≠ "null" → b = true) := by
  unfold ReleaseExistOnBoshio
  rw [h]
  by_cases hb : body = "null"
  · exact ⟨false, by simp [hb], by simp [hb], fun hne => absurd hb hne⟩
  · exact ⟨true, by simp [hb], by simp [hb], fun _ => rfl⟩

/-- Witness for C4: status 404 with an empty body is reported as "exists". -/
theorem releaseExistOnBoshio_null_iff_witness :
    emptyBodyIndex (probeURL "cloudfoundry/capi") = .response 404 "" ∧
      ∃ b, ReleaseExistOnBoshio emptyBodyIndex "cloudfoundry/capi" =
          ([probeURL "cloudfoundry/capi"], .returned b) ∧
        (b = false ↔ "" = "null") ∧ ("" ≠ "null" → b = true) :=
  ⟨rfl, releaseExistOnBoshio_null_iff emptyBodyIndex "cloudfoundry/capi" 404 "" rfl⟩

end Kiln.fetcher

namespace Kiln

theorem Contains.refl (s : String) : Contains s s := List.infix_refl _

theorem Contains.mid (a b c : String) : Contains (a ++ b ++ c) b := by
  unfold Contains
  rw [String.data_append, String.data_append]
  exact List.infix_append _ _ _

theorem Contains.right (a b : String) : Contains (a ++ b) b := by
  unfold Contains
  rw [String.data_append]
  exact (List.suffix_append _ _).isInfix

theorem getElem?_findIdx {α : Type} (p : α → Bool) (l : List α) :
    l[l.findIdx p]? = l.find? p := by
  induction l with
  | nil => rfl
  | cons a rest ih =>
    rw [List.findIdx_cons, List.find?_cons]
    cases p a <;> simp [ih]

namespace commands
open release cargo

/-! ## Update-one -/

/-- C5: update-one, changed case. When the lock has an entry named X and resolve and
download succeed with a version, sha1, source or path that differs from that entry, the
lock is persisted exactly once; the persisted lock has the old length and stemcell, has
the (first) entry named X replaced by X with the new version, sha1, source id and remote
path, and has every other position unchanged. -/
theorem updateRelease_changed (quote : String → String) (source : MultiReleaseSource)
    (save : String → KilnfileLock → Option String) (downloadThreads : Nat)
    (opts : UpdateReleaseOptions) (lock : KilnfileLock) (existing : ReleaseLock)
    (remote : Remote) (localRelease : Local)
    (hentry : lock.Releases.find? (fun r => decide (r.Name = opts.Name)) = some existing)
    (hmatch : source.GetMatchedRelease (updateRequirement opts lock) = (remote, true, none))
    (hdownload :
      source.DownloadRelease opts.ReleasesDir remote downloadThreads = .ok localRelease)
    (hdiff : ¬ (existing.Version = localRelease.ID.Version ∧
      existing.SHA1 = localRelease.SHA1 ∧ existing.RemoteSource = remote.SourceID ∧
      existing.RemotePath = remote.RemotePath)) :
    ∃ (i : Nat) (newLock : KilnfileLock),
      savedLocks (UpdateRelease.Execute quote source save downloadThreads opts lock).1 =
          [newLock] ∧
        lock.Releases[i]? = some existing ∧
        (∀ (j : Nat) (e : ReleaseLock), j < i → lock.Releases[j]? = some e → e.Name ≠ opts.Name) ∧
        newLock.Stemcell = lock.Stemcell ∧
        newLock.Releases.length = lock.Releases.length ∧
        newLock.Releases[i]? = some
          { Name := opts.Name, SHA1 := localRelease.SHA1, Version := localRelease.ID.Version,
            RemoteSource := remote.SourceID, RemotePath := remote.RemotePath } ∧
        ∀ j, j ≠ i → newLock.Releases[j]? = lock.Releases[j]? := by
  have hname : existing.Name = opts.Name := by simpa using List.find?_some hentry
  have hidx := getElem?_findIdx (fun r => decide (r.Name = opts.Name)) lock.Releases
  rw [hentry] at hidx
  have hlt : lock.Releases.findIdx (fun r => decide (r.Name = opts.Name)) <
      lock.Releases.length := (List.getElem?_eq_some.1 hidx).1
  have hsame : sameRelease existing (resolvedEntry existing.Name remote localRelease) = false := by
    simpa [sameRelease, resolvedEntry] using hdiff
  refine ⟨lock.Releases.findIdx (fun r => decide (r.Name = opts.Name)),
    { Releases := lock.Releases.set
        (lock.Releases.findIdx (fun r => decide (r.Name = opts.Name)))
        (resolvedEntry existing.Name remote localRelease),
      Stemcell := lock.Stemcell }, ?_, hidx, ?_, rfl, ?_, ?_, ?_⟩
  · simp [UpdateRelease.Execute, hentry, hmatch, hdownload, hsame, savedLocks]
  · intro j e hj he
    obtain ⟨hjl, hje⟩ := List.getElem?_eq_some.1 he
    have := List.not_of_lt_findIdx hj
    rw [hje] at this
    simpa using this
  · simp
  · simp [List.getElem?_set_self hlt, resolvedEntry, hname]
  · intro j hj
    exact List.getElem?_set_ne (fun e => hj e.symm)

/-- Witness for C5: the fixture of the command test, `capi` 1.8.0 bumped to 1.8.7. -/
theorem updateRelease_changed_witness :
    savedLocks (UpdateRelease.Execute plainQuote newSource saveOK 0 capiOptions
        exampleLock).1 =
      [{ Releases := [
          { Name := "minecraft", SHA1 := "developersdevelopersdevelopersdevelopers",
            Version := "2.0.1", RemoteSource := "bosh.io", RemotePath := "not-used" },
          { Name := "capi", SHA1 := "new-sha1", Version := "1.8.7",
            RemoteSource := "final-pcf-bosh-releases", RemotePath := "some/s3/path" }]
         Stemcell := { OS := "some-os", Version := "4.5.6" } }] ∧
      ∃ (i : Nat) (newLock : KilnfileLock),
        savedLocks (UpdateRelease.Execute plainQuote newSource saveOK 0 capiOptions
            exampleLock).1 = [newLock] ∧
          exampleLock.Releases[i]? = some capiEntry ∧
          (∀ (j : Nat) (e : ReleaseLock), j < i → exampleLock.Releases[j]? = some e → e.Name ≠ capiOptions.Name) ∧
          newLock.Stemcell = exampleLock.Stemcell ∧
          newLock.Releases.length = exampleLock.Releases.length ∧
          newLock.Releases[i]? = some
            { Name := capiOptions.Name, SHA1 := newLocal.SHA1, Version := newLocal.ID.Version,
              RemoteSource := newRemote.SourceID, RemotePath := newRemote.RemotePath } ∧
          ∀ j, j ≠ i → newLock.Releases[j]? = exampleLock.Releases[j]? :=
  ⟨by decide,
    updateRelease_changed plainQuote newSource saveOK 0 capiOptions exampleLock capiEntry
      newRemote newLocal (by decide) rfl rfl (by decide)⟩

/-- C6: update-one, no-op case. When resolve and download return the version, sha1, source
id and remote path the entry for X already has, the command succeeds, `SaveKilnfileLock` is
never called, and the log output contains "No changes made". -/
theorem updateRelease_unchanged (quote : String → String) (source : MultiReleaseSource)
    (save : String → KilnfileLock → Option String) (downloadThreads : Nat)
    (opts : UpdateReleaseOptions) (lock : KilnfileLock) (existing : ReleaseLock)
    (remote : Remote) (localRelease : Local)
    (hentry : lock.Releases.find? (fun r => decide (r.Name = opts.Name)) = some existing)
    (hmatch : source.GetMatchedRelease (updateRequirement opts lock) = (remote, true, none))
    (hdownload :
      source.DownloadRelease opts.ReleasesDir remote downloadThreads = .ok localRelease)
    (hsame : existing.Version = localRelease.ID.Version ∧
      existing.SHA1 = localRelease.SHA1 ∧ existing.RemoteSource = remote.SourceID ∧
      existing.RemotePath = remote.RemotePath) :
    (UpdateRelease.Execute quote source save downloadThreads opts lock).2 = none ∧
      savedLocks (UpdateRelease.Execute quote source save downloadThreads opts lock).1 = [] ∧
      Contains (logOutput (UpdateRelease.Execute quote source save downloadThreads opts
        lock).1) "No changes made" := by
  have hs : sameRelease existing (resolvedEntry existing.Name remote localRelease) = true := by
    simpa [sameRelease, resolvedEntry] using hsame
  have hrun : UpdateRelease.Execute quote source save downloadThreads opts lock =
      ([.GetMatchedRelease (updateRequirement opts lock),
        .DownloadRelease opts.ReleasesDir remote downloadThreads,
        .Log "No changes made"], none) := by
    simp [UpdateRelease.Execute, hentry, hmatch, hdownload, hs]
  rw [hrun]
  refine ⟨rfl, rfl, ?_⟩
  show Contains ("No changes made" ++ "\n" ++ "") "No changes made"
  decide

/-- Witness for C6: the fixture of the command test, `capi` resolved to what is pinned. -/
theorem updateRelease_unchanged_witness :
    (UpdateRelease.Execute plainQuote oldSource saveOK 0 capiOldOptions exampleLock).2 = none ∧
      savedLocks (UpdateRelease.Execute plainQuote oldSource saveOK 0 capiOldOptions
        exampleLock).1 = [] ∧
      Contains (logOutput (UpdateRelease.Execute plainQuote oldSource saveOK 0 capiOldOptions
        exampleLock).1) "No changes made" :=
  updateRelease_unchanged plainQuote oldSource saveOK 0 capiOldOptions exampleLock capiEntry
    oldRemote oldLocal (by decide) rfl rfl (by decide)

end commands

end Kiln

namespace Kiln.commands
open Kiln.release Kiln.cargo

/-- C7: update-one, unknown name. When no lock entry has the requested name, the command
returns an error containing "no release named" followed by the quoted name, and makes no
call at all: `GetMatchedRelease`, `DownloadRelease` and `SaveKilnfileLock` are each
invoked zero times. -/
theorem updateRelease_unknown_name (quote : String → String) (source : MultiReleaseSource)
    (save : String → KilnfileLock → Option String) (downloadThreads : Nat)
    (opts : UpdateReleaseOptions) (lock : KilnfileLock)
    (hno : ∀ e ∈ lock.Releases, e.Name ≠ opts.Name) :
    ∃ msg, (UpdateRelease.Execute quote source save downloadThreads opts lock).2 = some msg ∧
      Contains msg ("no release named " ++ quote opts.Name) ∧
      (UpdateRelease.Execute quote source save downloadThreads opts lock).1 = [] ∧
      matchCalls (UpdateRelease.Execute quote source save downloadThreads opts lock).1 = 0 ∧
      downloadCalls (UpdateRelease.Execute quote source save downloadThreads opts lock).1 = 0 ∧
      savedLocks (UpdateRelease.Execute quote source save downloadThreads opts lock).1 = [] := by
  have hnone : lock.Releases.find? (fun r => decide (r.Name = opts.Name)) = none := by
    rw [List.find?_eq_none]
    intro e he
    simpa using hno e he
  have hrun : UpdateRelease.Execute quote source save downloadThreads opts lock =
      ([], some (noReleaseNamed quote opts.Name)) := by
    simp [UpdateRelease.Execute, hnone]
  rw [hrun]
  refine ⟨_, rfl, ?_, rfl, rfl, rfl, rfl⟩
  unfold noReleaseNamed
  have h := Contains.mid "" ("no release named " ++ quote opts.Name)
    " exists in your Kilnfile.lock - try removing the -release, -boshrelease, or -bosh-release suffix if present"
  simpa using h

/-- Witness for C7: the fixture of the command test, `no-such-release`. -/
theorem updateRelease_unknown_name_witness :
    (∀ e ∈ exampleLock.Releases, e.Name ≠ unknownOptions.Name) ∧
      ∃ msg, (UpdateRelease.Execute plainQuote newSource saveOK 0 unknownOptions
          exampleLock).2 = some msg ∧
        Contains msg ("no release named " ++ plainQuote unknownOptions.Name) ∧
        (UpdateRelease.Execute plainQuote newSource saveOK 0 unknownOptions exampleLock).1 = [] ∧
        matchCalls (UpdateRelease.Execute plainQuote newSource saveOK 0 unknownOptions
          exampleLock).1 = 0 ∧
        downloadCalls (UpdateRelease.Execute plainQuote newSource saveOK 0 unknownOptions
          exampleLock).1 = 0 ∧
        savedLocks (UpdateRelease.Execute plainQuote newSource saveOK 0 unknownOptions
          exampleLock).1 = [] :=
  ⟨by decide,
    updateRelease_unknown_name plainQuote newSource saveOK 0 unknownOptions exampleLock
      (by decide)⟩

/-- C8: update-one atomicity. For a release the lock tracks: when `GetMatchedRelease`
returns an error or not-found, or `DownloadRelease` returns an error, the command returns
an error, `SaveKilnfileLock` is never called, and the error returned carries the text of
the underlying error where there is one. -/
theorem updateRelease_failure_keeps_lock (quote : String → String)
    (source : MultiReleaseSource) (save : String → KilnfileLock → Option String)
    (downloadThreads : Nat) (opts : UpdateReleaseOptions) (lock : KilnfileLock)
    (existing : ReleaseLock)
    (hentry : lock.Releases.find? (fun r => decide (r.Name = opts.Name)) = some existing)
    (hfail :
      (∃ remote found err,
        source.GetMatchedRelease (updateRequirement opts lock) = (remote, found, some err)) ∨
      (∃ remote,
        source.GetMatchedRelease (updateRequirement opts lock) = (remote, false, none)) ∨
      (∃ remote err,
        source.GetMatchedRelease (updateRequirement opts lock) = (remote, true, none) ∧
        source.DownloadRelease opts.ReleasesDir remote downloadThreads = .error err)) :
    ∃ msg, (UpdateRelease.Execute quote source save downloadThreads opts lock).2 = some msg ∧
      savedLocks (UpdateRelease.Execute quote source save downloadThreads opts lock).1 = [] ∧
      (∀ remote found err,
        source.GetMatchedRelease (updateRequirement opts lock) = (remote, found, some err) →
        Contains msg err) ∧
      (∀ remote err,
        source.GetMatchedRelease (updateRequirement opts lock) = (remote, true, none) →
        source.DownloadRelease opts.ReleasesDir remote downloadThreads = .error err →
        Contains msg err) := by
  rcases hfail with ⟨remote, found, err, h⟩ | ⟨remote, h⟩ | ⟨remote, err, h, hd⟩
  · have hrun : UpdateRelease.Execute quote source save downloadThreads opts lock =
        ([.GetMatchedRelease (updateRequirement opts lock)], some err) := by
      simp [UpdateRelease.Execute, hentry, h]
    rw [hrun]
    refine ⟨err, rfl, rfl, ?_, ?_⟩
    · intro r f e he
      rw [h] at he
      simp only [Prod.mk.injEq, Option.some.injEq] at he
      rw [he.2.2]
      exact Contains.refl _
    · intro r e he
      rw [h] at he
      simp at he
  · have hrun : UpdateRelease.Execute quote source save downloadThreads opts lock =
        ([.GetMatchedRelease (updateRequirement opts lock)],
          some (releaseNotFound quote opts.Name opts.Version)) := by
      simp [UpdateRelease.Execute, hentry, h]
    rw [hrun]
    refine ⟨_, rfl, rfl, ?_, ?_⟩
    · intro r f e he
      rw [h] at he
      simp at he
    · intro r e he
      rw [h] at he
      simp at he
  · have hrun : UpdateRelease.Execute quote source save downloadThreads opts lock =
        ([.GetMatchedRelease (updateRequirement opts lock),
          .DownloadRelease opts.ReleasesDir remote downloadThreads], some err) := by
      simp [UpdateRelease.Execute, hentry, h, hd]
    rw [hrun]
    refine ⟨err, rfl, rfl, ?_, ?_⟩
    · intro r f e he
      rw [h] at he
      simp at he
    · intro r e he hde
      rw [h] at he
      simp only [Prod.mk.injEq, and_true] at he
      subst he
      rw [hd] at hde
      simp only [Except.error.injEq] at hde
      rw [hde]
      exact Contains.refl _

/-- Witness for C8: the fixture of the command test, a lookup failing with "bad stuff". -/
theorem updateRelease_failure_keeps_lock_witness :
    ∃ msg, (UpdateRelease.Execute plainQuote brokenSource saveOK 0 capiOptions
        exampleLock).2 = some msg ∧
      savedLocks (UpdateRelease.Execute plainQuote brokenSource saveOK 0 capiOptions
        exampleLock).1 = [] ∧
      Contains msg "bad stuff" := by
  obtain ⟨msg, h1, h2, h3, _⟩ :=
    updateRelease_failure_keeps_lock plainQuote brokenSource saveOK 0 capiOptions exampleLock
      capiEntry (by decide) (Or.inl ⟨emptyRemote, false, "bad stuff", rfl⟩)
  exact ⟨msg, h1, h2, h3 emptyRemote false "bad stuff" rfl⟩

end Kiln.commands

namespace Kiln

theorem Contains.of_right (a b sub : String) (h : Contains b sub) : Contains (a ++ b) sub :=
  List.IsInfix.trans h (Contains.right a b)

namespace commands
open release cargo

/-! ## Sync-with-local -/

theorem savedLocks_append (a b : List Call) :
    savedLocks (a ++ b) = savedLocks a ++ savedLocks b := by
  induction a with
  | nil => rfl
  | cons c rest ih => cases c <;> simp [savedLocks, ih]

theorem computeRemotePaths_savedLocks (remotePath : Requirement → Except String String)
    (lock : KilnfileLock) (localReleases : List Local) :
    savedLocks (computeRemotePaths remotePath lock localReleases).1 = [] := by
  induction localReleases with
  | nil => rfl
  | cons l rest ih =>
    simp only [computeRemotePaths]
    cases remotePath (syncRequirement lock l) with
    | error err => rfl
    | ok path =>
      cases h : computeRemotePaths remotePath lock rest with
      | mk calls r =>
        rw [h] at ih
        cases r <;> simpa [savedLocks] using ih

theorem computeRemotePaths_ok (remotePath : Requirement → Except String String)
    (lock : KilnfileLock) (localReleases : List Local)
    (hpaths : ∀ l ∈ localReleases, ∃ p, remotePath (syncRequirement lock l) = .ok p) :
    ∃ paths, (computeRemotePaths remotePath lock localReleases).2 = .ok paths ∧
      paths.map Prod.fst = localReleases ∧
      ∀ lp ∈ paths, remotePath (syncRequirement lock lp.1) = .ok lp.2 := by
  induction localReleases with
  | nil => exact ⟨[], rfl, rfl, fun lp h => by cases h⟩
  | cons l rest ih =>
    obtain ⟨p, hp⟩ := hpaths l (List.mem_cons_self _ _)
    obtain ⟨paths, hok, hfst, hall⟩ := ih (fun l' hl' => hpaths l' (List.mem_cons_of_mem _ hl'))
    refine ⟨(l, p) :: paths, ?_, by simp [hfst], ?_⟩
    · simp only [computeRemotePaths, hp]
      cases h : computeRemotePaths remotePath lock rest with
      | mk calls r =>
        rw [h] at hok
        simp only at hok
        subst hok
        rfl
    · intro lp hlp
      rcases List.mem_cons.1 hlp with h | h
      · subst h; exact hp
      · exact hall lp h

theorem find?_fst (f : Local → Bool) (paths : List (Local × String)) :
    (paths.find? (fun lp => f lp.1)).map Prod.fst = (paths.map Prod.fst).find? f := by
  rw [List.find?_map]
  rfl

/-- C9: sync-with-local, success case. When every discovered local release matches a lock
entry by Name and Version and every remote path computation succeeds, the lock is written
once; the written lock keeps the stemcell, the number of entries and their order, every
entry keeps Name and Version, an entry matched by a local release gets the configured
source id, the path computed for that release under the lock's stemcell and that release's
SHA1, and an entry matched by none is unchanged. -/
theorem syncWithLocal_success (cmd : SyncWithLocal) (localReleases : List Local)
    (remotePath : Requirement → Except String String)
    (save : String → KilnfileLock → Option String)
    (hall : ∀ l ∈ localReleases, ∃ e ∈ cmd.KilnfileLock.Releases,
      e.Name = l.ID.Name ∧ e.Version = l.ID.Version)
    (hpaths : ∀ l ∈ localReleases,
      ∃ p, remotePath (syncRequirement cmd.KilnfileLock l) = .ok p) :
    ∃ written : KilnfileLock,
      savedLocks (SyncWithLocal.Run cmd localReleases remotePath save).1 = [written] ∧
      (SyncWithLocal.Run cmd localReleases remotePath save).2 =
        save cmd.KilnfileLockPath written ∧
      written.Stemcell = cmd.KilnfileLock.Stemcell ∧
      written.Releases.length = cmd.KilnfileLock.Releases.length ∧
      ∀ (i : Nat) (e : ReleaseLock), cmd.KilnfileLock.Releases[i]? = some e →
        ∃ e' : ReleaseLock, written.Releases[i]? = some e' ∧
          e'.Name = e.Name ∧ e'.Version = e.Version ∧
          (∀ l, localReleases.find? (fun l => lockMatches e l) = some l →
            e'.RemoteSource = cmd.ReleaseSourceID ∧
            remotePath (syncRequirement cmd.KilnfileLock l) = .ok e'.RemotePath ∧
            e'.SHA1 = l.SHA1) ∧
          (localReleases.find? (fun l => lockMatches e l) = none → e' = e) := by
  have hnone : localReleases.find? (fun l => !inLock cmd.KilnfileLock l) = none := by
    rw [List.find?_eq_none]
    intro l hl
    obtain ⟨e, he, hn, hv⟩ := hall l hl
    have : inLock cmd.KilnfileLock l = true := by
      unfold inLock
      rw [List.any_eq_true]
      exact ⟨e, he, by simp [lockMatches, hn, hv]⟩
    simp [this]
  obtain ⟨paths, hok, hfst, hpath⟩ :=
    computeRemotePaths_ok remotePath cmd.KilnfileLock localReleases hpaths
  have hsaved := computeRemotePaths_savedLocks remotePath cmd.KilnfileLock localReleases
  have hrun : SyncWithLocal.Run cmd localReleases remotePath save =
      ((computeRemotePaths remotePath cmd.KilnfileLock localReleases).1 ++
          [.SaveKilnfileLock cmd.KilnfileLockPath
            { Releases := cmd.KilnfileLock.Releases.map (syncEntry cmd.ReleaseSourceID paths),
              Stemcell := cmd.KilnfileLock.Stemcell }],
        save cmd.KilnfileLockPath
          { Releases := cmd.KilnfileLock.Releases.map (syncEntry cmd.ReleaseSourceID paths),
            Stemcell := cmd.KilnfileLock.Stemcell }) := by
    unfold SyncWithLocal.Run
    rw [hnone]
    cases h : computeRemotePaths remotePath cmd.KilnfileLock localReleases with
    | mk calls r =>
      rw [h] at hok
      simp only at hok
      subst hok
      rfl
  rw [hrun]
  refine ⟨_, by simp [savedLocks_append, hsaved, savedLocks], rfl, rfl, by simp, ?_⟩
  intro i e hie
  refine ⟨syncEntry cmd.ReleaseSourceID paths e, by simp [hie], ?_⟩
  have hfind := find?_fst (fun l => lockMatches e l) paths
  rw [hfst] at hfind
  unfold syncEntry
  cases hp : paths.find? (fun lp => lockMatches e lp.1) with
  | none =>
    rw [hp] at hfind
    refine ⟨rfl, rfl, ?_, fun _ => rfl⟩
    intro l hl
    rw [hl] at hfind
    cases hfind
  | some lp =>
    rw [hp] at hfind
    refine ⟨rfl, rfl, ?_, ?_⟩
    · intro l hl
      rw [hl] at hfind
      simp only [Option.map_some', Option.some.injEq] at hfind
      subst hfind
      exact ⟨rfl, hpath lp (List.mem_of_find?_eq_some hp), rfl⟩
    · intro hn
      rw [hn] at hfind
      cases hfind

/-- Witness for C9: the fixture of the command test, two entries and both artifacts. -/
theorem syncWithLocal_success_witness :
    savedLocks (SyncWithLocal.Run syncCommand [local1, local2] examplePather saveOK).1 =
      [{ Releases := [
          { Name := "some-release", SHA1 := "new-sha", Version := "1",
            RemoteSource := "some-source", RemotePath := "new-path" },
          { Name := "some-release-2", SHA1 := "new-sha-2", Version := "2",
            RemoteSource := "some-source", RemotePath := "new-path-2" }]
         Stemcell := { OS := "linux-os", Version := "2.2" } }] ∧
      ∃ written : KilnfileLock,
        savedLocks (SyncWithLocal.Run syncCommand [local1, local2] examplePather saveOK).1 =
          [written] ∧
        written.Releases.length = syncCommand.KilnfileLock.Releases.length := by
  refine ⟨by decide, ?_⟩
  obtain ⟨written, h1, _, _, h4, _⟩ :=
    syncWithLocal_success syncCommand [local1, local2] examplePather saveOK (by decide)
      (by
        intro l hl
        simp only [List.mem_cons, List.mem_singleton, List.not_mem_nil, or_false] at hl
        rcases hl with h | h
        · exact ⟨"new-path", by subst h; rfl⟩
        · exact ⟨"new-path-2", by subst h; rfl⟩)
  exact ⟨written, h1, h4⟩

/-- C10: sync-with-local, unknown local artifact. When some discovered local release
matches no lock entry by Name and Version, the command returns an error that contains
"does not exist" and the name of such a release (the first one in discovery order, hence
that very release when it is the only one), and makes no call: nothing is persisted,
whatever the other local releases match. -/
theorem syncWithLocal_unknown_local (cmd : SyncWithLocal) (localReleases : List Local)
    (remotePath : Requirement → Except String String)
    (save : String → KilnfileLock → Option String) (z : Local)
    (hz : z ∈ localReleases)
    (hun : ∀ e ∈ cmd.KilnfileLock.Releases,
      ¬ (e.Name = z.ID.Name ∧ e.Version = z.ID.Version)) :
    ∃ (msg : String) (first : Local),
      (SyncWithLocal.Run cmd localReleases remotePath save).2 = some msg ∧
      first ∈ localReleases ∧
      (∀ e ∈ cmd.KilnfileLock.Releases,
        ¬ (e.Name = first.ID.Name ∧ e.Version = first.ID.Version)) ∧
      ((∀ l ∈ localReleases, l ≠ z → ∃ e ∈ cmd.KilnfileLock.Releases,
        e.Name = l.ID.Name ∧ e.Version = l.ID.Version) → first = z) ∧
      Contains msg "does not exist" ∧
      Contains msg first.ID.Name ∧
      (SyncWithLocal.Run cmd localReleases remotePath save).1 = [] ∧
      savedLocks (SyncWithLocal.Run cmd localReleases remotePath save).1 = [] := by
  have hzout : inLock cmd.KilnfileLock z = false := by
    unfold inLock
    rw [Bool.eq_false_iff]
    intro h
    obtain ⟨e, he, hm⟩ := List.any_eq_true.1 h
    exact hun e he (by simpa [lockMatches] using hm)
  cases hfind : localReleases.find? (fun l => !inLock cmd.KilnfileLock l) with
  | none =>
    have := List.find?_eq_none.1 hfind z hz
    simp [hzout] at this
  | some first =>
    have hfirst : inLock cmd.KilnfileLock first = false := by
      simpa using List.find?_some hfind
    have hfirst' : ∀ e ∈ cmd.KilnfileLock.Releases,
        ¬ (e.Name = first.ID.Name ∧ e.Version = first.ID.Version) := by
      intro e he hm
      have : inLock cmd.KilnfileLock first = true := by
        unfold inLock
        rw [List.any_eq_true]
        exact ⟨e, he, by simp [lockMatches, hm.1, hm.2]⟩
      rw [hfirst] at this
      cases this
    have hrun : SyncWithLocal.Run cmd localReleases remotePath save =
        ([], some (notInLock first.ID.Name)) := by
      unfold SyncWithLocal.Run
      rw [hfind]
    rw [hrun]
    refine ⟨_, first, rfl, List.mem_of_find?_eq_some hfind, hfirst', ?_, ?_, ?_, rfl, rfl⟩
    · intro honly
      by_contra hne
      obtain ⟨e, he, hn, hv⟩ := honly first (List.mem_of_find?_eq_some hfind) hne
      exact hfirst' e he ⟨hn, hv⟩
    · unfold notInLock
      exact Contains.of_right _ _ _ (by decide)
    · unfold notInLock
      exact Contains.mid _ _ _

/-- Witness for C10: the fixture of the command test, `some-release-2` on disk but not in
the lock, next to `some-release`, which is in the lock. -/
theorem syncWithLocal_unknown_local_witness :
    (SyncWithLocal.Run shortLockCommand [local1, local2] examplePather saveOK).2 =
        some "the local release some-release-2 does not exist in the Kilnfile.lock" ∧
      ∃ (msg : String) (first : Local),
        (SyncWithLocal.Run shortLockCommand [local1, local2] examplePather saveOK).2 =
          some msg ∧
        Contains msg "does not exist" ∧ Contains msg first.ID.Name ∧
        savedLocks (SyncWithLocal.Run shortLockCommand [local1, local2] examplePather
          saveOK).1 = [] := by
  refine ⟨by decide, ?_⟩
  obtain ⟨msg, first, h1, _, _, _, h5, h6, _, h8⟩ :=
    syncWithLocal_unknown_local shortLockCommand [local1, local2] examplePather saveOK local2
      (by decide) (by decide)
  exact ⟨msg, first, h1, h5, h6, h8⟩

end commands

end Kiln

namespace Kiln.fetcher
open Kiln.release

/-! ## The orchestrator -/

theorem multiReleaseSource_all_notFound (sources : List ReleaseSource)
    (requirement : Requirement)
    (h : ∀ s ∈ sources, ∃ r, s.GetMatchedRelease requirement = (r, false, none)) :
    MultiReleaseSource.GetMatchedRelease sources requirement =
      (sources.map (fun s => s.ID), (commands.emptyRemote, false, none)) := by
  induction sources with
  | nil => rfl
  | cons s rest ih =>
    obtain ⟨r, hr⟩ := h s (List.mem_cons_self _ _)
    have ih' := ih (fun t ht => h t (List.mem_cons_of_mem _ ht))
    simp [MultiReleaseSource.GetMatchedRelease, hr, ih']

theorem multiReleaseSource_skip (before rest : List ReleaseSource) (requirement : Requirement)
    (h : ∀ s ∈ before, ∃ r, s.GetMatchedRelease requirement = (r, false, none)) :
    MultiReleaseSource.GetMatchedRelease (before ++ rest) requirement =
      (before.map (fun s => s.ID) ++
          (MultiReleaseSource.GetMatchedRelease rest requirement).1,
        (MultiReleaseSource.GetMatchedRelease rest requirement).2) := by
  induction before with
  | nil => simp
  | cons s more ih =>
    obtain ⟨r, hr⟩ := h s (List.mem_cons_self _ _)
    have ih' := ih (fun t ht => h t (List.mem_cons_of_mem _ ht))
    simp [MultiReleaseSource.GetMatchedRelease, hr, ih']

/-- C11: `MultiReleaseSource.GetMatchedRelease` returns the outcome of the first source, in
configuration order, whose answer is not a clean not-found: a match is returned as the
match, an error is propagated with `found=false`; the sources queried are exactly those up
to and including that one. When every source answers a clean not-found, all are queried
and the result is `found=false` without error. -/
theorem multiReleaseSource_first_answer (sources : List ReleaseSource)
    (requirement : Requirement) :
    ((∀ s ∈ sources, ∃ r, s.GetMatchedRelease requirement = (r, false, none)) →
        MultiReleaseSource.GetMatchedRelease sources requirement =
          (sources.map (fun s => s.ID), (commands.emptyRemote, false, none))) ∧
      ∀ (before after : List ReleaseSource) (s : ReleaseSource),
        sources = before ++ s :: after →
        (∀ b ∈ before, ∃ r, b.GetMatchedRelease requirement = (r, false, none)) →
        (∀ remote, s.GetMatchedRelease requirement = (remote, true, none) →
          MultiReleaseSource.GetMatchedRelease sources requirement =
            ((before ++ [s]).map (fun s => s.ID), (remote, true, none))) ∧
        (∀ remote found err, s.GetMatchedRelease requirement = (remote, found, some err) →
          MultiReleaseSource.GetMatchedRelease sources requirement =
            ((before ++ [s]).map (fun s => s.ID), (commands.emptyRemote, false, some err))) := by
  refine ⟨multiReleaseSource_all_notFound sources requirement, ?_⟩
  intro before after s hsplit hbefore
  subst hsplit
  rw [multiReleaseSource_skip before (s :: after) requirement hbefore]
  refine ⟨?_, ?_⟩
  · intro remote hs
    simp [MultiReleaseSource.GetMatchedRelease, hs]
  · intro remote found err hs
    simp [MultiReleaseSource.GetMatchedRelease, hs]

/-- Witness for C11: A holds the release and is asked before B, after a source that does
not hold it; B is never queried. With a source that is down in A's place its error is
returned and B is not queried either. -/
theorem multiReleaseSource_first_answer_witness :
    MultiReleaseSource.GetMatchedRelease [sourceEmpty, sourceA, sourceB] bobRequirement =
        (["empty", "A"],
          ({ ID := { Name := "bob", Version := "2.0" }, RemotePath := "a-path",
             SourceID := "A" }, true, none)) ∧
      MultiReleaseSource.GetMatchedRelease [sourceEmpty, sourceDown, sourceB] bobRequirement =
        (["empty", "down"], (commands.emptyRemote, false, some "503 Service Unavailable")) :=
  ⟨((multiReleaseSource_first_answer [sourceEmpty, sourceA, sourceB] bobRequirement).2
      [sourceEmpty] [sourceB] sourceA rfl
      (fun b hb => ⟨commands.emptyRemote, by
        simp only [List.mem_singleton] at hb
        subst hb
        rfl⟩)).1 _ rfl,
    ((multiReleaseSource_first_answer [sourceEmpty, sourceDown, sourceB] bobRequirement).2
      [sourceEmpty] [sourceB] sourceDown rfl
      (fun b hb => ⟨commands.emptyRemote, by
        simp only [List.mem_singleton] at hb
        subst hb
        rfl⟩)).2 _ false _ rfl⟩

/-! ## The object-store source -/

theorem fieldValue_known (requirement : Requirement) (name : String)
    (h : knownField name = true) :
    ∃ v, fieldValue requirement name = some v := by
  simp only [knownField, decide_eq_true_eq] at h
  unfold fieldValue
  rcases h with h | h | h | h <;> subst h <;> simp

theorem fieldValue_unknown (requirement : Requirement) (name : String)
    (h : knownField name = false) :
    fieldValue requirement name = none := by
  simp only [knownField, decide_eq_false_iff_not, not_or] at h
  unfold fieldValue
  simp [h.1, h.2.1, h.2.2.1, h.2.2.2]

theorem evalPart_known (requirement : Requirement) (part : TemplatePart)
    (h : ∀ f, part.fieldName = some f → knownField f = true) :
    evalPart requirement part = .ok (substitute requirement part) := by
  cases part with
  | text s => rfl
  | field name =>
    obtain ⟨v, hv⟩ := fieldValue_known requirement name (h name rfl)
    simp [evalPart, substitute, hv]
  | trimSuffix name suffix =>
    obtain ⟨v, hv⟩ := fieldValue_known requirement name (h name rfl)
    simp [evalPart, substitute, hv]

theorem evalTemplate_known (requirement : Requirement) (parts : List TemplatePart)
    (h : ∀ p ∈ parts, ∀ f, p.fieldName = some f → knownField f = true) :
    evalTemplate requirement parts =
      .ok ((parts.map (substitute requirement)).foldr (fun s t => s ++ t) "") := by
  induction parts with
  | nil => rfl
  | cons p rest ih =>
    have hp := evalPart_known requirement p (h p (List.mem_cons_self _ _))
    have ih' := ih (fun q hq => h q (List.mem_cons_of_mem _ hq))
    simp [evalTemplate, hp, ih']

theorem evalTemplate_unknown (requirement : Requirement) (parts : List TemplatePart)
    (h : ∃ p ∈ parts, ∃ f, p.fieldName = some f ∧ knownField f = false) :
    ∃ f, (∃ p ∈ parts, p.fieldName = some f) ∧ knownField f = false ∧
      evalTemplate requirement parts = .error (noSuchField f) := by
  induction parts with
  | nil =>
    obtain ⟨p, hp, _⟩ := h
    cases hp
  | cons q rest ih =>
    by_cases hq : ∀ f, q.fieldName = some f → knownField f = true
    · have hrest : ∃ p ∈ rest, ∃ f, p.fieldName = some f ∧ knownField f = false := by
        obtain ⟨p, hp, f, hf, hk⟩ := h
        rcases List.mem_cons.1 hp with e | e
        · subst e
          rw [hq f hf] at hk
          cases hk
        · exact ⟨p, e, f, hf, hk⟩
      obtain ⟨f, ⟨p, hp, hpf⟩, hk, he⟩ := ih hrest
      refine ⟨f, ⟨p, List.mem_cons_of_mem _ hp, hpf⟩, hk, ?_⟩
      simp [evalTemplate, evalPart_known requirement q hq, he]
    · push_neg at hq
      obtain ⟨f, hf, hk⟩ := hq
      have hk' : knownField f = false := by simpa using hk
      have hnone := fieldValue_unknown requirement f hk'
      refine ⟨f, ⟨q, List.mem_cons_self _ _, hf⟩, hk', ?_⟩
      cases q with
      | text s => cases hf
      | field name =>
        simp only [TemplatePart.fieldName, Option.some.injEq] at hf
        subst hf
        simp [evalTemplate, evalPart, hnone]
      | trimSuffix name suffix =>
        simp only [TemplatePart.fieldName, Option.some.injEq] at hf
        subst hf
        simp [evalTemplate, evalPart, hnone]

end Kiln.fetcher

namespace Kiln.fetcher
open Kiln.release

/-- C12: object-store `RemotePath` depends on the path template and the Requirement only
(two sources with the same template give the same answer for the same Requirement, whatever
their id, bucket or clients), and for a template whose fields are among Name, Version,
StemcellOS and StemcellVersion it returns the template with every field replaced by the
Requirement's value. -/
theorem s3RemotePath_pure (src src' : S3ReleaseSource) (requirement : Requirement) :
    (src.PathTemplate = src'.PathTemplate →
        src.RemotePath requirement = src'.RemotePath requirement) ∧
      ((∀ p ∈ src.PathTemplate, ∀ f, p.fieldName = some f → knownField f = true) →
        src.RemotePath requirement =
          .ok ((src.PathTemplate.map (substitute requirement)).foldr
            (fun s t => s ++ t) "")) := by
  refine ⟨?_, ?_⟩
  · intro h
    unfold S3ReleaseSource.RemotePath
    rw [h]
  · intro h
    unfold S3ReleaseSource.RemotePath
    rw [evalTemplate_known requirement src.PathTemplate h]

/-- Witness for C12: the fixture of the source test, and a second source with the same
template but another id and bucket. -/
theorem s3RemotePath_pure_witness :
    orangeSource.RemotePath bobRequirement = .ok "bob/bob-2.0-plan9-42.tgz" ∧
      orangeSource.RemotePath bobRequirement = otherOrangeSource.RemotePath bobRequirement := by
  have h := s3RemotePath_pure orangeSource otherOrangeSource bobRequirement
  refine ⟨?_, h.1 rfl⟩
  rw [h.2 (by decide)]
  rfl

/-- C13: when the path template names a field a Requirement does not have, `RemotePath`,
`GetMatchedRelease` and `UploadRelease` all return the same error, which contains "unable
to evaluate path_template" and the name of such a field; `GetMatchedRelease` returns
`found=false`; neither makes a call on the S3 clients. -/
theorem s3_template_error (src : S3ReleaseSource) (requirement : Requirement)
    (headObject : String → String → HeadObjectResult)
    (upload : String → String → String → Option String) (file : String)
    (hbad : ∃ p ∈ src.PathTemplate, ∃ f, p.fieldName = some f ∧ knownField f = false) :
    ∃ err f, (∃ p ∈ src.PathTemplate, p.fieldName = some f) ∧ knownField f = false ∧
      Contains err "unable to evaluate path_template" ∧ Contains err f ∧
      src.RemotePath requirement = .error err ∧
      src.GetMatchedRelease headObject requirement =
        ([], (commands.emptyRemote, false, some err)) ∧
      src.UploadRelease upload requirement file = ([], .error err) := by
  obtain ⟨f, hf, hk, he⟩ := evalTemplate_unknown requirement src.PathTemplate hbad
  have hpath : src.RemotePath requirement =
      .error ("unable to evaluate path_template: " ++ noSuchField f) := by
    simp [S3ReleaseSource.RemotePath, he]
  refine ⟨_, f, hf, hk, ?_, ?_, hpath, ?_, ?_⟩
  · have h := Contains.mid "" "unable to evaluate path_template" (": " ++ noSuchField f)
    simpa [String.append_assoc] using h
  · unfold noSuchField
    apply Contains.of_right
    exact Contains.mid _ _ _
  · simp [S3ReleaseSource.GetMatchedRelease, hpath]
  · simp [S3ReleaseSource.UploadRelease, hpath]

/-- Witness for C13: the fixture of the source test, the template naming `NoSuchField`. -/
theorem s3_template_error_witness :
    ∃ err, Contains err "unable to evaluate path_template" ∧ Contains err "NoSuchField" ∧
      brokenTemplateSource.RemotePath bpmRequirement = .error err ∧
      brokenTemplateSource.GetMatchedRelease headFound bpmRequirement =
        ([], (commands.emptyRemote, false, some err)) ∧
      brokenTemplateSource.UploadRelease uploadOK bpmRequirement "banana banana" =
        ([], .error err) := by
  obtain ⟨err, f, ⟨p, hp, hpf⟩, _, h1, h2, h3, h4, h5⟩ :=
    s3_template_error brokenTemplateSource bpmRequirement headFound uploadOK "banana banana"
      ⟨.field "NoSuchField", by decide, "NoSuchField", rfl, by decide⟩
  have hf : f = "NoSuchField" := by
    simp only [brokenTemplateSource, noSuchFieldTemplate, List.mem_singleton] at hp
    subst hp
    simpa [TemplatePart.fieldName] using hpf.symm
  subst hf
  exact ⟨err, h1, h2, h3, h4, h5⟩

/-- C14: once the template expands to a key, object-store `GetMatchedRelease` makes exactly
one call, `HeadObject` on the configured bucket at that key, and classifies its answer:
success gives the Remote with the Requirement's name and version, the key and the source's
id, `found=true` and no error; a request failure with status 404 gives `found=false` and no
error; any other failure gives `found=false` and an error. -/
theorem s3GetMatchedRelease_probe (src : S3ReleaseSource) (requirement : Requirement)
    (headObject : String → String → HeadObjectResult) (key : String)
    (hkey : src.RemotePath requirement = .ok key) :
    (src.GetMatchedRelease headObject requirement).1 = [.HeadObject src.Bucket key] ∧
      (headObject src.Bucket key = .found →
        (src.GetMatchedRelease headObject requirement).2 =
          ({ ID := { Name := requirement.Name, Version := requirement.Version },
             RemotePath := key, SourceID := src.ID }, true, none)) ∧
      (∀ message, headObject src.Bucket key = .requestFailure 404 message →
        (src.GetMatchedRelease headObject requirement).2 =
          (commands.emptyRemote, false, none)) ∧
      (∀ statusCode message, statusCode ≠ 404 →
        headObject src.Bucket key = .requestFailure statusCode message →
        ∃ err, (src.GetMatchedRelease headObject requirement).2 =
          (commands.emptyRemote, false, some err)) ∧
      (∀ message, headObject src.Bucket key = .failed message →
        ∃ err, (src.GetMatchedRelease headObject requirement).2 =
          (commands.emptyRemote, false, some err)) := by
  unfold S3ReleaseSource.GetMatchedRelease
  rw [hkey]
  cases h : headObject src.Bucket key with
  | found => simp [h]
  | requestFailure statusCode message =>
    by_cases hc : statusCode = 404
    · subst hc
      simp [h]
      intro c hne hcc
      exact hne hcc.symm
    · simp [h, hc]
  | failed message => simp [h]

/-- Witness for C14: the fixtures of the source test, the bucket holding the key and the
bucket answering 404. -/
theorem s3GetMatchedRelease_probe_witness :
    builtSource.GetMatchedRelease headFound bpmRequirement =
        ([.HeadObject "built-bucket" "2.5/bpm/bpm-release-1.2.3-ubuntu-xenial-190.0.0.tgz"],
          ({ ID := { Name := "bpm-release", Version := "1.2.3" },
             RemotePath := "2.5/bpm/bpm-release-1.2.3-ubuntu-xenial-190.0.0.tgz",
             SourceID := "s3-source" }, true, none)) ∧
      (builtSource.GetMatchedRelease headNotFound bpmRequirement).2 =
        (commands.emptyRemote, false, none) := by
  have hkey : builtSource.RemotePath bpmRequirement =
      .ok "2.5/bpm/bpm-release-1.2.3-ubuntu-xenial-190.0.0.tgz" := rfl
  have h := s3GetMatchedRelease_probe builtSource bpmRequirement headFound _ hkey
  have h' := s3GetMatchedRelease_probe builtSource bpmRequirement headNotFound _ hkey
  refine ⟨?_, h'.2.2.1 _ rfl⟩
  exact Prod.ext h.1 (h.2.1 rfl)

end Kiln.fetcher

namespace Kiln

/-! ## Library functions -/

theorem rtakeWhile_split {α : Type} (p : α → Bool) (a b : List α) (x : α)
    (hb : ∀ y ∈ b, p y = true) (hx : p x = false) :
    (a ++ x :: b).rtakeWhile p = b := by
  unfold List.rtakeWhile
  rw [List.reverse_append, List.reverse_cons, List.append_assoc,
    List.takeWhile_append_of_pos (fun y hy => hb y (List.mem_reverse.1 hy))]
  simp [List.takeWhile_cons, hx]

/-- `filepath.Base` drops the directories of a path: what follows the last slash is
returned, when it is not empty. -/
theorem filepathBase_join (dir name : String) (hne : name.data ≠ [])
    (hslash : ∀ c ∈ name.data, c ≠ '/') :
    filepathBase (dir ++ "/" ++ name) = name := by
  have hdata : (dir ++ "/" ++ name).data = dir.data ++ '/' :: name.data := by
    simp [String.data_append]
  have hnonempty : dir ++ "/" ++ name ≠ "" := by
    intro h
    have := congrArg String.data h
    rw [hdata] at this
    simp at this
  obtain ⟨init, lastc, hlast⟩ : ∃ init lastc, name.data = init ++ [lastc] := by
    rcases List.eq_nil_or_concat name.data with h | ⟨L, b, h⟩
    · exact absurd h hne
    · exact ⟨L, b, by simpa using h⟩
  have hlastc : lastc ≠ '/' := hslash lastc (by rw [hlast]; simp)
  have hdrop : (dir.data ++ '/' :: name.data).rdropWhile (fun c => decide (c = '/')) =
      dir.data ++ '/' :: name.data := by
    have : dir.data ++ '/' :: name.data = (dir.data ++ '/' :: init) ++ [lastc] := by
      rw [hlast]; simp
    rw [this]
    exact List.rdropWhile_concat_neg _ _ _ (by simpa using hlastc)
  have htake : (dir.data ++ '/' :: name.data).rtakeWhile (fun c => decide (c ≠ '/')) =
      name.data :=
    rtakeWhile_split _ _ _ _ (fun y hy => by simpa using hslash y hy) (by simp)
  unfold filepathBase
  rw [if_neg hnonempty, hdata]
  simp only [hdrop, htake, if_neg hne]

theorem contains_joinWithBlanks (items : List String) (x : String) (hx : x ∈ items) :
    Contains (joinWithBlanks items) x := by
  induction items with
  | nil => cases hx
  | cons a rest ih =>
    cases rest with
    | nil =>
      simp only [List.mem_singleton] at hx
      subst hx
      exact Contains.refl _
    | cons b more =>
      simp only [joinWithBlanks]
      rcases List.mem_cons.1 hx with h | h
      · subst h
        have := Contains.mid "" x (" " ++ joinWithBlanks (b :: more))
        simpa [String.append_assoc] using this
      · exact Contains.of_right _ _ _ (ih h)

theorem contains_formatStrings (items : List String) (x : String) (hx : x ∈ items) :
    Contains (formatStrings items) x := by
  unfold formatStrings
  have h1 := contains_joinWithBlanks items x hx
  have h2 := Contains.mid "[" (joinWithBlanks items) "]"
  exact List.IsInfix.trans h1 h2

namespace commands
open cargo

/-! ## push-release -/

theorem selectSource_none (remote : String) (sources : List ReleaseSourceConfig)
    (index : Nat) (valid : List String)
    (h : ∀ s ∈ sources, s.Type_ = fetcher.ReleaseSourceTypeS3 → s.Bucket ≠ remote) :
    selectSource remote sources index valid =
      (none, valid ++ (sources.filter
        (fun s => decide (s.Type_ = fetcher.ReleaseSourceTypeS3))).map (fun s => s.Bucket)) := by
  induction sources generalizing index valid with
  | nil => simp [selectSource]
  | cons s rest ih =>
    have ih' := fun i v => ih i v (fun t ht => h t (List.mem_cons_of_mem _ ht))
    by_cases hs : s.Type_ = fetcher.ReleaseSourceTypeS3
    · have hb := h s (List.mem_cons_self _ _) hs
      simp [selectSource, hs, hb, ih']
    · simp [selectSource, hs, ih']

theorem selectSource_some (remote : String) (sources : List ReleaseSourceConfig)
    (index : Nat) (valid : List String) (rc : ReleaseSourceConfig)
    (h : sources.find? (fun s => decide (s.Type_ = fetcher.ReleaseSourceTypeS3 ∧
      s.Bucket = remote)) = some rc) :
    (selectSource remote sources index valid).1 =
      some (index + sources.findIdx (fun s => decide (s.Type_ = fetcher.ReleaseSourceTypeS3 ∧
        s.Bucket = remote)), rc) := by
  induction sources generalizing index valid with
  | nil => cases h
  | cons s rest ih =>
    rw [List.find?_cons] at h
    rw [List.findIdx_cons]
    by_cases hs : s.Type_ = fetcher.ReleaseSourceTypeS3
    · by_cases hb : s.Bucket = remote
      · simp only [hs, hb, and_self, decide_True] at h
        cases h
        simp [selectSource, hs, hb]
      · simp only [hs, hb, and_false, decide_False] at h
        simp only [selectSource, hs, hb, if_true, if_false, and_false, decide_False, cond_false]
        rw [ih _ _ h]
        simp [Nat.add_assoc, Nat.add_comm]
    · simp only [hs, false_and, decide_False] at h
      simp only [selectSource, hs, if_false, false_and, decide_False, cond_false]
      rw [ih _ _ h]
      simp [Nat.add_assoc, Nat.add_comm]

end commands

end Kiln

namespace Kiln.commands
open Kiln.cargo

/-- C15 (as stated, refuted): the Kilnfile loads, the file opens and the first s3 source
has the remote as its bucket, yet `Upload` is never called: `UploaderConfig` fails, and
`Execute` returns its error. -/
theorem pushRelease_upload_counterexample :
    parseOrange [] = .ok orangeOptions ∧
      loadExample orangeOptions.Kilnfile orangeOptions.VariablesFiles orangeOptions.Variables =
        .ok { ReleaseSources := exampleReleaseSourceList } ∧
      openBanana orangeOptions.Path = .ok "banana" ∧
      (∃ s ∈ exampleReleaseSourceList,
        s.Type_ = fetcher.ReleaseSourceTypeS3 ∧ s.Bucket = orangeOptions.Remote) ∧
      uploadCalls (PushRelease.Execute parseOrange loadExample openBanana configFails []).1 =
        [] ∧
      (PushRelease.Execute parseOrange loadExample openBanana configFails []).2 =
        some "could not configure s3 uploader client: missing credentials" := by
  refine ⟨rfl, rfl, rfl, ⟨orangeConfig, by decide, by decide, by decide⟩, by decide, by decide⟩

/-- C15 (amended): when the flags parse, the Kilnfile loads, the file at `--path` opens,
`rc` is the first s3 source whose bucket is `--remote` and `UploaderConfig` returns an
uploader for it, `Upload` is called exactly once, without option functions, with that
bucket (which is `--remote`), the key `filepath.Base` of `--path` and the opened file as
body; `Execute` returns nil exactly when that upload succeeds, and the error of the upload
otherwise. The key drops the directories of `--path`. -/
theorem pushRelease_upload (parse : List String → Except String PushReleaseOptions)
    (loadKilnfiles : String → List String → List String → Except String Kilnfile)
    (fsOpen : String → Except String String)
    (uploaderConfig : ReleaseSourceConfig → Except String (UploadInput → Option String))
    (args : List String) (options : PushReleaseOptions) (kilnfile : Kilnfile)
    (file : String) (rc : ReleaseSourceConfig) (uploader : UploadInput → Option String)
    (hparse : parse args = .ok options)
    (hload : loadKilnfiles options.Kilnfile options.VariablesFiles options.Variables =
      .ok kilnfile)
    (hopen : fsOpen options.Path = .ok file)
    (hfind : kilnfile.ReleaseSources.find? (fun s =>
      decide (s.Type_ = fetcher.ReleaseSourceTypeS3 ∧ s.Bucket = options.Remote)) = some rc)
    (hconfig : uploaderConfig rc = .ok uploader) :
    uploadCalls (PushRelease.Execute parse loadKilnfiles fsOpen uploaderConfig args).1 =
        [({ Bucket := rc.Bucket, Key := filepathBase options.Path, Body := file }, 0)] ∧
      rc.Bucket = options.Remote ∧
      ((PushRelease.Execute parse loadKilnfiles fsOpen uploaderConfig args).2 = none ↔
        uploader { Bucket := rc.Bucket, Key := filepathBase options.Path, Body := file } =
          none) ∧
      (∀ err,
        uploader { Bucket := rc.Bucket, Key := filepathBase options.Path, Body := file } =
          some err →
        (PushRelease.Execute parse loadKilnfiles fsOpen uploaderConfig args).2 =
          some ("upload failed: " ++ err)) ∧
      (∀ dir name : String, name.data ≠ [] → (∀ c ∈ name.data, c ≠ '/') →
        filepathBase (dir ++ "/" ++ name) = name) := by
  have hsel := selectSource_some options.Remote kilnfile.ReleaseSources 0 [] rc hfind
  have hrc : rc.Type_ = fetcher.ReleaseSourceTypeS3 ∧ rc.Bucket = options.Remote := by
    simpa using List.find?_some hfind
  cases hs : selectSource options.Remote kilnfile.ReleaseSources 0 [] with
  | mk sel valid =>
    rw [hs] at hsel
    simp only at hsel
    subst hsel
    refine ⟨?_, hrc.2, ?_, ?_, fun dir name h1 h2 => filepathBase_join dir name h1 h2⟩
    · cases hu : uploader
          { Bucket := rc.Bucket, Key := filepathBase options.Path, Body := file } <;>
        simp [PushRelease.Execute, hparse, hload, hopen, hs, hconfig, hu, uploadCalls]
    · cases hu : uploader
          { Bucket := rc.Bucket, Key := filepathBase options.Path, Body := file } <;>
        simp [PushRelease.Execute, hparse, hload, hopen, hs, hconfig, hu]
    · intro err hu
      simp [PushRelease.Execute, hparse, hload, hopen, hs, hconfig, hu]

/-- Witness for C15 (amended): the fixture of the command test with the tarball inside a
directory and the second s3 source as the remote. -/
theorem pushRelease_upload_witness :
    uploadCalls (PushRelease.Execute parseLemon loadExample openBanana configOK []).1 =
        [({ Bucket := "lemon-bucket", Key := "banana-release.tgz", Body := "banana" }, 0)] ∧
      (PushRelease.Execute parseLemon loadExample openBanana configOK []).2 = none := by
  have h := pushRelease_upload parseLemon loadExample openBanana configOK [] lemonOptions
    { ReleaseSources := exampleReleaseSourceList } "banana" lemonConfig (fun _ => none)
    rfl rfl rfl (by decide) rfl
  refine ⟨?_, h.2.2.1.2 rfl⟩
  rw [h.1]
  decide

/-- C16 (as stated, refuted): the first entry of the Kilnfile's release sources is of type
s3 and has `--remote` as its bucket, yet `UploaderConfig` is not called: the file at
`--path` does not open, and `Execute` returns before it looks at the release sources. -/
theorem pushRelease_selects_first_counterexample :
    parseOrange [] = .ok orangeOptions ∧
      loadExample orangeOptions.Kilnfile orangeOptions.VariablesFiles orangeOptions.Variables =
        .ok { ReleaseSources := exampleReleaseSourceList } ∧
      exampleReleaseSourceList.find? (fun s =>
        decide (s.Type_ = fetcher.ReleaseSourceTypeS3 ∧ s.Bucket = orangeOptions.Remote)) =
          some orangeConfig ∧
      openMissing orangeOptions.Path = .error "file does not exist" ∧
      uploaderConfigCalls
        (PushRelease.Execute parseOrange loadExample openMissing configOK []).1 = [] ∧
      (PushRelease.Execute parseOrange loadExample openMissing configOK []).2 =
        some "could not open release: file does not exist" := by
  refine ⟨rfl, rfl, by decide, rfl, by decide, by decide⟩

/-- C16 (amended): when the flags parse, the Kilnfile loads and the file at `--path` opens,
`Execute` takes the first release source, in configuration order, that is of type s3 and
has `--remote` as its bucket, and calls `UploaderConfig` exactly once, with that entry; no
entry before it is of type s3 with that bucket. -/
theorem pushRelease_selects_first (parse : List String → Except String PushReleaseOptions)
    (loadKilnfiles : String → List String → List String → Except String Kilnfile)
    (fsOpen : String → Except String String)
    (uploaderConfig : ReleaseSourceConfig → Except String (UploadInput → Option String))
    (args : List String) (options : PushReleaseOptions) (kilnfile : Kilnfile)
    (file : String) (rc : ReleaseSourceConfig)
    (hparse : parse args = .ok options)
    (hload : loadKilnfiles options.Kilnfile options.VariablesFiles options.Variables =
      .ok kilnfile)
    (hopen : fsOpen options.Path = .ok file)
    (hfind : kilnfile.ReleaseSources.find? (fun s =>
      decide (s.Type_ = fetcher.ReleaseSourceTypeS3 ∧ s.Bucket = options.Remote)) = some rc) :
    ∃ index : Nat,
      uploaderConfigCalls
          (PushRelease.Execute parse loadKilnfiles fsOpen uploaderConfig args).1 =
        [(index, rc)] ∧
      kilnfile.ReleaseSources[index]? = some rc ∧
      rc.Type_ = fetcher.ReleaseSourceTypeS3 ∧ rc.Bucket = options.Remote ∧
      ∀ (j : Nat) (e : ReleaseSourceConfig), j < index →
        kilnfile.ReleaseSources[j]? = some e →
        ¬ (e.Type_ = fetcher.ReleaseSourceTypeS3 ∧ e.Bucket = options.Remote) := by
  have hsel := selectSource_some options.Remote kilnfile.ReleaseSources 0 [] rc hfind
  have hrc : rc.Type_ = fetcher.ReleaseSourceTypeS3 ∧ rc.Bucket = options.Remote := by
    simpa using List.find?_some hfind
  have hidx := getElem?_findIdx (fun s =>
    decide (s.Type_ = fetcher.ReleaseSourceTypeS3 ∧ s.Bucket = options.Remote))
    kilnfile.ReleaseSources
  rw [hfind] at hidx
  refine ⟨kilnfile.ReleaseSources.findIdx (fun s =>
    decide (s.Type_ = fetcher.ReleaseSourceTypeS3 ∧ s.Bucket = options.Remote)),
    ?_, hidx, hrc.1, hrc.2, ?_⟩
  · cases hs : selectSource options.Remote kilnfile.ReleaseSources 0 [] with
    | mk sel valid =>
      rw [hs] at hsel
      simp only [Nat.zero_add] at hsel
      subst hsel
      cases hc : uploaderConfig rc with
      | error err =>
        simp [PushRelease.Execute, hparse, hload, hopen, hs, hc, uploaderConfigCalls]
      | ok uploader =>
        cases hu : uploader
            { Bucket := rc.Bucket, Key := filepathBase options.Path, Body := file } <;>
          simp [PushRelease.Execute, hparse, hload, hopen, hs, hc, hu, uploaderConfigCalls]
  · intro j e hj he
    obtain ⟨hjl, hje⟩ := List.getElem?_eq_some.1 he
    have := List.not_of_lt_findIdx hj
    rw [hje] at this
    simpa using this

/-- Witness for C16 (amended): with `--remote lemon-bucket` the third entry of the fixture
list is taken, not the s3 source before it nor the boshio entry. -/
theorem pushRelease_selects_first_witness :
    uploaderConfigCalls (PushRelease.Execute parseLemon loadExample openBanana configOK []).1 =
      [(2, lemonConfig)] := by
  obtain ⟨index, h1, h2, -⟩ :=
    pushRelease_selects_first parseLemon loadExample openBanana configOK [] lemonOptions
      { ReleaseSources := exampleReleaseSourceList } "banana" lemonConfig rfl rfl rfl
      (by decide)
  have hidx : index = 2 := by
    have h3 : index < 3 := (List.getElem?_eq_some.1 h2).1
    interval_cases index
    · exact absurd h2 (by decide)
    · exact absurd h2 (by decide)
    · rfl
  rw [h1, hidx]

end Kiln.commands

namespace Kiln.commands
open Kiln.cargo

set_option maxRecDepth 100000

/-- C17 (as stated, refuted): the Kilnfile has no release source at all, yet the error
`Execute` returns does not contain "remote release source": the file at `--path` does not
open, and the error is the one of the open. -/
theorem pushRelease_no_s3_source_counterexample :
    parseOrange [] = .ok orangeOptions ∧
      loadEmpty orangeOptions.Kilnfile orangeOptions.VariablesFiles orangeOptions.Variables =
        .ok { ReleaseSources := [] } ∧
      openMissing orangeOptions.Path = .error "file does not exist" ∧
      (PushRelease.Execute parseOrange loadEmpty openMissing configOK []).2 =
        some "could not open release: file does not exist" ∧
      ¬ Contains "could not open release: file does not exist" "remote release source" := by
  refine ⟨rfl, rfl, rfl, by decide, by decide⟩

/-- C17 (amended): for a Kilnfile without a release source of type s3 (the empty list
included) and any remote, when the flags parse, the Kilnfile loads and the file at `--path`
opens, `Execute` returns the bare message as its error, which contains "remote release
source" and carries no list of acceptable sources, and calls neither `UploaderConfig` nor
`Upload`. -/
theorem pushRelease_no_s3_source (parse : List String → Except String PushReleaseOptions)
    (loadKilnfiles : String → List String → List String → Except String Kilnfile)
    (fsOpen : String → Except String String)
    (uploaderConfig : ReleaseSourceConfig → Except String (UploadInput → Option String))
    (args : List String) (options : PushReleaseOptions) (kilnfile : Kilnfile)
    (file : String)
    (hparse : parse args = .ok options)
    (hload : loadKilnfiles options.Kilnfile options.VariablesFiles options.Variables =
      .ok kilnfile)
    (hopen : fsOpen options.Path = .ok file)
    (hnone : ∀ s ∈ kilnfile.ReleaseSources, s.Type_ ≠ fetcher.ReleaseSourceTypeS3) :
    ∃ msg, (PushRelease.Execute parse loadKilnfiles fsOpen uploaderConfig args).2 = some msg ∧
      msg = remoteNotFoundMsg ∧
      Contains msg "remote release source" ∧
      ¬ Contains msg "acceptable sources" ∧
      uploaderConfigCalls
        (PushRelease.Execute parse loadKilnfiles fsOpen uploaderConfig args).1 = [] ∧
      uploadCalls (PushRelease.Execute parse loadKilnfiles fsOpen uploaderConfig args).1 =
        [] := by
  have hsel := selectSource_none options.Remote kilnfile.ReleaseSources 0 []
    (fun s hs ht => absurd ht (hnone s hs))
  have hfilter : kilnfile.ReleaseSources.filter
      (fun s => decide (s.Type_ = fetcher.ReleaseSourceTypeS3)) = [] := by
    rw [List.filter_eq_nil_iff]
    intro s hs
    simpa using hnone s hs
  rw [hfilter] at hsel
  simp only [List.map_nil, List.append_nil] at hsel
  have hc1 : Contains remoteNotFoundMsg "remote release source" := by
    have h := Contains.mid "" "remote release source"
      " could not be found in Kilnfile (only release sources of type s3 are supported)"
    exact h
  have hc2 : ¬ Contains remoteNotFoundMsg "acceptable sources" := by decide
  refine ⟨remoteNotFoundMsg, ?_, rfl, hc1, hc2, ?_, ?_⟩
  · simp [PushRelease.Execute, hparse, hload, hopen, hsel]
  · simp [PushRelease.Execute, hparse, hload, hopen, hsel, uploaderConfigCalls]
  · simp [PushRelease.Execute, hparse, hload, hopen, hsel, uploadCalls]

/-- Witness for C17 (amended): the fixture of the command test, the empty Kilnfile. -/
theorem pushRelease_no_s3_source_witness :
    (PushRelease.Execute parseOrange loadEmpty openBanana configOK []).2 =
        some remoteNotFoundMsg ∧
      uploaderConfigCalls (PushRelease.Execute parseOrange loadEmpty openBanana configOK []).1 =
        [] ∧
      uploadCalls (PushRelease.Execute parseOrange loadEmpty openBanana configOK []).1 = [] := by
  obtain ⟨msg, h1, h2, -, -, h3, h4⟩ :=
    pushRelease_no_s3_source parseOrange loadEmpty openBanana configOK []
      orangeOptions { ReleaseSources := [] } "banana" rfl rfl rfl (fun s hs => by cases hs)
  exact ⟨by rw [h1, h2], h3, h4⟩

/-- C18 (as stated, refuted): two release sources are of type s3 and neither has `--remote`
as its bucket, yet the error `Execute` returns names no bucket: the file at `--path` does
not open, and the error is the one of the open. -/
theorem pushRelease_unmatched_remote_counterexample :
    parseDog [] = .ok dogOptions ∧
      loadExample dogOptions.Kilnfile dogOptions.VariablesFiles dogOptions.Variables =
        .ok { ReleaseSources := exampleReleaseSourceList } ∧
      (∃ s ∈ exampleReleaseSourceList, s.Type_ = fetcher.ReleaseSourceTypeS3) ∧
      (∀ s ∈ exampleReleaseSourceList,
        s.Type_ = fetcher.ReleaseSourceTypeS3 → s.Bucket ≠ dogOptions.Remote) ∧
      openMissing dogOptions.Path = .error "file does not exist" ∧
      (PushRelease.Execute parseDog loadExample openMissing configOK []).2 =
        some "could not open release: file does not exist" ∧
      ¬ Contains "could not open release: file does not exist" "orange-bucket" ∧
      ¬ Contains "could not open release: file does not exist" "lemon-bucket" := by
  refine ⟨rfl, rfl, ⟨orangeConfig, by decide, by decide⟩, by decide, rfl, by decide,
    by decide, by decide⟩

/-- C18 (amended): when the flags parse, the Kilnfile loads and the file at `--path` opens,
and some release source is of type s3 but none of those has `--remote` as its bucket,
`Execute` returns the message followed by the list of the buckets of the s3 sources, and
only those, in configuration order; the error contains the bucket of every s3 source;
neither `UploaderConfig` nor `Upload` is called. -/
theorem pushRelease_unmatched_remote (parse : List String → Except String PushReleaseOptions)
    (loadKilnfiles : String → List String → List String → Except String Kilnfile)
    (fsOpen : String → Except String String)
    (uploaderConfig : ReleaseSourceConfig → Except String (UploadInput → Option String))
    (args : List String) (options : PushReleaseOptions) (kilnfile : Kilnfile)
    (file : String)
    (hparse : parse args = .ok options)
    (hload : loadKilnfiles options.Kilnfile options.VariablesFiles options.Variables =
      .ok kilnfile)
    (hopen : fsOpen options.Path = .ok file)
    (hs3 : ∃ s ∈ kilnfile.ReleaseSources, s.Type_ = fetcher.ReleaseSourceTypeS3)
    (hnomatch : ∀ s ∈ kilnfile.ReleaseSources,
      s.Type_ = fetcher.ReleaseSourceTypeS3 → s.Bucket ≠ options.Remote) :
    ∃ msg, (PushRelease.Execute parse loadKilnfiles fsOpen uploaderConfig args).2 = some msg ∧
      msg = remoteNotFoundMsg ++ ", some acceptable sources are: " ++
        formatStrings ((kilnfile.ReleaseSources.filter
          (fun s => decide (s.Type_ = fetcher.ReleaseSourceTypeS3))).map (fun s => s.Bucket)) ∧
      (∀ s ∈ kilnfile.ReleaseSources, s.Type_ = fetcher.ReleaseSourceTypeS3 →
        Contains msg s.Bucket) ∧
      uploaderConfigCalls
        (PushRelease.Execute parse loadKilnfiles fsOpen uploaderConfig args).1 = [] ∧
      uploadCalls (PushRelease.Execute parse loadKilnfiles fsOpen uploaderConfig args).1 =
        [] := by
  have hsel := selectSource_none options.Remote kilnfile.ReleaseSources 0 [] hnomatch
  simp only [List.nil_append] at hsel
  have hlen : ((kilnfile.ReleaseSources.filter
      (fun s => decide (s.Type_ = fetcher.ReleaseSourceTypeS3))).map
        (fun s => s.Bucket)).length > 0 := by
    obtain ⟨s, hs, ht⟩ := hs3
    rw [List.length_map]
    exact List.length_pos_of_mem (List.mem_filter.2 ⟨hs, by simpa using ht⟩)
  have hrun : PushRelease.Execute parse loadKilnfiles fsOpen uploaderConfig args =
      ([.LoadKilnfiles options.Kilnfile options.VariablesFiles options.Variables,
        .Open options.Path],
        some (remoteNotFoundMsg ++ ", some acceptable sources are: " ++
          formatStrings ((kilnfile.ReleaseSources.filter
            (fun s => decide (s.Type_ = fetcher.ReleaseSourceTypeS3))).map
              (fun s => s.Bucket)))) := by
    simp only [PushRelease.Execute, hparse, hload, hopen, hsel]
    rw [if_pos hlen]
  rw [hrun]
  refine ⟨_, rfl, rfl, ?_, rfl, rfl⟩
  intro s hs ht
  apply Contains.of_right
  apply contains_formatStrings
  exact List.mem_map.2 ⟨s, List.mem_filter.2 ⟨hs, by simpa using ht⟩, rfl⟩

/-- Witness for C18 (amended): the fixture of the command test, `--remote dog-bucket`
against the orange and lemon buckets and a boshio source. -/
theorem pushRelease_unmatched_remote_witness :
    (PushRelease.Execute parseDog loadExample openBanana configOK []).2 =
      some "remote release source could not be found in Kilnfile (only release sources of type s3 are supported), some acceptable sources are: [orange-bucket lemon-bucket]" := by
  obtain ⟨msg, h1, h2, -⟩ :=
    pushRelease_unmatched_remote parseDog loadExample openBanana configOK [] dogOptions
      { ReleaseSources := exampleReleaseSourceList } "banana" rfl rfl rfl
      ⟨orangeConfig, by decide, by decide⟩ (by decide)
  rw [h1, h2]
  rfl

end Kiln.commands

namespace Kiln.fetcher
open Kiln.release

/-! ## The local release directory -/

theorem deleteReleases_all {σ : Type} (remove : σ → String → Except String σ)
    (extras : List Local) (fs fs' : σ)
    (h : removeAll remove fs (extras.map (fun r => r.LocalPath)) = some fs') :
    deleteReleases remove fs extras = (fs', extras.map (fun r => r.LocalPath), none) := by
  induction extras generalizing fs with
  | nil =>
    simp only [List.map_nil, removeAll, Option.some.injEq] at h
    subst h
    rfl
  | cons r rest ih =>
    simp only [List.map_cons, removeAll] at h
    cases hr : remove fs r.LocalPath with
    | error e => rw [hr] at h; cases h
    | ok fs1 =>
      rw [hr] at h
      simp [deleteReleases, hr, ih fs1 h]

theorem deleteReleases_stops {σ : Type} (remove : σ → String → Except String σ)
    (before after : List Local) (r : Local) (fs fs' : σ) (e : String)
    (hbefore : removeAll remove fs (before.map (fun r => r.LocalPath)) = some fs')
    (hfail : remove fs' r.LocalPath = .error e) :
    deleteReleases remove fs (before ++ r :: after) =
      (fs', (before ++ [r]).map (fun r => r.LocalPath),
        some ("failed to delete release " ++ r.ID.Name)) := by
  induction before generalizing fs with
  | nil =>
    simp only [List.map_nil, removeAll, Option.some.injEq] at hbefore
    subst hbefore
    simp [deleteReleases, hfail]
  | cons b rest ih =>
    simp only [List.map_cons, removeAll] at hbefore
    cases hr : remove fs b.LocalPath with
    | error e' => rw [hr] at hbefore; cases hbefore
    | ok fs1 =>
      rw [hr] at hbefore
      simp [deleteReleases, hr, ih fs1 hbefore]

/-- C19: when the deletion goes ahead (`noConfirm` set, or confirmed), `DeleteExtraReleases`
removes the listed files in order. If the files of the releases before `r` are removed and
the removal of `r`'s file fails, it stops there: the error is exactly "failed to delete
release" followed by `r`'s name, whatever the filesystem reported, no removal is attempted
for the releases after `r`, and the state is the one after the removals before `r`. If
every removal succeeds, every listed file has been removed and nil is returned. -/
theorem deleteExtraReleases_first_failure {σ : Type}
    (remove : σ → String → Except String σ) (confirmed noConfirm : Bool) (fs : σ)
    (extraReleaseSet : List Local) (hgo : noConfirm = true ∨ confirmed = true) :
    (∀ (before after : List Local) (r : Local) (fs' : σ) (e : String),
        extraReleaseSet = before ++ r :: after →
        removeAll remove fs (before.map (fun r => r.LocalPath)) = some fs' →
        remove fs' r.LocalPath = .error e →
        DeleteExtraReleases remove confirmed fs extraReleaseSet noConfirm =
          (fs', (before ++ [r]).map (fun r => r.LocalPath),
            some ("failed to delete release " ++ r.ID.Name))) ∧
      (∀ fs' : σ,
        removeAll remove fs (extraReleaseSet.map (fun r => r.LocalPath)) = some fs' →
        DeleteExtraReleases remove confirmed fs extraReleaseSet noConfirm =
          (fs', extraReleaseSet.map (fun r => r.LocalPath), none)) := by
  have hgate : (noConfirm || confirmed) = true := by
    rcases hgo with h | h <;> simp [h]
  refine ⟨?_, ?_⟩
  · intro before after r fs' e hsplit hbefore hfail
    unfold DeleteExtraReleases
    rw [if_pos hgate, hsplit]
    exact deleteReleases_stops remove before after r fs fs' e hbefore hfail
  · intro fs' hall
    unfold DeleteExtraReleases
    rw [if_pos hgate]
    exact deleteReleases_all remove extraReleaseSet fs fs' hall

/-- Witness for C19: the fixtures of the directory test in one list. The first file is
removed, the second release has no file and is named in the error, the third file stays.
Without the missing release both files are removed. -/
theorem deleteExtraReleases_first_failure_witness :
    DeleteExtraReleases removeFile false releasesDirFiles
        [extraRelease, missingRelease, otherRelease] true =
      (["releases/other-release-1.0.tgz"],
        ["releases/extra-release-0.0-os-0-0.0.0.tgz", "file-does-not-exist"],
        some "failed to delete release extra-release-that-cannot-be-deleted") ∧
      DeleteExtraReleases removeFile false releasesDirFiles [extraRelease, otherRelease] true =
        ([], ["releases/extra-release-0.0-os-0-0.0.0.tgz", "releases/other-release-1.0.tgz"],
          none) :=
  ⟨(deleteExtraReleases_first_failure removeFile false true releasesDirFiles
      [extraRelease, missingRelease, otherRelease] (Or.inl rfl)).1
      [extraRelease] [otherRelease] missingRelease ["releases/other-release-1.0.tgz"]
      "remove file-does-not-exist: no such file or directory" rfl (by decide) rfl,
    (deleteExtraReleases_first_failure removeFile false true releasesDirFiles
      [extraRelease, otherRelease] (Or.inl rfl)).2 [] (by decide)⟩

end Kiln.fetcher

namespace Kiln.builder

/-! ## Ordering of metadata parts -/

theorem leBytes_total : ∀ a b : List Nat, leBytes a b = true ∨ leBytes b a = true
  | [], _ => Or.inl rfl
  | _ :: _, [] => Or.inr rfl
  | c :: cs, d :: ds => by
    simp only [leBytes]
    rcases Nat.lt_trichotomy c d with h | h | h
    · simp [h]
    · have ih := leBytes_total cs ds
      simpa [h] using ih
    · have h' : ¬ c < d := by omega
      simp [h, h']

theorem leBytes_trans : ∀ a b c : List Nat,
    leBytes a b = true → leBytes b c = true → leBytes a c = true
  | [], _, _, _, _ => by simp [leBytes]
  | _ :: _, [], _, h, _ => by simp [leBytes] at h
  | _ :: _, _ :: _, [], _, h => by simp [leBytes] at h
  | x :: xs, y :: ys, z :: zs, h1, h2 => by
    simp only [leBytes] at h1 h2 ⊢
    by_cases hxy : x < y
    · by_cases hyz : y < z
      · have : x < z := by omega
        simp [this]
      · by_cases hzy : z < y
        · simp [hyz, hzy] at h2
        · have : x < z := by omega
          simp [this]
    · by_cases hyx : y < x
      · simp [hxy, hyx] at h1
      · simp only [hxy, hyx, if_false] at h1
        by_cases hyz : y < z
        · have : x < z := by omega
          simp [this]
        · by_cases hzy : z < y
          · simp [hyz, hzy] at h2
          · simp only [hyz, hzy, if_false] at h2
            have h3 : ¬ x < z := by omega
            have h4 : ¬ z < x := by omega
            simp only [h3, h4, if_false]
            exact leBytes_trans xs ys zs h1 h2

theorem leBytes_refl : ∀ a : List Nat, leBytes a a = true
  | [] => rfl
  | c :: cs => by simp [leBytes, leBytes_refl cs]

theorem sortStrings_sorted (keys : List String) : List.Sorted StringLE (sortStrings keys) :=
  @List.sorted_insertionSort String StringLE _
    ⟨fun a b => leBytes_total (goBytes a) (goBytes b)⟩
    ⟨fun a b c h1 h2 => leBytes_trans (goBytes a) (goBytes b) (goBytes c) h1 h2⟩ keys

theorem appendNamed_eq (name : String) (parts outputs : List Part) :
    appendNamed name parts outputs =
      outputs ++ parts.filter (fun part => decide (part.Name = name)) := by
  induction parts generalizing outputs with
  | nil => simp [appendNamed]
  | cons p rest ih =>
    by_cases h : p.Name = name
    · simp [appendNamed, h, ih]
    · simp [appendNamed, h, ih]

theorem alphabeticalLoop_eq (parts : List Part) (keys : List String) (outputs : List Part) :
    alphabeticalLoop parts keys outputs =
      outputs ++ keys.flatMap
        (fun name => parts.filter (fun part => decide (part.Name = name))) := by
  induction keys generalizing outputs with
  | nil => simp [alphabeticalLoop]
  | cons k rest ih =>
    simp [alphabeticalLoop, ih, appendNamed_eq]

theorem sorted_blocks (parts : List Part) (keys : List String)
    (h : List.Sorted StringLE keys) :
    List.Sorted StringLE
      ((keys.flatMap (fun name => parts.filter (fun part => decide (part.Name = name)))).map
        (fun part => part.Name)) := by
  induction keys with
  | nil => simp
  | cons k rest ih =>
    obtain ⟨hk, hrest⟩ := List.sorted_cons.1 h
    rw [List.flatMap_cons, List.map_append]
    unfold List.Sorted
    rw [List.pairwise_append]
    refine ⟨?_, ih hrest, ?_⟩
    · apply List.Pairwise.imp_of_mem (R := fun _ _ => True)
      · intro a b ha hb _
        obtain ⟨p, hp, rfl⟩ := List.mem_map.1 ha
        obtain ⟨q, hq, rfl⟩ := List.mem_map.1 hb
        have hpk : p.Name = k := by simpa using (List.mem_filter.1 hp).2
        have hqk : q.Name = k := by simpa using (List.mem_filter.1 hq).2
        rw [hpk, hqk]
        exact leBytes_refl _
      · exact List.pairwise_of_forall (fun _ _ => trivial)
    · intro a ha b hb
      obtain ⟨p, hp, rfl⟩ := List.mem_map.1 ha
      obtain ⟨q, hq, rfl⟩ := List.mem_map.1 hb
      have hpk : p.Name = k := by simpa using (List.mem_filter.1 hp).2
      obtain ⟨m, hm, hqm⟩ := List.mem_flatMap.1 hq
      have hqn : q.Name = m := by simpa using (List.mem_filter.1 hqm).2
      rw [hpk, hqn]
      exact hk m hm

/-- C20: for every list of parts, `orderAlphabeticallyByName` returns no error and a list
whose names are in non-decreasing byte-wise string order. -/
theorem orderAlphabeticallyByName_sorted (path : String) (parts : List Part) :
    (orderAlphabeticallyByName path parts).2 = none ∧
      List.Sorted StringLE
        ((orderAlphabeticallyByName path parts).1.map (fun part => part.Name)) := by
  refine ⟨rfl, ?_⟩
  simp only [orderAlphabeticallyByName, alphabeticalLoop_eq, List.nil_append]
  exact sorted_blocks parts _ (sortStrings_sorted _)

end Kiln.builder

namespace Kiln.builder

/-! ## Alphabetical ordering and repeated names -/

theorem filter_name_filter (parts : List Part) (m n : String) :
    (parts.filter (fun p => decide (p.Name = m))).filter (fun p => decide (p.Name = n)) =
      if m = n then parts.filter (fun p => decide (p.Name = n)) else [] := by
  rw [List.filter_filter]
  by_cases h : m = n
  · subst h
    simp
  · rw [if_neg h, List.filter_eq_nil_iff]
    intro p _
    simp only [Bool.and_eq_true, decide_eq_true_eq, not_and]
    intro hn hm
    exact h (hm.symm.trans hn)

theorem filter_blocks (parts : List Part) (keys : List String) (n : String) :
    (keys.flatMap (fun name => parts.filter (fun p => decide (p.Name = name)))).filter
        (fun p => decide (p.Name = n)) =
      (List.replicate (keys.count n) (parts.filter (fun p => decide (p.Name = n)))).flatten := by
  induction keys with
  | nil => simp
  | cons m rest ih =>
    rw [List.flatMap_cons, List.filter_append, ih, filter_name_filter, List.count_cons]
    by_cases h : m = n
    · subst h
      simp [List.replicate_succ]
    · have h' : (m == n) = false := by simpa using h
      simp [h, h']

theorem length_filter_name (parts : List Part) (n : String) :
    (parts.filter (fun p => decide (p.Name = n))).length =
      (parts.map (fun p => p.Name)).count n := by
  induction parts with
  | nil => rfl
  | cons a rest ih =>
    by_cases h : a.Name = n
    · simp [List.filter_cons, List.count_cons, h, ih]
    · have h' : (a.Name == n) = false := by simpa using h
      simp [List.filter_cons, List.count_cons, h, h', ih]

theorem filter_name_singleton (parts : List Part) (p : Part)
    (hnodup : (parts.map (fun q => q.Name)).Nodup) (hp : p ∈ parts) :
    parts.filter (fun q => decide (q.Name = p.Name)) = [p] := by
  induction parts with
  | nil => cases hp
  | cons a rest ih =>
    rw [List.map_cons, List.nodup_cons] at hnodup
    obtain ⟨ha, hrest⟩ := hnodup
    rcases List.mem_cons.1 hp with h | h
    · subst h
      have hnil : rest.filter (fun q => decide (q.Name = p.Name)) = [] := by
        rw [List.filter_eq_nil_iff]
        intro q hq
        simp only [decide_eq_true_eq]
        intro hqn
        exact ha (List.mem_map.2 ⟨q, hq, hqn⟩)
      simp [List.filter_cons, hnil]
    · have hne : a.Name ≠ p.Name := by
        intro e
        exact ha (List.mem_map.2 ⟨p, h, e.symm⟩)
      simp [List.filter_cons, hne, ih hrest h]

theorem flatMap_singletons {α : Type} (g : α → List α) (l : List α)
    (h : ∀ x ∈ l, g x = [x]) : l.flatMap g = l := by
  induction l with
  | nil => rfl
  | cons a rest ih =>
    rw [List.flatMap_cons, h a (List.mem_cons_self _ _),
      ih (fun x hx => h x (List.mem_cons_of_mem _ hx))]
    rfl

/-- C21: the output of `orderAlphabeticallyByName` is a permutation of the input exactly
when the part names are pairwise distinct. In general the entries of the output with a
given name are the parts with that name, in input order, repeated as many times as the
name occurs in the input: a name occurring k times yields k*k entries. -/
theorem orderAlphabeticallyByName_perm_iff (path : String) (parts : List Part) :
    ((parts.map (fun p => p.Name)).Nodup ↔
        List.Perm (orderAlphabeticallyByName path parts).1 parts) ∧
      (∀ name : String,
        (orderAlphabeticallyByName path parts).1.filter (fun p => decide (p.Name = name)) =
          (List.replicate ((parts.map (fun p => p.Name)).count name)
            (parts.filter (fun p => decide (p.Name = name)))).flatten) ∧
      (∀ name : String,
        ((orderAlphabeticallyByName path parts).1.filter
            (fun p => decide (p.Name = name))).length =
          (parts.map (fun p => p.Name)).count name *
            (parts.map (fun p => p.Name)).count name) := by
  have hout : (orderAlphabeticallyByName path parts).1 =
      (sortStrings (parts.map (fun p => p.Name))).flatMap
        (fun name => parts.filter (fun p => decide (p.Name = name))) := by
    simp only [orderAlphabeticallyByName, alphabeticalLoop_eq, List.nil_append]
  have hperm : List.Perm (sortStrings (parts.map (fun p => p.Name)))
      (parts.map (fun p => p.Name)) := List.perm_insertionSort StringLE _
  have hfilter : ∀ name : String,
      (orderAlphabeticallyByName path parts).1.filter (fun p => decide (p.Name = name)) =
        (List.replicate ((parts.map (fun p => p.Name)).count name)
          (parts.filter (fun p => decide (p.Name = name)))).flatten := by
    intro name
    rw [hout, filter_blocks, hperm.count_eq]
  have hlen : ∀ name : String,
      ((orderAlphabeticallyByName path parts).1.filter
          (fun p => decide (p.Name = name))).length =
        (parts.map (fun p => p.Name)).count name *
          (parts.map (fun p => p.Name)).count name := by
    intro name
    rw [hfilter name, List.length_flatten, List.map_replicate, List.sum_replicate,
      length_filter_name]
    rfl
  refine ⟨⟨?_, ?_⟩, hfilter, hlen⟩
  · intro hnodup
    rw [hout]
    refine (List.Perm.flatMap_right _ hperm).trans ?_
    rw [List.flatMap_map]
    rw [flatMap_singletons _ parts (fun p hp => filter_name_singleton parts p hnodup hp)]
  · intro hp
    rw [List.nodup_iff_count_le_one]
    intro name
    have h1 := (hp.filter (fun p => decide (p.Name = name))).length_eq
    rw [hlen name, length_filter_name] at h1
    by_contra hgt
    have hk : 2 ≤ (parts.map (fun p => p.Name)).count name := by omega
    have : 2 * (parts.map (fun p => p.Name)).count name ≤
        (parts.map (fun p => p.Name)).count name *
          (parts.map (fun p => p.Name)).count name := Nat.mul_le_mul_right _ hk
    omega

/-- Two parts named `db` and one named `web`: each part named `db` comes out twice. -/
theorem orderAlphabeticallyByName_repeated_name_example :
    (orderAlphabeticallyByName "jobs" [dbPart, webPart, otherDbPart]).1 =
      [dbPart, otherDbPart, dbPart, otherDbPart, webPart] := rfl

end Kiln.builder

namespace Kiln.builder

/-! ## Ordering by the order file -/

theorem collectNamed_eq (name : Value) (parts : List Part) (found : Bool)
    (outputs : List Part) :
    collectNamed name parts found outputs =
      (found || parts.any (fun p => nameEq p.Name name),
        outputs ++ parts.filter (fun p => nameEq p.Name name)) := by
  induction parts generalizing found outputs with
  | nil => simp [collectNamed]
  | cons a rest ih =>
    by_cases h : nameEq a.Name name = true
    · simp [collectNamed, h, ih]
    · have h' : nameEq a.Name name = false := by simpa using h
      simp [collectNamed, h', ih]

theorem orderLoop_all (lib : GoLib) (path : String) (parts : List Part)
    (names : List Value) (outputs : List Part)
    (hall : ∀ name ∈ names, ∃ p ∈ parts, nameEq p.Name name = true) :
    orderLoop lib path parts names outputs =
      (outputs ++ names.flatMap (fun name => parts.filter (fun p => nameEq p.Name name)),
        none) := by
  induction names generalizing outputs with
  | nil => simp [orderLoop]
  | cons n rest ih =>
    have hn : parts.any (fun p => nameEq p.Name n) = true := by
      obtain ⟨p, hp, hpn⟩ := hall n (List.mem_cons_self _ _)
      exact List.any_eq_true.2 ⟨p, hp, hpn⟩
    have ih' := fun o => ih o (fun m hm => hall m (List.mem_cons_of_mem _ hm))
    simp [orderLoop, collectNamed_eq, hn, ih']

theorem orderLoop_missing (lib : GoLib) (path : String) (parts : List Part)
    (before after : List Value) (bad : Value) (outputs : List Part)
    (hbefore : ∀ name ∈ before, ∃ p ∈ parts, nameEq p.Name name = true)
    (hbad : ∀ p ∈ parts, nameEq p.Name bad = false) :
    orderLoop lib path parts (before ++ bad :: after) outputs =
      ([], some ("file specified in _order.yml " ++ lib.quoteValue bad ++
        " does not exist in " ++ lib.quote path)) := by
  induction before generalizing outputs with
  | nil =>
    have hn : parts.any (fun p => nameEq p.Name bad) = false := by
      rw [Bool.eq_false_iff]
      intro h
      obtain ⟨p, hp, hpn⟩ := List.any_eq_true.1 h
      rw [hbad p hp] at hpn
      cases hpn
    simp [orderLoop, collectNamed_eq, hn]
  | cons n rest ih =>
    have hn : parts.any (fun p => nameEq p.Name n) = true := by
      obtain ⟨p, hp, hpn⟩ := hbefore n (List.mem_cons_self _ _)
      exact List.any_eq_true.2 ⟨p, hp, hpn⟩
    have ih' := fun o => ih o (fun m hm => hbefore m (List.mem_cons_of_mem _ hm))
    simp [orderLoop, collectNamed_eq, hn, ih']

/-- The first name of an order list that no part carries, with the names before it. -/
theorem first_missing (parts : List Part) (names : List Value)
    (h : ∃ name ∈ names, ∀ p ∈ parts, nameEq p.Name name = false) :
    ∃ before bad after, names = before ++ bad :: after ∧
      (∀ name ∈ before, ∃ p ∈ parts, nameEq p.Name name = true) ∧
      (∀ p ∈ parts, nameEq p.Name bad = false) := by
  induction names with
  | nil =>
    obtain ⟨n, hn, _⟩ := h
    cases hn
  | cons n rest ih =>
    by_cases hn : ∀ p ∈ parts, nameEq p.Name n = false
    · refine ⟨[], n, rest, rfl, ?_, hn⟩
      intro m hm
      cases hm
    · push_neg at hn
      obtain ⟨p, hp, hpn⟩ := hn
      have hpn' : nameEq p.Name n = true := by simpa using hpn
      have hrest : ∃ name ∈ rest, ∀ q ∈ parts, nameEq q.Name name = false := by
        obtain ⟨m, hm, hmiss⟩ := h
        rcases List.mem_cons.1 hm with e | e
        · subst e
          rw [hmiss p hp] at hpn'
          cases hpn'
        · exact ⟨m, e, hmiss⟩
      obtain ⟨before, bad, after, hsplit, hb, hbad⟩ := ih hrest
      refine ⟨n :: before, bad, after, by rw [hsplit]; rfl, ?_, hbad⟩
      intro m hm
      rcases List.mem_cons.1 hm with e | e
      · subst e
        exact ⟨p, hp, hpn'⟩
      · exact hb m e

/-- C22: when `_order.yml` opens, parses and holds the order key, and every name of the
order list is the name of at least one part, `orderWithOrderFile` returns, without error,
the concatenation over the order list (in its order, once per occurrence of a name) of the
parts with that name in their read order; a part whose name is not in the order list is
not in the result. -/
theorem orderWithOrderFile_ordered (r : MetadataPartsDirectoryReader) (fs : Filesystem)
    (lib : GoLib) (path : String) (parts : List Part) (data : String)
    (files : List (String × List Value)) (orderedNames : List Value)
    (hopen : fs.Open (lib.filepathJoin path "_order.yml") = .ok (.ok data))
    (hparse : lib.unmarshalOrder data = .ok files)
    (hkey : lookupKey r.orderKey files = some orderedNames)
    (hall : ∀ name ∈ orderedNames, ∃ p ∈ parts, nameEq p.Name name = true) :
    orderWithOrderFile r fs lib path parts =
        ([lib.filepathJoin path "_order.yml"],
          orderedNames.flatMap (fun name => parts.filter (fun p => nameEq p.Name name)),
          none) ∧
      ∀ p ∈ parts, (∀ name ∈ orderedNames, nameEq p.Name name = false) →
        p ∉ (orderWithOrderFile r fs lib path parts).2.1 := by
  have hrun : orderWithOrderFile r fs lib path parts =
      ([lib.filepathJoin path "_order.yml"],
        orderedNames.flatMap (fun name => parts.filter (fun p => nameEq p.Name name)),
        none) := by
    simp [orderWithOrderFile, hopen, hparse, hkey, orderLoop_all lib path parts orderedNames []
      hall]
  refine ⟨hrun, ?_⟩
  intro p _ hnone hmem
  rw [hrun] at hmem
  obtain ⟨name, hname, hp⟩ := List.mem_flatMap.1 hmem
  have := (List.mem_filter.1 hp).2
  rw [hnone name hname] at this
  cases this

/-- C23: when `_order.yml` opens, parses and holds the order key, `orderWithOrderFile`
returns an error exactly when some name of the order list is the name of no part; the
error is the one for the first such name, quoting that name and the directory path, and
with an error the returned list is empty. -/
theorem orderWithOrderFile_missing (r : MetadataPartsDirectoryReader) (fs : Filesystem)
    (lib : GoLib) (path : String) (parts : List Part) (data : String)
    (files : List (String × List Value)) (orderedNames : List Value)
    (hopen : fs.Open (lib.filepathJoin path "_order.yml") = .ok (.ok data))
    (hparse : lib.unmarshalOrder data = .ok files)
    (hkey : lookupKey r.orderKey files = some orderedNames) :
    ((orderWithOrderFile r fs lib path parts).2.2 ≠ none ↔
        ∃ name ∈ orderedNames, ∀ p ∈ parts, nameEq p.Name name = false) ∧
      (∀ (before after : List Value) (bad : Value),
        orderedNames = before ++ bad :: after →
        (∀ name ∈ before, ∃ p ∈ parts, nameEq p.Name name = true) →
        (∀ p ∈ parts, nameEq p.Name bad = false) →
        orderWithOrderFile r fs lib path parts =
          ([lib.filepathJoin path "_order.yml"], [],
            some ("file specified in _order.yml " ++ lib.quoteValue bad ++
              " does not exist in " ++ lib.quote path))) ∧
      ((orderWithOrderFile r fs lib path parts).2.2 ≠ none →
        (orderWithOrderFile r fs lib path parts).2.1 = []) := by
  have hrun : orderWithOrderFile r fs lib path parts =
      ([lib.filepathJoin path "_order.yml"],
        (orderLoop lib path parts orderedNames []).1,
        (orderLoop lib path parts orderedNames []).2) := by
    simp [orderWithOrderFile, hopen, hparse, hkey]
  have hsplit : ∀ (before after : List Value) (bad : Value),
      orderedNames = before ++ bad :: after →
      (∀ name ∈ before, ∃ p ∈ parts, nameEq p.Name name = true) →
      (∀ p ∈ parts, nameEq p.Name bad = false) →
      orderWithOrderFile r fs lib path parts =
        ([lib.filepathJoin path "_order.yml"], [],
          some ("file specified in _order.yml " ++ lib.quoteValue bad ++
            " does not exist in " ++ lib.quote path)) := by
    intro before after bad hs hb hbad
    rw [hrun, hs, orderLoop_missing lib path parts before after bad [] hb hbad]
  by_cases hex : ∃ name ∈ orderedNames, ∀ p ∈ parts, nameEq p.Name name = false
  · obtain ⟨before, bad, after, hs, hb, hbad⟩ := first_missing parts orderedNames hex
    have h := hsplit before after bad hs hb hbad
    refine ⟨⟨fun _ => hex, fun _ => by rw [h]; simp⟩, hsplit, fun _ => by rw [h]⟩
  · have hall : ∀ name ∈ orderedNames, ∃ p ∈ parts, nameEq p.Name name = true := by
      intro name hname
      by_contra hno
      push_neg at hno
      exact hex ⟨name, hname, fun p hp => by simpa using hno p hp⟩
    have h := orderLoop_all lib path parts orderedNames [] hall
    have herr : (orderWithOrderFile r fs lib path parts).2.2 = none := by
      rw [hrun, h]
    refine ⟨⟨fun hne => absurd herr hne, fun he => absurd he hex⟩, hsplit,
      fun hne => absurd herr hne⟩

end Kiln.builder

namespace Kiln.builder

/-! ## Reading the items of a file -/

theorem readItems_ok (lib : GoLib) (fileName : String) (items : List Value)
    (parts : List Part) (h : ∀ item ∈ items, ∃ name, itemName item = some name) :
    readItems lib fileName items parts =
      (parts ++ items.map (fun item =>
        ({ File := fileName, Name := (itemName item).getD "", Metadata := item } : Part)),
        none) := by
  induction items generalizing parts with
  | nil => simp [readItems]
  | cons item rest ih =>
    obtain ⟨name, hname⟩ := h item (List.mem_cons_self _ _)
    have ih' := fun ps => ih ps (fun it hit => h it (List.mem_cons_of_mem _ hit))
    cases item with
    | map i =>
      have hn : nameOf i = some name := hname
      simp [readItems, hn, ih', itemName]
    | null => simp [itemName] at hname
    | bool b => simp [itemName] at hname
    | int n => simp [itemName] at hname
    | str s => simp [itemName] at hname
    | list l => simp [itemName] at hname

theorem readItems_bad (lib : GoLib) (fileName : String) (before after : List Value)
    (bad : Value) (parts : List Part)
    (hbefore : ∀ item ∈ before, ∃ name, itemName item = some name)
    (hbad : itemName bad = none) :
    readItems lib fileName (before ++ bad :: after) parts =
      ([], some (if bad.isMap then
          "metadata item '" ++ lib.fmtValue bad ++ "' does not have a `name` field"
        else "metadata item '" ++ lib.fmtValue bad ++ "' must be a map")) := by
  induction before generalizing parts with
  | nil =>
    cases bad with
    | map i =>
      have hn : nameOf i = none := hbad
      simp [readItems, hn, Value.isMap]
    | null => simp [readItems, Value.isMap]
    | bool b => simp [readItems, Value.isMap]
    | int n => simp [readItems, Value.isMap]
    | str s => simp [readItems, Value.isMap]
    | list l => simp [readItems, Value.isMap]
  | cons item rest ih =>
    obtain ⟨name, hname⟩ := hbefore item (List.mem_cons_self _ _)
    have ih' := fun ps => ih ps (fun it hit => hbefore it (List.mem_cons_of_mem _ hit))
    cases item with
    | map i =>
      have hn : nameOf i = some name := hname
      simp [readItems, hn, ih']
    | null => simp [itemName] at hname
    | bool b => simp [itemName] at hname
    | int n => simp [itemName] at hname
    | str s => simp [itemName] at hname
    | list l => simp [itemName] at hname

theorem first_bad_item (items : List Value) (h : ∃ item ∈ items, itemName item = none) :
    ∃ before bad after, items = before ++ bad :: after ∧
      (∀ item ∈ before, ∃ name, itemName item = some name) ∧ itemName bad = none := by
  induction items with
  | nil =>
    obtain ⟨it, hit, _⟩ := h
    cases hit
  | cons item rest ih =>
    cases hi : itemName item with
    | none =>
      refine ⟨[], item, rest, rfl, ?_, hi⟩
      intro it hit
      cases hit
    | some name =>
      have hrest : ∃ it ∈ rest, itemName it = none := by
        obtain ⟨it, hit, hn⟩ := h
        rcases List.mem_cons.1 hit with e | e
        · subst e
          rw [hi] at hn
          cases hn
        · exact ⟨it, e, hn⟩
      obtain ⟨before, bad, after, hs, hb, hbad⟩ := ih hrest
      refine ⟨item :: before, bad, after, by rw [hs]; rfl, ?_, hbad⟩
      intro it hit
      rcases List.mem_cons.1 hit with e | e
      · subst e
        exact ⟨name, hi⟩
      · exact hb it e

/-- C24: for a top-level value that is a list of maps each with a string `name`,
`readMetadataIntoParts` succeeds and returns the accumulated parts followed by one new
part per item, in item order, with the file name, the item's name and the item itself as
metadata; for a single such map it appends the one part. The accumulated parts are an
unchanged prefix and the list grows by the number of items. -/
theorem readMetadataIntoParts_appends (lib : GoLib) (fileName : String)
    (parts : List Part) :
    (∀ items : List Value,
        (∀ item ∈ items, ∃ i name, item = .map i ∧ nameOf i = some name) →
        readMetadataIntoParts lib fileName (.list items) parts =
            (parts ++ items.map (fun item =>
              ({ File := fileName, Name := (itemName item).getD "",
                 Metadata := item } : Part)), none) ∧
          (readMetadataIntoParts lib fileName (.list items) parts).1.length =
            parts.length + items.length ∧
          parts <+: (readMetadataIntoParts lib fileName (.list items) parts).1) ∧
      (∀ (v : List (Value × Value)) (name : String), nameOf v = some name →
        readMetadataIntoParts lib fileName (.map v) parts =
          (parts ++ [{ File := fileName, Name := name, Metadata := .map v }], none)) := by
  refine ⟨?_, ?_⟩
  · intro items hitems
    have h : ∀ item ∈ items, ∃ name, itemName item = some name := by
      intro item hi
      obtain ⟨i, name, hitem, hname⟩ := hitems item hi
      exact ⟨name, by rw [hitem]; exact hname⟩
    have hrun : readMetadataIntoParts lib fileName (.list items) parts =
        (parts ++ items.map (fun item =>
          ({ File := fileName, Name := (itemName item).getD "",
             Metadata := item } : Part)), none) := by
      simp only [readMetadataIntoParts]
      exact readItems_ok lib fileName items parts h
    refine ⟨hrun, ?_, ?_⟩
    · rw [hrun]
      simp
    · rw [hrun]
      exact List.prefix_append _ _
  · intro v name hname
    simp [readMetadataIntoParts, hname]

/-- C25: `readMetadataIntoParts` fails exactly when the top-level value is neither a list
nor a map, or is a map without a string `name`, or is a list with an item that is not a
map or has no string `name`. The error is "expected either slice or map value" in the
first case, "does not have a `name` field" in the second, and in the third the one for the
first offending item: "must be a map" if it is not a map, "does not have a `name` field"
otherwise. With an error the returned list is empty. -/
theorem readMetadataIntoParts_fails (lib : GoLib) (fileName : String) (vars : Value)
    (parts : List Part) :
    ((readMetadataIntoParts lib fileName vars parts).2 ≠ none ↔
        (vars.isList = false ∧ vars.isMap = false) ∨
        (∃ v, vars = .map v ∧ nameOf v = none) ∨
        (∃ items, vars = .list items ∧ ∃ item ∈ items, itemName item = none)) ∧
      (vars.isList = false → vars.isMap = false →
        readMetadataIntoParts lib fileName vars parts =
          ([], some "expected either slice or map value")) ∧
      (∀ v, vars = .map v → nameOf v = none →
        readMetadataIntoParts lib fileName vars parts =
          ([], some ("metadata item '" ++ lib.fmtValue vars ++
            "' does not have a `name` field"))) ∧
      (∀ (before after : List Value) (bad : Value), vars = .list (before ++ bad :: after) →
        (∀ item ∈ before, ∃ name, itemName item = some name) → itemName bad = none →
        readMetadataIntoParts lib fileName vars parts =
          ([], some (if bad.isMap then
              "metadata item '" ++ lib.fmtValue bad ++ "' does not have a `name` field"
            else "metadata item '" ++ lib.fmtValue bad ++ "' must be a map"))) ∧
      ((readMetadataIntoParts lib fileName vars parts).2 ≠ none →
        (readMetadataIntoParts lib fileName vars parts).1 = []) := by
  have hlist : ∀ (before after : List Value) (bad : Value),
      vars = .list (before ++ bad :: after) →
      (∀ item ∈ before, ∃ name, itemName item = some name) → itemName bad = none →
      readMetadataIntoParts lib fileName vars parts =
        ([], some (if bad.isMap then
            "metadata item '" ++ lib.fmtValue bad ++ "' does not have a `name` field"
          else "metadata item '" ++ lib.fmtValue bad ++ "' must be a map")) := by
    intro before after bad hv hb hbad
    subst hv
    simp only [readMetadataIntoParts]
    exact readItems_bad lib fileName before after bad parts hb hbad
  have hmap : ∀ v, vars = .map v → nameOf v = none →
      readMetadataIntoParts lib fileName vars parts =
        ([], some ("metadata item '" ++ lib.fmtValue vars ++
          "' does not have a `name` field")) := by
    intro v hv hn
    subst hv
    simp [readMetadataIntoParts, hn]
  have hother : vars.isList = false → vars.isMap = false →
      readMetadataIntoParts lib fileName vars parts =
        ([], some "expected either slice or map value") := by
    intro h1 h2
    cases vars with
    | list l => simp [Value.isList] at h1
    | map v => simp [Value.isMap] at h2
    | null => rfl
    | bool b => rfl
    | int n => rfl
    | str s => rfl
  refine ⟨?_, hother, hmap, hlist, ?_⟩
  · cases vars with
    | list items =>
      by_cases hex : ∃ item ∈ items, itemName item = none
      · obtain ⟨before, bad, after, hs, hb, hbad⟩ := first_bad_item items hex
        have h := hlist before after bad (by rw [hs]) hb hbad
        rw [h]
        refine ⟨fun _ => Or.inr (Or.inr ⟨items, rfl, hex⟩), fun _ => by simp⟩
      · have hall : ∀ item ∈ items, ∃ name, itemName item = some name := by
          intro item hi
          cases hn : itemName item with
          | none => exact absurd ⟨item, hi, hn⟩ hex
          | some name => exact ⟨name, rfl⟩
        have h : readMetadataIntoParts lib fileName (.list items) parts =
            (parts ++ items.map (fun item =>
              ({ File := fileName, Name := (itemName item).getD "",
                 Metadata := item } : Part)), none) := by
          simp only [readMetadataIntoParts]
          exact readItems_ok lib fileName items parts hall
        rw [h]
        refine ⟨fun hne => absurd rfl hne, ?_⟩
        rintro (⟨h1, _⟩ | ⟨v, hv, _⟩ | ⟨its, hits, hbad⟩)
        · simp [Value.isList] at h1
        · cases hv
        · cases hits
          exact absurd hbad hex
    | map v =>
      cases hn : nameOf v with
      | none =>
        rw [hmap v rfl hn]
        refine ⟨fun _ => Or.inr (Or.inl ⟨v, rfl, hn⟩), fun _ => by simp⟩
      | some name =>
        have h : readMetadataIntoParts lib fileName (.map v) parts =
            (parts ++ [{ File := fileName, Name := name, Metadata := .map v }], none) := by
          simp [readMetadataIntoParts, hn]
        rw [h]
        refine ⟨fun hne => absurd rfl hne, ?_⟩
        rintro (⟨_, h2⟩ | ⟨w, hw, hwn⟩ | ⟨its, hits, _⟩)
        · simp [Value.isMap] at h2
        · cases hw
          rw [hn] at hwn
          cases hwn
        · cases hits
    | null =>
      rw [hother rfl rfl]
      exact ⟨fun _ => Or.inl ⟨rfl, rfl⟩, fun _ => by simp⟩
    | bool b =>
      rw [hother rfl rfl]
      exact ⟨fun _ => Or.inl ⟨rfl, rfl⟩, fun _ => by simp⟩
    | int n =>
      rw [hother rfl rfl]
      exact ⟨fun _ => Or.inl ⟨rfl, rfl⟩, fun _ => by simp⟩
    | str s =>
      rw [hother rfl rfl]
      exact ⟨fun _ => Or.inl ⟨rfl, rfl⟩, fun _ => by simp⟩
  · intro hne
    cases vars with
    | list items =>
      by_cases hex : ∃ item ∈ items, itemName item = none
      · obtain ⟨before, bad, after, hs, hb, hbad⟩ := first_bad_item items hex
        rw [hlist before after bad (by rw [hs]) hb hbad]
      · have hall : ∀ item ∈ items, ∃ name, itemName item = some name := by
          intro item hi
          cases hn : itemName item with
          | none => exact absurd ⟨item, hi, hn⟩ hex
          | some name => exact ⟨name, rfl⟩
        have h : (readMetadataIntoParts lib fileName (.list items) parts).2 = none := by
          simp only [readMetadataIntoParts]
          rw [readItems_ok lib fileName items parts hall]
        exact absurd h hne
    | map v =>
      cases hn : nameOf v with
      | none => rw [hmap v rfl hn]
      | some name =>
        have h : (readMetadataIntoParts lib fileName (.map v) parts).2 = none := by
          simp [readMetadataIntoParts, hn]
        exact absurd h hne
    | null => rw [hother rfl rfl]
    | bool b => rw [hother rfl rfl]
    | int n => rw [hother rfl rfl]
    | str s => rw [hother rfl rfl]

end Kiln.builder

namespace Kiln.builder

/-! ## The directory walk and `Read` -/

theorem readItems_files (lib : GoLib) (fileName : String) (items : List Value)
    (parts : List Part) :
    ∀ p ∈ (readItems lib fileName items parts).1, p ∈ parts ∨ p.File = fileName := by
  induction items generalizing parts with
  | nil => intro p hp; exact Or.inl hp
  | cons item rest ih =>
    intro p hp
    cases item with
    | map i =>
      cases hn : nameOf i with
      | none => simp [readItems, hn] at hp
      | some name =>
        simp only [readItems, hn] at hp
        rcases ih _ p hp with h | h
        · rcases List.mem_append.1 h with h1 | h1
          · exact Or.inl h1
          · simp only [List.mem_singleton] at h1
            subst h1
            exact Or.inr rfl
        · exact Or.inr h
    | null => simp [readItems] at hp
    | bool b => simp [readItems] at hp
    | int n => simp [readItems] at hp
    | str s => simp [readItems] at hp
    | list l => simp [readItems] at hp

theorem readMetadataIntoParts_files (lib : GoLib) (fileName : String) (vars : Value)
    (parts : List Part) :
    ∀ p ∈ (readMetadataIntoParts lib fileName vars parts).1,
      p ∈ parts ∨ p.File = fileName := by
  intro p hp
  cases vars with
  | list items => exact readItems_files lib fileName items parts p hp
  | map v =>
    cases hn : nameOf v with
    | none => simp [readMetadataIntoParts, hn] at hp
    | some name =>
      simp only [readMetadataIntoParts, hn, List.mem_append, List.mem_singleton] at hp
      rcases hp with h | h
      · exact Or.inl h
      · subst h
        exact Or.inr rfl
  | null => simp [readMetadataIntoParts] at hp
  | bool b => simp [readMetadataIntoParts] at hp
  | int n => simp [readMetadataIntoParts] at hp
  | str s => simp [readMetadataIntoParts] at hp

theorem walkFn_skipped (r : MetadataPartsDirectoryReader) (fs : Filesystem) (lib : GoLib)
    (entry : WalkEntry) (parts : List Part) (hwalk : entry.err = none)
    (hskip : skipped entry = true) :
    walkFn r fs lib entry parts = ([], parts, none) := by
  simp [walkFn, hwalk, hskip]

theorem walkFn_opened (r : MetadataPartsDirectoryReader) (fs : Filesystem) (lib : GoLib)
    (entry : WalkEntry) (parts : List Part) (hwalk : entry.err = none)
    (hskip : skipped entry = false) :
    (walkFn r fs lib entry parts).1 = [entry.filePath] := by
  cases ho : fs.Open entry.filePath with
  | error e => simp [walkFn, hwalk, hskip, ho]
  | ok f =>
    cases f with
    | error e => simp [walkFn, hwalk, hskip, ho]
    | ok data =>
      cases hu : lib.unmarshalVars data with
      | error e => simp [walkFn, hwalk, hskip, ho, hu]
      | ok fileVars =>
        cases hk : lookupKey r.topLevelKey fileVars with
        | none => simp [walkFn, hwalk, hskip, ho, hu, hk]
        | some vars =>
          cases h : readMetadataIntoParts lib (pathBase entry.filePath) vars parts with
          | mk ps e => cases e <;> simp [walkFn, hwalk, hskip, ho, hu, hk, h]

theorem walkFn_files (r : MetadataPartsDirectoryReader) (fs : Filesystem) (lib : GoLib)
    (entry : WalkEntry) (parts : List Part) :
    ∀ p ∈ (walkFn r fs lib entry parts).2.1,
      p ∈ parts ∨ (skipped entry = false ∧ p.File = pathBase entry.filePath) := by
  intro p hp
  cases hw : entry.err with
  | some e =>
    simp only [walkFn, hw] at hp
    exact Or.inl hp
  | none =>
    cases hs : skipped entry with
    | true =>
      simp only [walkFn, hw, hs] at hp
      exact Or.inl hp
    | false =>
      simp only [walkFn, hw, hs] at hp
      cases ho : fs.Open entry.filePath with
      | error e => rw [ho] at hp; exact Or.inl hp
      | ok f =>
        rw [ho] at hp
        cases f with
        | error e => exact Or.inl hp
        | ok data =>
          simp only at hp
          cases hu : lib.unmarshalVars data with
          | error e => rw [hu] at hp; exact Or.inl hp
          | ok fileVars =>
            rw [hu] at hp
            simp only at hp
            cases hk : lookupKey r.topLevelKey fileVars with
            | none => rw [hk] at hp; exact Or.inl hp
            | some vars =>
              rw [hk] at hp
              simp only at hp
              have hfiles := readMetadataIntoParts_files lib (pathBase entry.filePath) vars parts
              cases h : readMetadataIntoParts lib (pathBase entry.filePath) vars parts with
              | mk ps e =>
                rw [h] at hp hfiles
                have hp' : p ∈ ps := by cases e <;> simpa using hp
                rcases hfiles p hp' with h1 | h1
                · exact Or.inl h1
                · exact Or.inr ⟨rfl, h1⟩

theorem walkFn_ok_noWalkError (r : MetadataPartsDirectoryReader) (fs : Filesystem)
    (lib : GoLib) (entry : WalkEntry) (parts : List Part)
    (h : (walkFn r fs lib entry parts).2.2 = none) : entry.err = none := by
  cases hw : entry.err with
  | none => rfl
  | some e => simp [walkFn, hw] at h

theorem walkLoop_opened (r : MetadataPartsDirectoryReader) (fs : Filesystem) (lib : GoLib)
    (entries : List WalkEntry) (parts : List Part)
    (h : (walkLoop r fs lib entries parts).2.2 = none) :
    (walkLoop r fs lib entries parts).1 =
      (entries.filter (fun e => !skipped e)).map (fun e => e.filePath) := by
  induction entries generalizing parts with
  | nil => rfl
  | cons entry rest ih =>
    simp only [walkLoop] at h ⊢
    cases hf : walkFn r fs lib entry parts with
    | mk opened out =>
      cases out with
      | mk parts' err =>
        rw [hf] at h
        cases err with
        | some e => simp at h
        | none =>
          simp only at h ⊢
          have hwalk := walkFn_ok_noWalkError r fs lib entry parts (by rw [hf])
          rw [ih parts' h]
          cases hs : skipped entry with
          | true =>
            have := walkFn_skipped r fs lib entry parts hwalk hs
            rw [hf] at this
            simp only [Prod.mk.injEq] at this
            simp [this.1, List.filter_cons, hs]
          | false =>
            have := walkFn_opened r fs lib entry parts hwalk hs
            rw [hf] at this
            simp only at this
            simp [this, List.filter_cons, hs]

theorem walkLoop_files (r : MetadataPartsDirectoryReader) (fs : Filesystem) (lib : GoLib)
    (entries : List WalkEntry) (parts : List Part) :
    ∀ p ∈ (walkLoop r fs lib entries parts).2.1,
      p ∈ parts ∨ ∃ e ∈ entries, skipped e = false ∧ p.File = pathBase e.filePath := by
  induction entries generalizing parts with
  | nil => intro p hp; exact Or.inl hp
  | cons entry rest ih =>
    intro p hp
    simp only [walkLoop] at hp
    have hfn := walkFn_files r fs lib entry parts
    cases hf : walkFn r fs lib entry parts with
    | mk opened out =>
      cases out with
      | mk parts' err =>
        rw [hf] at hp hfn
        simp only at hfn
        have hstep : ∀ q ∈ parts', q ∈ parts ∨
            ∃ e ∈ entry :: rest, skipped e = false ∧ q.File = pathBase e.filePath := by
          intro q hq
          rcases hfn q hq with h1 | h1
          · exact Or.inl h1
          · exact Or.inr ⟨entry, List.mem_cons_self _ _, h1⟩
        cases err with
        | some e => exact hstep p (by simpa using hp)
        | none =>
          simp only at hp
          rcases ih parts' p hp with h1 | ⟨e, he, h2⟩
          · exact hstep p h1
          · exact Or.inr ⟨e, List.mem_cons_of_mem _ he, h2⟩

theorem walkLoop_abort (r : MetadataPartsDirectoryReader) (fs : Filesystem) (lib : GoLib)
    (before after : List WalkEntry) (entry : WalkEntry) (parts : List Part)
    (hbefore : (walkLoop r fs lib before parts).2.2 = none) (err : String)
    (hfail : (walkFn r fs lib entry (walkLoop r fs lib before parts).2.1).2.2 = some err) :
    (walkLoop r fs lib (before ++ entry :: after) parts).2.2 = some err := by
  induction before generalizing parts with
  | nil =>
    simp only [walkLoop, List.nil_append] at hfail ⊢
    cases hf : walkFn r fs lib entry parts with
    | mk opened out =>
      cases out with
      | mk parts' e =>
        rw [hf] at hfail
        simp only at hfail
        subst hfail
        rfl
  | cons b rest ih =>
    simp only [walkLoop, List.cons_append] at hbefore hfail ⊢
    cases hf : walkFn r fs lib b parts with
    | mk opened out =>
      cases out with
      | mk parts' e =>
        rw [hf] at hbefore hfail
        cases e with
        | some e' => simp at hbefore
        | none =>
          simp only at hbefore hfail ⊢
          exact ih parts' hbefore hfail

theorem orderLoop_error_empty (lib : GoLib) (path : String) (parts : List Part)
    (names : List Value) (outputs : List Part)
    (h : (orderLoop lib path parts names outputs).2 ≠ none) :
    (orderLoop lib path parts names outputs).1 = [] := by
  induction names generalizing outputs with
  | nil => simp [orderLoop] at h
  | cons n rest ih =>
    simp only [orderLoop] at h ⊢
    cases hc : collectNamed n parts false outputs with
    | mk found outs =>
      rw [hc] at h
      cases found with
      | false => rfl
      | true => exact ih outs h

theorem orderWithOrderFile_error_empty (r : MetadataPartsDirectoryReader) (fs : Filesystem)
    (lib : GoLib) (path : String) (parts : List Part)
    (h : (orderWithOrderFile r fs lib path parts).2.2 ≠ none) :
    (orderWithOrderFile r fs lib path parts).2.1 = [] := by
  simp only [orderWithOrderFile] at h ⊢
  cases ho : fs.Open (lib.filepathJoin path "_order.yml") with
  | error e => rfl
  | ok f =>
    rw [ho] at h
    cases f with
    | error e => rfl
    | ok data =>
      simp only at h ⊢
      cases hu : lib.unmarshalOrder data with
      | error e => rfl
      | ok files =>
        rw [hu] at h
        simp only at h ⊢
        cases hk : lookupKey r.orderKey files with
        | none => rfl
        | some names =>
          rw [hk] at h
          simp only at h ⊢
          exact orderLoop_error_empty lib path parts names [] h

end Kiln.builder

namespace Kiln.builder

/-! ## What the walk contributes -/

theorem skipped_false_iff (entry : WalkEntry) :
    skipped entry = false ↔
      (entry.isDir = false ∧ filepathExt entry.filePath = ".yml" ∧
        pathBase entry.filePath ≠ "_order.yml") := by
  simp [skipped, and_assoc]

theorem contributedParts_skipped (r : MetadataPartsDirectoryReader) (fs : Filesystem)
    (lib : GoLib) (entry : WalkEntry) (h : skipped entry = true) :
    contributedParts r fs lib entry = [] := by
  unfold contributedParts
  rw [if_neg]
  intro hc
  rw [(skipped_false_iff entry).2 hc] at h
  cases h

theorem contributedParts_not_skipped (r : MetadataPartsDirectoryReader) (fs : Filesystem)
    (lib : GoLib) (entry : WalkEntry) (h : skipped entry = false) :
    contributedParts r fs lib entry =
      (fileItems r fs lib entry.filePath).map (itemPart (pathBase entry.filePath)) := by
  unfold contributedParts
  rw [if_pos ((skipped_false_iff entry).1 h)]

theorem readItems_named (lib : GoLib) (fileName : String) (items : List Value)
    (parts : List Part) (h : (readItems lib fileName items parts).2 = none) :
    ∀ item ∈ items, ∃ name, itemName item = some name := by
  by_contra hne
  push_neg at hne
  obtain ⟨item, hitem, hnone⟩ := hne
  have hbad : ∃ it ∈ items, itemName it = none := by
    refine ⟨item, hitem, ?_⟩
    cases hi : itemName item with
    | none => rfl
    | some n => exact absurd hi (hnone n)
  obtain ⟨before, bad, after, hs, hb, hbad'⟩ := first_bad_item items hbad
  rw [hs, readItems_bad lib fileName before after bad parts hb hbad'] at h
  cases h

theorem readMetadataIntoParts_items (lib : GoLib) (fileName : String) (vars : Value)
    (parts : List Part) (hshape : vars.isList = true ∨ vars.isMap = true)
    (hnamed : ∀ item ∈ varsItems vars, ∃ name, itemName item = some name) :
    readMetadataIntoParts lib fileName vars parts =
      (parts ++ (varsItems vars).map (itemPart fileName), none) := by
  cases vars with
  | list items =>
    simp only [readMetadataIntoParts, varsItems]
    exact readItems_ok lib fileName items parts hnamed
  | map v =>
    obtain ⟨name, hname⟩ := hnamed (.map v) (by simp [varsItems])
    have hn : nameOf v = some name := hname
    simp [readMetadataIntoParts, varsItems, itemPart, itemName, hn]
  | null => simp [Value.isList, Value.isMap] at hshape
  | bool b => simp [Value.isList, Value.isMap] at hshape
  | int n => simp [Value.isList, Value.isMap] at hshape
  | str s => simp [Value.isList, Value.isMap] at hshape

theorem readMetadataIntoParts_ok (lib : GoLib) (fileName : String) (vars : Value)
    (parts : List Part) (h : (readMetadataIntoParts lib fileName vars parts).2 = none) :
    (vars.isList = true ∨ vars.isMap = true) ∧
      ∀ item ∈ varsItems vars, ∃ name, itemName item = some name := by
  cases vars with
  | list items =>
    exact ⟨Or.inl rfl, readItems_named lib fileName items parts h⟩
  | map v =>
    refine ⟨Or.inr rfl, ?_⟩
    cases hn : nameOf v with
    | none => simp [readMetadataIntoParts, hn] at h
    | some name =>
      intro item hitem
      simp only [varsItems, List.mem_singleton] at hitem
      subst hitem
      exact ⟨name, hn⟩
  | null => simp [readMetadataIntoParts] at h
  | bool b => simp [readMetadataIntoParts] at h
  | int n => simp [readMetadataIntoParts] at h
  | str s => simp [readMetadataIntoParts] at h

theorem walkFn_walkError (r : MetadataPartsDirectoryReader) (fs : Filesystem) (lib : GoLib)
    (entry : WalkEntry) (parts : List Part) (err : String) (hwalk : entry.err = some err) :
    walkFn r fs lib entry parts = ([], parts, some err) := by
  simp [walkFn, hwalk]

theorem walkFn_items (r : MetadataPartsDirectoryReader) (fs : Filesystem) (lib : GoLib)
    (entry : WalkEntry) (parts : List Part) (data : String)
    (fileVars : List (String × Value)) (vars : Value)
    (hwalk : entry.err = none) (hskip : skipped entry = false)
    (hopen : fs.Open entry.filePath = .ok (.ok data))
    (hparse : lib.unmarshalVars data = .ok fileVars)
    (hkey : lookupKey r.topLevelKey fileVars = some vars)
    (hshape : vars.isList = true ∨ vars.isMap = true)
    (hnamed : ∀ item ∈ varsItems vars, ∃ name, itemName item = some name) :
    walkFn r fs lib entry parts =
      ([entry.filePath],
        parts ++ (varsItems vars).map (itemPart (pathBase entry.filePath)), none) := by
  have h := readMetadataIntoParts_items lib (pathBase entry.filePath) vars parts hshape hnamed
  simp [walkFn, hwalk, hskip, hopen, hparse, hkey, h]

theorem fileItems_eq (r : MetadataPartsDirectoryReader) (fs : Filesystem) (lib : GoLib)
    (filePath : String) (data : String) (fileVars : List (String × Value)) (vars : Value)
    (hopen : fs.Open filePath = .ok (.ok data))
    (hparse : lib.unmarshalVars data = .ok fileVars)
    (hkey : lookupKey r.topLevelKey fileVars = some vars) :
    fileItems r fs lib filePath = varsItems vars := by
  simp [fileItems, hopen, hparse, hkey]

theorem walkFn_parts (r : MetadataPartsDirectoryReader) (fs : Filesystem) (lib : GoLib)
    (entry : WalkEntry) (parts : List Part)
    (h : (walkFn r fs lib entry parts).2.2 = none) :
    (walkFn r fs lib entry parts).2.1 = parts ++ contributedParts r fs lib entry ∧
      (skipped entry = false →
        ∀ item ∈ fileItems r fs lib entry.filePath, ∃ name, itemName item = some name) := by
  have hwalk := walkFn_ok_noWalkError r fs lib entry parts h
  cases hs : skipped entry with
  | true =>
    rw [walkFn_skipped r fs lib entry parts hwalk hs, contributedParts_skipped r fs lib entry hs]
    exact ⟨by simp, fun hc => by cases hc⟩
  | false =>
    rw [contributedParts_not_skipped r fs lib entry hs]
    cases ho : fs.Open entry.filePath with
    | error e => simp [walkFn, hwalk, hs, ho] at h
    | ok f =>
      cases f with
      | error e => simp [walkFn, hwalk, hs, ho] at h
      | ok data =>
        cases hu : lib.unmarshalVars data with
        | error e => simp [walkFn, hwalk, hs, ho, hu] at h
        | ok fileVars =>
          cases hk : lookupKey r.topLevelKey fileVars with
          | none => simp [walkFn, hwalk, hs, ho, hu, hk] at h
          | some vars =>
            have hok : (readMetadataIntoParts lib (pathBase entry.filePath) vars parts).2 =
                none := by
              cases hr : readMetadataIntoParts lib (pathBase entry.filePath) vars parts with
              | mk ps e =>
                cases e with
                | none => rfl
                | some e' => simp [walkFn, hwalk, hs, ho, hu, hk, hr] at h
            obtain ⟨hshape, hnamed⟩ :=
              readMetadataIntoParts_ok lib (pathBase entry.filePath) vars parts hok
            rw [walkFn_items r fs lib entry parts data fileVars vars hwalk hs ho hu hk hshape
              hnamed, fileItems_eq r fs lib entry.filePath data fileVars vars ho hu hk]
            exact ⟨rfl, fun _ => hnamed⟩

theorem walkLoop_parts (r : MetadataPartsDirectoryReader) (fs : Filesystem) (lib : GoLib)
    (entries : List WalkEntry) (parts : List Part)
    (h : (walkLoop r fs lib entries parts).2.2 = none) :
    (walkLoop r fs lib entries parts).2.1 =
      parts ++ entries.flatMap (contributedParts r fs lib) := by
  induction entries generalizing parts with
  | nil => simp [walkLoop]
  | cons entry rest ih =>
    simp only [walkLoop] at h ⊢
    have hfn := walkFn_parts r fs lib entry parts
    cases hf : walkFn r fs lib entry parts with
    | mk opened out =>
      cases out with
      | mk parts' err =>
        rw [hf] at h hfn
        cases err with
        | some e => simp at h
        | none =>
          simp only at h hfn ⊢
          rw [ih parts' h, (hfn trivial).1]
          simp [List.flatMap_cons]

theorem read_abort (r : MetadataPartsDirectoryReader) (fs : Filesystem) (lib : GoLib)
    (path : String) (before after : List WalkEntry) (entry : WalkEntry) (err : String)
    (hsplit : fs.Walk path = before ++ entry :: after)
    (hbefore : (walkLoop r fs lib before []).2.2 = none)
    (hfail : ∀ parts, (walkFn r fs lib entry parts).2.2 = some err) :
    (Read r fs lib path).2 = ([], some err) := by
  have hloop := walkLoop_abort r fs lib before after entry [] hbefore err (hfail _)
  have hrec : (readMetadataRecursivelyFromDir r fs lib path).2.2 = some err := by
    unfold readMetadataRecursivelyFromDir
    rw [hsplit]
    exact hloop
  unfold Read
  cases hr : readMetadataRecursivelyFromDir r fs lib path with
  | mk opened out =>
    cases out with
    | mk parts e =>
      rw [hr] at hrec
      simp only at hrec
      subst hrec
      rfl

end Kiln.builder

namespace Kiln.builder

/-- C26 (as stated, refuted): the walk hands the directory `jobs/secret` to the walk
function together with the error of reading it. The entry is a directory, yet it is not
passed over without error: the walk function returns the error and `Read` ends with it and
an empty list. Likewise the file `jobs/gone.yml`, handed over with the error of its lookup,
is not a directory, has the extension `.yml` and is not named `_order.yml`, yet it is not
opened and adds no part. -/
theorem read_walk_entries_counterexample :
    secretEntry ∈ lockedFS.Walk "jobs" ∧
      secretEntry.isDir = true ∧
      walkFn alphabeticalReader lockedFS sampleLib secretEntry [dbPart, cachePart] =
        ([], [dbPart, cachePart], some "open jobs/secret: permission denied") ∧
      Read alphabeticalReader lockedFS sampleLib "jobs" =
        (["jobs/db.yml"], [], some "open jobs/secret: permission denied") ∧
      (goneEntry.isDir = false ∧ filepathExt goneEntry.filePath = ".yml" ∧
        pathBase goneEntry.filePath ≠ "_order.yml") ∧
      walkFn alphabeticalReader sampleFS sampleLib goneEntry [webPart] =
        ([], [webPart], some "lstat jobs/gone.yml: no such file or directory") := by
  refine ⟨by decide, rfl, rfl, rfl, ⟨rfl, by decide, by decide⟩, rfl⟩

/-- C26 (amended): in the walk of `Read`, an entry handed over with a walk error ends the
walk with that error, whatever its kind, without being opened, and `Read` returns it with
an empty list. An entry handed over without a walk error is passed over (no error, not
opened, parts untouched) exactly when it is a directory, or its extension is not `.yml`, or
its base name is `_order.yml`; any other such entry is opened, and when it opens, parses
and holds under the top-level key a list of named maps or one named map, one part per item
is appended, in item order, with the base name of the entry as `File`. Whenever the walk
function returns without error the parts grow by exactly the contribution of the entry,
and a walk that ends without error has opened exactly the entries that are not passed
over, in walk order, and returns the contributions of the entries in walk order. Every
part produced has as `File` the base name of an entry that is not passed over; and a file
that is opened and parsed but lacks the top-level key ends `Read` with an empty list and
the error "not a <topLevelKey> file: <quoted path>". -/
theorem read_walk_entries (r : MetadataPartsDirectoryReader) (fs : Filesystem)
    (lib : GoLib) (path : String) :
    (∀ entry : WalkEntry, skipped entry = true ↔
        (entry.isDir = true ∨ filepathExt entry.filePath ≠ ".yml" ∨
          pathBase entry.filePath = "_order.yml")) ∧
      (∀ (entry : WalkEntry) (parts : List Part) (err : String), entry.err = some err →
        walkFn r fs lib entry parts = ([], parts, some err)) ∧
      (∀ (entry : WalkEntry) (parts : List Part), entry.err = none →
        (skipped entry = true → walkFn r fs lib entry parts = ([], parts, none)) ∧
        (skipped entry = false → (walkFn r fs lib entry parts).1 = [entry.filePath])) ∧
      (∀ (entry : WalkEntry) (parts : List Part) (data : String)
          (fileVars : List (String × Value)) (vars : Value),
        entry.err = none → skipped entry = false →
        fs.Open entry.filePath = .ok (.ok data) →
        lib.unmarshalVars data = .ok fileVars →
        lookupKey r.topLevelKey fileVars = some vars →
        (vars.isList = true ∨ vars.isMap = true) →
        (∀ item ∈ varsItems vars, ∃ name, itemName item = some name) →
        walkFn r fs lib entry parts =
          ([entry.filePath],
            parts ++ (varsItems vars).map (fun item =>
              ({ File := pathBase entry.filePath, Name := (itemName item).getD "",
                 Metadata := item } : Part)), none)) ∧
      (∀ (entry : WalkEntry) (parts : List Part),
        (walkFn r fs lib entry parts).2.2 = none →
        (walkFn r fs lib entry parts).2.1 = parts ++ contributedParts r fs lib entry ∧
        (contributedParts r fs lib entry ≠ [] → skipped entry = false) ∧
        (skipped entry = false →
          (contributedParts r fs lib entry).length =
            (fileItems r fs lib entry.filePath).length ∧
          ∀ item ∈ fileItems r fs lib entry.filePath, ∃ name, itemName item = some name)) ∧
      ((readMetadataRecursivelyFromDir r fs lib path).2.2 = none →
        (readMetadataRecursivelyFromDir r fs lib path).1 =
          ((fs.Walk path).filter (fun e => !skipped e)).map (fun e => e.filePath) ∧
        (readMetadataRecursivelyFromDir r fs lib path).2.1 =
          (fs.Walk path).flatMap (contributedParts r fs lib)) ∧
      (∀ p ∈ (readMetadataRecursivelyFromDir r fs lib path).2.1,
        ∃ e ∈ fs.Walk path, skipped e = false ∧ p.File = pathBase e.filePath) ∧
      (∀ (before after : List WalkEntry) (entry : WalkEntry) (data : String)
          (fileVars : List (String × Value)),
        fs.Walk path = before ++ entry :: after →
        (walkLoop r fs lib before []).2.2 = none →
        entry.err = none → skipped entry = false →
        fs.Open entry.filePath = .ok (.ok data) →
        lib.unmarshalVars data = .ok fileVars →
        lookupKey r.topLevelKey fileVars = none →
        (Read r fs lib path).2 =
          ([], some ("not a " ++ r.topLevelKey ++ " file: " ++ lib.quote entry.filePath))) ∧
      (∀ (before after : List WalkEntry) (entry : WalkEntry) (err : String),
        fs.Walk path = before ++ entry :: after →
        (walkLoop r fs lib before []).2.2 = none →
        entry.err = some err →
        (Read r fs lib path).2 = ([], some err)) := by
  refine ⟨?_, ?_, ?_, ?_, ?_, ?_, ?_, ?_, ?_⟩
  · intro entry
    simp [skipped, or_assoc]
  · intro entry parts err hwalk
    exact walkFn_walkError r fs lib entry parts err hwalk
  · intro entry parts hwalk
    exact ⟨walkFn_skipped r fs lib entry parts hwalk,
      walkFn_opened r fs lib entry parts hwalk⟩
  · intro entry parts data fileVars vars hwalk hskip hopen hparse hkey hshape hnamed
    exact walkFn_items r fs lib entry parts data fileVars vars hwalk hskip hopen hparse hkey
      hshape hnamed
  · intro entry parts hok
    obtain ⟨h1, h2⟩ := walkFn_parts r fs lib entry parts hok
    refine ⟨h1, ?_, ?_⟩
    · intro hne
      cases hs : skipped entry with
      | false => rfl
      | true => exact absurd (contributedParts_skipped r fs lib entry hs) hne
    · intro hs
      refine ⟨?_, h2 hs⟩
      rw [contributedParts_not_skipped r fs lib entry hs, List.length_map]
  · intro h
    refine ⟨walkLoop_opened r fs lib (fs.Walk path) [] h, ?_⟩
    have hp := walkLoop_parts r fs lib (fs.Walk path) [] h
    simpa [readMetadataRecursivelyFromDir] using hp
  · intro p hp
    rcases walkLoop_files r fs lib (fs.Walk path) [] p hp with h | h
    · cases h
    · exact h
  · intro before after entry data fileVars hsplit hbefore hwalk hskip hopen hparse hkey
    apply read_abort r fs lib path before after entry _ hsplit hbefore
    intro parts
    simp [walkFn, hwalk, hskip, hopen, hparse, hkey]
  · intro before after entry err hsplit hbefore hwalk
    apply read_abort r fs lib path before after entry _ hsplit hbefore
    intro parts
    simp [walkFn, hwalk]

/-- Witness for C26 (amended): in `jobs` the directory itself, the note and the order file
are passed over, the two job files are opened and their three items become the parts, in
walk order; in `bad` the file without the key `job` ends the read, and the file after it
is not opened; the walk that cannot read `jobs/secret` ends with the error of that
directory. -/
theorem read_walk_entries_witness :
    readMetadataRecursivelyFromDir alphabeticalReader sampleFS sampleLib "jobs" =
        (["jobs/db.yml", "jobs/web.yml"], [dbPart, cachePart, webPart], none) ∧
      Read alphabeticalReader sampleFS sampleLib "bad" =
        (["bad/db.yml", "bad/other.yml"], [], some "not a job file: \"bad/other.yml\"") ∧
      (Read alphabeticalReader lockedFS sampleLib "jobs").2 =
        ([], some "open jobs/secret: permission denied") := by
  have h := read_walk_entries alphabeticalReader sampleFS sampleLib "jobs"
  have h' := read_walk_entries alphabeticalReader sampleFS sampleLib "bad"
  have h'' := read_walk_entries alphabeticalReader lockedFS sampleLib "jobs"
  refine ⟨?_, ?_, ?_⟩
  · have hok : (readMetadataRecursivelyFromDir alphabeticalReader sampleFS sampleLib
        "jobs").2.2 = none := rfl
    obtain ⟨h1, h2⟩ := h.2.2.2.2.2.1 hok
    refine Prod.ext ?_ (Prod.ext ?_ hok)
    · rw [h1]
      decide
    · rw [h2]
      rfl
  · have h2 := h'.2.2.2.2.2.2.2.1
      [{ filePath := "bad", isDir := true, err := none },
       { filePath := "bad/db.yml", isDir := false, err := none }]
      [{ filePath := "bad/web.yml", isDir := false, err := none }]
      { filePath := "bad/other.yml", isDir := false, err := none }
      "other file" [("stuff", .list [])] rfl rfl rfl (by decide) rfl rfl rfl
    exact Prod.ext rfl h2
  · exact h''.2.2.2.2.2.2.2.2
      [{ filePath := "jobs", isDir := true, err := none },
       { filePath := "jobs/db.yml", isDir := false, err := none }]
      [{ filePath := "jobs/web.yml", isDir := false, err := none }]
      secretEntry "open jobs/secret: permission denied" rfl rfl rfl

/-- C27: `Read` is all-or-nothing: with a non-nil error the returned list is empty. When
the recursive read fails its error is returned; when it succeeds the parts are ordered by
`orderWithOrderFile` if the reader's order key is not empty, and by
`orderAlphabeticallyByName` if it is empty. -/
theorem read_all_or_nothing (r : MetadataPartsDirectoryReader) (fs : Filesystem)
    (lib : GoLib) (path : String) :
    ((Read r fs lib path).2.2 ≠ none → (Read r fs lib path).2.1 = []) ∧
      (∀ (opened : List String) (parts : List Part) (err : String),
        readMetadataRecursivelyFromDir r fs lib path = (opened, parts, some err) →
        Read r fs lib path = (opened, [], some err)) ∧
      (∀ (opened : List String) (parts : List Part),
        readMetadataRecursivelyFromDir r fs lib path = (opened, parts, none) →
        (r.orderKey ≠ "" →
          Read r fs lib path =
            (opened ++ (orderWithOrderFile r fs lib path parts).1,
              (orderWithOrderFile r fs lib path parts).2.1,
              (orderWithOrderFile r fs lib path parts).2.2)) ∧
        (r.orderKey = "" →
          Read r fs lib path =
            (opened, (orderAlphabeticallyByName path parts).1,
              (orderAlphabeticallyByName path parts).2))) := by
  refine ⟨?_, ?_, ?_⟩
  · intro h
    unfold Read at h ⊢
    cases hr : readMetadataRecursivelyFromDir r fs lib path with
    | mk opened out =>
      cases out with
      | mk parts err =>
        rw [hr] at h
        cases err with
        | some e => rfl
        | none =>
          simp only at h ⊢
          by_cases hk : r.orderKey ≠ ""
          · rw [if_pos hk] at h ⊢
            exact orderWithOrderFile_error_empty r fs lib path parts h
          · rw [if_neg hk] at h
            exact absurd rfl h
  · intro opened parts err hr
    unfold Read
    rw [hr]
  · intro opened parts hr
    refine ⟨?_, ?_⟩
    · intro hk
      unfold Read
      rw [hr]
      simp only
      rw [if_pos hk]
    · intro hk
      unfold Read
      rw [hr]
      simp only
      rw [if_neg (fun h => h hk)]

/-- Witness for C27: the same directory read alphabetically, by its order file, and by an
order list naming a part that does not exist. -/
theorem read_all_or_nothing_witness :
    Read alphabeticalReader sampleFS sampleLib "jobs" =
        (["jobs/db.yml", "jobs/web.yml"], [cachePart, dbPart, webPart], none) ∧
      Read orderedReader sampleFS sampleLib "jobs" =
        (["jobs/db.yml", "jobs/web.yml", "jobs/_order.yml"], [dbPart, webPart], none) ∧
      (Read brokenOrderReader sampleFS sampleLib "jobs").2.1 = [] := by
  have ha := (read_all_or_nothing alphabeticalReader sampleFS sampleLib "jobs").2.2
    ["jobs/db.yml", "jobs/web.yml"] [dbPart, cachePart, webPart] rfl
  have ho := (read_all_or_nothing orderedReader sampleFS sampleLib "jobs").2.2
    ["jobs/db.yml", "jobs/web.yml"] [dbPart, cachePart, webPart] rfl
  have hb := (read_all_or_nothing brokenOrderReader sampleFS sampleLib "jobs").1
  refine ⟨?_, ?_, ?_⟩
  · rw [ha.2 rfl]
    rfl
  · rw [ho.1 (by decide)]
    rfl
  · apply hb
    have : (Read brokenOrderReader sampleFS sampleLib "jobs").2.2 =
        some "file specified in _order.yml \"nope\" does not exist in \"jobs\"" := rfl
    rw [this]
    simp

/-- Witness for C22: the order list `db`, `web` against the parts read from `jobs`; the
part `cache` is in no position of the list and is left out. -/
theorem orderWithOrderFile_ordered_witness :
    orderWithOrderFile orderedReader sampleFS sampleLib "jobs" [dbPart, cachePart, webPart] =
      (["jobs/_order.yml"], [dbPart, webPart], none) := by
  have h := orderWithOrderFile_ordered orderedReader sampleFS sampleLib "jobs"
    [dbPart, cachePart, webPart] "order file"
    [("job_order", [.str "db", .str "web"]),
     ("broken_order", [.str "db", .str "nope", .str "web"])]
    [.str "db", .str "web"] rfl rfl rfl
    (by
      intro name hname
      simp only [List.mem_cons, List.mem_singleton, List.not_mem_nil, or_false] at hname
      rcases hname with e | e
      · subst e
        exact ⟨dbPart, by simp, rfl⟩
      · subst e
        exact ⟨webPart, by simp, rfl⟩)
  rw [h.1]
  rfl

/-- Witness for C23: the order list `db`, `nope`, `web`; the error is the one for
`nope`. -/
theorem orderWithOrderFile_missing_witness :
    orderWithOrderFile brokenOrderReader sampleFS sampleLib "jobs"
        [dbPart, cachePart, webPart] =
      (["jobs/_order.yml"], [],
        some "file specified in _order.yml \"nope\" does not exist in \"jobs\"") := by
  have h := (orderWithOrderFile_missing brokenOrderReader sampleFS sampleLib "jobs"
    [dbPart, cachePart, webPart] "order file"
    [("job_order", [.str "db", .str "web"]),
     ("broken_order", [.str "db", .str "nope", .str "web"])]
    [.str "db", .str "nope", .str "web"] rfl rfl rfl).2.1
    [.str "db"] [.str "web"] (.str "nope") rfl
    (by
      intro name hname
      simp only [List.mem_singleton] at hname
      subst hname
      exact ⟨dbPart, by simp, rfl⟩)
    (by
      intro p hp
      simp only [List.mem_cons, List.mem_singleton, List.not_mem_nil, or_false] at hp
      rcases hp with e | e | e <;> subst e <;> rfl)
  rw [h]
  rfl

/-- Witness for C24: the two items of `db.yml` read after the part of `web.yml`. -/
theorem readMetadataIntoParts_appends_witness :
    readMetadataIntoParts sampleLib "db.yml" (.list [dbItem, cacheItem]) [webPart] =
      ([webPart, dbPart, cachePart], none) := by
  have h := ((readMetadataIntoParts_appends sampleLib "db.yml" [webPart]).1
    [dbItem, cacheItem]
    (by
      intro item hitem
      simp only [List.mem_cons, List.mem_singleton, List.not_mem_nil, or_false] at hitem
      rcases hitem with e | e
      · subst e
        exact ⟨[(.str "name", .str "db")], "db", rfl, rfl⟩
      · subst e
        exact ⟨[(.str "name", .str "cache")], "cache", rfl, rfl⟩)).1
  rw [h]
  rfl

/-- Witness for C25: a string between two well-formed items; the part before and the item
already read are gone, the error is the one for the string. -/
theorem readMetadataIntoParts_fails_witness :
    readMetadataIntoParts sampleLib "db.yml" (.list [dbItem, .str "oops", cacheItem])
        [webPart] =
      ([], some "metadata item 'oops' must be a map") := by
  have h := (readMetadataIntoParts_fails sampleLib "db.yml"
    (.list [dbItem, .str "oops", cacheItem]) [webPart]).2.2.2.1
    [dbItem] [cacheItem] (.str "oops") rfl
    (by
      intro item hitem
      simp only [List.mem_singleton] at hitem
      subst hitem
      exact ⟨"db", rfl⟩)
    rfl
  rw [h]
  rfl

end Kiln.builder
